import Mathlib

/-!
Verification of the luster bytecode compiler core (src/compiler.rs).

The compiler is embedded shallowly: the stateful Rust code becomes explicit
state passing through a `CompM` state-and-error monad, machine integers
become `Nat`/`Int` with explicit bound checks where the Rust code performs
checked casts, Rust panics (`unreachable!`, `assert!`, `expect`) become
distinguished error values, and the recursive statement/expression walk is
made total with a fuel parameter (every claim below is proved either for all
fuel values or at a fuel large enough for the concrete program at hand).

Types that live in modules of this repository that are not part of the
sources given here (the parser AST, the opcode/value/function types and the
operator tables) are modelled from the specification; each such definition
carries a doc comment saying so.
-/

set_option maxRecDepth 100000
set_option maxHeartbeats 1000000

namespace Luster

/-- Identifier, a raw byte slice in the source; modelled as a string since
identifiers are compared by byte equality. -/
abbrev Name := String

/-- Modelled from the spec: runtime `Value` (module `value` is not in the
given sources).  Tagged union of Nil, Boolean, Integer, 64-bit float,
String/Table/Closure handles.  Equality for interning is bit-exact: the
float is represented directly by its raw 64-bit pattern (`bits`), so
positive and negative zero and distinct NaN patterns are distinct values, and heap handles carry an
identity (`id`, allocated freshly by the mutation context); strings also
carry their byte content for readability. -/
inductive Value where
  | nil
  | boolean (b : Bool)
  | integer (i : Int)
  | number (bits : Nat)
  | str (id : Nat) (bytes : String)
  | table (id : Nat)
  | closure (id : Nat)
deriving DecidableEq, Repr

/-- Modelled from the spec: `VarCount` (module `opcode` is not in the given
sources).  Encodes zero, a positive constant count, or "variable" (all
values to the top of the stack).  `make_zero` coincides with
`make_constant 0`; `make_constant` fails on overflow of the 8-bit operand. -/
structure VarCount where
  code : Nat
deriving DecidableEq, Repr

def VarCount.makeVariable : VarCount := ⟨0⟩

def VarCount.makeZero : VarCount := ⟨1⟩

def VarCount.makeConstant (c : Nat) : Option VarCount :=
  if c ≤ 254 then some ⟨c + 1⟩ else none

def VarCount.makeOne : VarCount := ⟨2⟩

/-- Modelled from the spec: `UpValueDescriptor` (module `function` is not in
the given sources): how a child function captures a variable. -/
inductive UpValueDescriptor where
  | parentLocal (register : Nat)
  | outer (upvalue : Nat)
  | environment
deriving DecidableEq, Repr

/-- Modelled from the spec: operand pair shapes of simple binary operator
opcodes (register/register, register/constant8, constant8/register). -/
inductive BinOpArgs where
  | rr (left right : Nat)
  | rc (left : Nat) (right : Nat)
  | cr (left : Nat) (right : Nat)
deriving DecidableEq, Repr

/-- Modelled from the spec: the opcode set (module `opcode` is not in the
given sources); the compiler depends only on the operand shapes.  `Return`
is named `ret` because `return` is reserved.  `addOp`/`negOp` stand for the
opcodes produced by the modelled operator-table entries. -/
inductive OpCode where
  | move (dest source : Nat)
  | loadNil (dest count : Nat)
  | loadBool (dest : Nat) (value skipNext : Bool)
  | loadConstant (dest constant : Nat)
  | getUpValue (source dest : Nat)
  | setUpValue (source dest : Nat)
  | newTable (dest : Nat)
  | getUpTableC (dest table key : Nat)
  | getUpTableR (dest table key : Nat)
  | getTableC (dest table key : Nat)
  | getTableR (dest table key : Nat)
  | setUpTableRR (table key value : Nat)
  | setUpTableRC (table key value : Nat)
  | setUpTableCR (table key value : Nat)
  | setUpTableCC (table key value : Nat)
  | setTableRR (table key value : Nat)
  | setTableRC (table key value : Nat)
  | setTableCR (table key value : Nat)
  | setTableCC (table key value : Nat)
  | test (value : Nat) (isTrue : Bool)
  | testSet (dest value : Nat) (isTrue : Bool)
  | jump (offset : Nat)
  | closure (proto dest : Nat)
  | call (func : Nat) (args returns : VarCount)
  | ret (start : Nat) (count : VarCount)
  | addOp (dest : Nat) (args : BinOpArgs)
  | negOp (dest source : Nat)
deriving DecidableEq, Repr

/-- Modelled from the spec: the emitted `FunctionProto` (module `function`
is not in the given sources).  Nested prototypes are stored by value; the
garbage-collected handle indirection is irrelevant to the compiler. -/
inductive FunctionProto where
  | mk (fixedParams : Nat) (hasVarargs : Bool) (stackSize : Nat)
      (constants : List Value) (opcodes : List OpCode)
      (upvalues : List UpValueDescriptor) (prototypes : List FunctionProto)

def FunctionProto.fixedParams : FunctionProto → Nat
  | .mk a _ _ _ _ _ _ => a

def FunctionProto.hasVarargs : FunctionProto → Bool
  | .mk _ a _ _ _ _ _ => a

def FunctionProto.stackSize : FunctionProto → Nat
  | .mk _ _ a _ _ _ _ => a

def FunctionProto.constants : FunctionProto → List Value
  | .mk _ _ _ a _ _ _ => a

def FunctionProto.opcodes : FunctionProto → List OpCode
  | .mk _ _ _ _ a _ _ => a

def FunctionProto.upvalues : FunctionProto → List UpValueDescriptor
  | .mk _ _ _ _ _ a _ => a

def FunctionProto.prototypes : FunctionProto → List FunctionProto
  | .mk _ _ _ _ _ _ a => a

/-- The `CompilerLimit` error kinds of `compiler.rs`. -/
inductive CompilerLimit where
  | registers
  | upValues
  | returns
  | fixedParameters
  | functions
  | constants
  | opCodes
deriving DecidableEq, Repr

/-- Compilation errors: resource limits, feature-gate `bail!` messages,
fuel exhaustion of the embedding, and the Rust panics, each modelled as a
distinguished error value: `unreachableEnv` is the `unreachable!` in
`get_environment`, `unreachableBinop` the one in `make_binop_args`,
`misplacedJump` the panic when patching a short-circuit jump,
`assertionFailed` covers the `assert!`/`assert_eq!`/`assert_ne!` calls and
`Option::unwrap`/`expect` panics, and `registerLeak` the register-leak
assertion in `to_proto`. -/
inductive CompileError where
  | limit (l : CompilerLimit)
  | unsupported (msg : String)
  | outOfFuel
  | unreachableEnv
  | unreachableBinop
  | misplacedJump
  | assertionFailed
  | registerLeak
deriving DecidableEq, Repr

/-- The register allocator state (struct `RegisterAllocator`).  The
256-entry boolean bitmap is modelled as a function from register index to
its allocation mark (indices outside 0..255 are never touched: `allocate`
and `push` stay below 256). -/
structure RegisterAllocator where
  registers : Nat → Bool
  firstFree : Nat
  stackTop : Nat
  stackSize : Nat

/-- Point update of the register bitmap (`self.registers[i] = b`). -/
def setReg (regs : Nat → Bool) (i : Nat) (b : Bool) : Nat → Bool :=
  fun j => if j = i then b else regs j

/-- Range update of the register bitmap (the `for` loops of `push` and
`pop_to`). -/
def setRange (regs : Nat → Bool) (start size : Nat) (b : Bool) : Nat → Bool :=
  fun j => if start ≤ j ∧ j < start + size then b else regs j

def RegisterAllocator.default : RegisterAllocator :=
  ⟨fun _ => false, 0, 0, 0⟩

/-- The `loop` inside `RegisterAllocator::allocate` that advances
`first_free` to the next free slot; the extra countdown argument makes the
loop structurally recursive and is always called with enough steps (257) to
reach the `i == 256` exit. -/
def scanFree (regs : Nat → Bool) : Nat → Nat → Nat
  | _, 0 => 0
  | i, f + 1 => if i = 256 ∨ !(regs i) then i else scanFree regs (i + 1) f

def RegisterAllocator.allocate (r : RegisterAllocator) : Option (Nat × RegisterAllocator) :=
  if r.firstFree < 256 then
    let register := r.firstFree
    let regs := setReg r.registers register true
    let stackTop := if r.firstFree = r.stackTop then r.stackTop + 1 else r.stackTop
    let stackSize := max r.stackSize stackTop
    some (register, ⟨regs, scanFree regs register 257, stackTop, stackSize⟩)
  else none

/-- `RegisterAllocator::free`; `none` models the panic of the
"cannot free unallocated register" assertion. -/
def RegisterAllocator.free (r : RegisterAllocator) (register : Nat) : Option RegisterAllocator :=
  if r.registers register then
    some ⟨setReg r.registers register false,
          min r.firstFree register,
          if register + 1 = r.stackTop then r.stackTop - 1 else r.stackTop,
          r.stackSize⟩
  else none

def RegisterAllocator.push (r : RegisterAllocator) (size : Nat) : Option (Nat × RegisterAllocator) :=
  if size = 0 then none
  else if size ≤ 256 - r.stackTop then
    let rbegin := r.stackTop
    let regs := setRange r.registers rbegin size true
    let firstFree := if r.firstFree = r.stackTop then r.firstFree + size else r.firstFree
    let stackTop := r.stackTop + size
    some (rbegin, ⟨regs, firstFree, stackTop, max r.stackSize stackTop⟩)
  else none

def RegisterAllocator.popTo (r : RegisterAllocator) (newTop : Nat) : RegisterAllocator :=
  if newTop < r.stackTop then
    ⟨setRange r.registers newTop (r.stackTop - newTop) false,
     min r.firstFree newTop, newTop, r.stackSize⟩
  else r

/-- Modelled from the spec: unary operator tokens of the AST. -/
inductive UnaryOperator where
  | minus
  | notOp
  | len
  | bitNot
deriving DecidableEq, Repr

/-- Modelled from the spec: binary operator tokens of the AST. -/
inductive BinaryOperator where
  | add | sub | mul | div | mod | pow
  | concat
  | lessThan | lessEqual | greaterThan | greaterEqual | equal | notEqual
  | and
  | or
deriving DecidableEq, Repr

/-- The short-circuit operator kinds (module `operators`). -/
inductive ShortCircuitBinOp where
  | and
  | or
deriving DecidableEq, Repr

/-- Modelled from the spec: a table constructor literal; only emptiness is
ever inspected by the compiler, so the fields are abstracted to a count. -/
structure TableConstructor where
  fieldCount : Nat

/-- Modelled from the spec: the dotted/method name of a `function`
statement (`FunctionName { name, fields, method }`). -/
structure FunctionName where
  name : Name
  fields : List Name
  method : Option Name

mutual

/-- Modelled from the spec: `Expression { head, tail }`. -/
inductive Expression where
  | mk (head : HeadExpression) (tail : List (BinaryOperator × Expression))

/-- Modelled from the spec: the head of an expression. -/
inductive HeadExpression where
  | simple (e : SimpleExpression)
  | unaryOp (op : UnaryOperator) (e : Expression)

/-- Modelled from the spec: simple expressions.  Floats are carried as raw
64-bit patterns, matching the bit-exact treatment of `Value`. -/
inductive SimpleExpression where
  | float (bits : Nat)
  | integer (i : Int)
  | stringE (s : String)
  | nil
  | trueE
  | falseE
  | varArgs
  | tableCtor (t : TableConstructor)
  | function (d : FunctionDefinition)
  | suffixed (e : SuffixedExpression)

/-- Modelled from the spec: a function literal body. -/
inductive FunctionDefinition where
  | mk (parameters : List Name) (hasVarargs : Bool) (body : Block)

/-- Modelled from the spec: `SuffixedExpression = primary + suffixes`. -/
inductive SuffixedExpression where
  | mk (primary : PrimaryExpression) (suffixes : List SuffixPart)

/-- Modelled from the spec: a name or a parenthesised expression. -/
inductive PrimaryExpression where
  | name (n : Name)
  | groupedExpression (e : Expression)

/-- Modelled from the spec: one suffix of a suffixed expression. -/
inductive SuffixPart where
  | field (f : FieldSuffix)
  | call (c : CallSuffix)

/-- Modelled from the spec: a field suffix, named or indexed. -/
inductive FieldSuffix where
  | named (n : Name)
  | indexed (e : Expression)

/-- Modelled from the spec: a call suffix, plain or method call. -/
inductive CallSuffix where
  | function (args : List Expression)
  | method (n : Name) (args : List Expression)

/-- Modelled from the spec: `Block { statements, return_statement }`. -/
inductive Block where
  | mk (statements : List Statement) (returnStatement : Option ReturnStatement)

/-- Modelled from the spec: `return e1, ..., en`. -/
inductive ReturnStatement where
  | mk (returns : List Expression)

/-- Modelled from the spec: the statement variants.  The payloads of the
statement kinds the compiler rejects unconditionally are elided since the
compiler never inspects them. -/
inductive Statement where
  | ifS
  | whileS
  | doS
  | forS
  | repeatS
  | function (f : FunctionStatement)
  | localFunction (f : FunctionStatement)
  | localStatement (l : LocalStatement)
  | labelS
  | breakS
  | gotoS
  | functionCall (c : FunctionCallStatement)
  | assignment (a : AssignmentStatement)

/-- Modelled from the spec: a `function name(...) ... end` statement. -/
inductive FunctionStatement where
  | mk (name : FunctionName) (definition : FunctionDefinition)

/-- Modelled from the spec: `local x1, ..., xn = e1, ..., em`. -/
inductive LocalStatement where
  | mk (names : List Name) (values : List Expression)

/-- Modelled from the spec: a function call in statement position. -/
inductive FunctionCallStatement where
  | mk (head : SuffixedExpression) (call : CallSuffix)

/-- Modelled from the spec: `t1, ..., tn = e1, ..., em`. -/
inductive AssignmentStatement where
  | mk (targets : List AssignmentTarget) (values : List Expression)

/-- Modelled from the spec: an assignment target. -/
inductive AssignmentTarget where
  | name (n : Name)
  | field (t : SuffixedExpression) (f : FieldSuffix)

end

/-- Modelled from the spec: the chunk handed to `compile_chunk`. -/
structure Chunk where
  block : Block

def Expression.head : Expression → HeadExpression
  | .mk h _ => h

def Expression.tail : Expression → List (BinaryOperator × Expression)
  | .mk _ t => t

def FunctionDefinition.parameters : FunctionDefinition → List Name
  | .mk p _ _ => p

def FunctionDefinition.hasVarargs : FunctionDefinition → Bool
  | .mk _ v _ => v

def FunctionDefinition.body : FunctionDefinition → Block
  | .mk _ _ b => b

def SuffixedExpression.primary : SuffixedExpression → PrimaryExpression
  | .mk p _ => p

def SuffixedExpression.suffixes : SuffixedExpression → List SuffixPart
  | .mk _ s => s

def Block.statements : Block → List Statement
  | .mk s _ => s

def Block.returnStatement : Block → Option ReturnStatement
  | .mk _ r => r

def ReturnStatement.returns : ReturnStatement → List Expression
  | .mk r => r

def FunctionStatement.name : FunctionStatement → FunctionName
  | .mk n _ => n

def FunctionStatement.definition : FunctionStatement → FunctionDefinition
  | .mk _ d => d

def LocalStatement.names : LocalStatement → List Name
  | .mk n _ => n

def LocalStatement.values : LocalStatement → List Expression
  | .mk _ v => v

def FunctionCallStatement.head : FunctionCallStatement → SuffixedExpression
  | .mk h _ => h

def FunctionCallStatement.call : FunctionCallStatement → CallSuffix
  | .mk _ c => c

def AssignmentStatement.targets : AssignmentStatement → List AssignmentTarget
  | .mk t _ => t

def AssignmentStatement.values : AssignmentStatement → List Expression
  | .mk _ v => v

/-- The central IR of the code generator (enum `ExprDescriptor`). -/
inductive ExprDescriptor where
  | register (register : Nat) (isTemporary : Bool)
  | upValue (idx : Nat)
  | value (v : Value)
  | functionCall (func : ExprDescriptor) (args : List ExprDescriptor)
  | shortCircuitBinOp (left : ExprDescriptor) (op : ShortCircuitBinOp) (right : Expression)

/-- Enum `RegisterOrConstant`. -/
inductive RegisterOrConstant where
  | register (r : Nat)
  | constant (c : Nat)

/-- Enum `ExprDestination`. -/
inductive ExprDestination where
  | register (r : Nat)
  | allocateNew
  | pushNew
  | none
deriving DecidableEq, Repr

/-- Enum `VariableDescriptor`; `local` is reserved in Lean so the first
variant is `localVar`. -/
inductive VariableDescriptor where
  | localVar (register : Nat)
  | upValue (upvalue : Nat)
  | global (name : Name)
deriving DecidableEq, Repr

/-- Struct `CompilerFunction`: the per-nesting compilation context.  The
`HashMap` interning table is modelled as an association list looked up with
the bit-exact `ConstantValue` equality, which for the `Value` model above is
plain structural equality. -/
structure CompilerFunction where
  constants : List Value
  constantTable : List (Value × Nat)
  upvalues : List (Name × UpValueDescriptor)
  prototypes : List FunctionProto
  registerAllocator : RegisterAllocator
  fixedParams : Nat
  locals : List (Name × Nat)
  opcodes : List OpCode

def CompilerFunction.default : CompilerFunction :=
  ⟨[], [], [], [], RegisterAllocator.default, 0, [], []⟩

/-- Struct `TopStack`: a stack guaranteed to have a top value; `lower`
grows at its end, so index 0 is the outermost (chunk) function. -/
structure TopStack where
  top : CompilerFunction
  lower : List CompilerFunction

def TopStack.new (t : CompilerFunction) : TopStack := ⟨t, []⟩

def TopStack.len (t : TopStack) : Nat := t.lower.length + 1

def TopStack.push (t : TopStack) (f : CompilerFunction) : TopStack :=
  ⟨f, t.lower ++ [t.top]⟩

/-- `TopStack::pop`; `none` models the `expect` panic on an empty stack. -/
def TopStack.pop (t : TopStack) : Option (CompilerFunction × TopStack) :=
  match t.lower.getLast? with
  | some f => some (t.top, ⟨f, t.lower.dropLast⟩)
  | Option.none => none

/-- `TopStack::get`.  Out-of-range indices panic in Rust and are never used;
the fallback to `top` mirrors the in-range case `i == lower.len()`. -/
def TopStack.get (t : TopStack) (i : Nat) : CompilerFunction :=
  t.lower.getD i t.top

/-- `TopStack::get_mut` as a functional update. -/
def TopStack.modifyAt (t : TopStack) (i : Nat) (g : CompilerFunction → CompilerFunction) : TopStack :=
  if i < t.lower.length then ⟨t.top, t.lower.set i (g (t.lower.getD i t.top))⟩
  else ⟨g t.top, t.lower⟩

/-- Struct `Compiler`.  The garbage-collecting mutation context is modelled
by `nextStringId`, a counter handing out fresh identities for the string
handles created by `String::new`. -/
structure Compiler where
  functions : TopStack
  nextStringId : Nat

/-- The result of one compiler step: an error aborting the whole
compilation, or a value together with the updated compiler state.  The
stateful Rust methods `fn f(&mut self, ...) -> Result<A, Error>` are
embedded as explicit state-passing functions `... → Compiler → Res A`. -/
abbrev Res (α : Type) := Except CompileError (α × Compiler)

/-- Sequencing of two steps, mirroring Rust's `?` operator: run the
continuation on the value and state produced by the first step, or abort
on its error. -/
def stepOk {α β : Type} (r : Res α) (f : α → Compiler → Res β) : Res β :=
  match r with
  | .error e => .error e
  | .ok (a, s1) => f a s1

/-- Lift an `Option` with the error of its `ok_or`. -/
def liftOpt {α : Type} (o : Option α) (e : CompileError) (s : Compiler) : Res α :=
  match o with
  | some a => .ok (a, s)
  | none => .error e

/-- Apply a mutation to `self.functions.top`. -/
def modTop (g : CompilerFunction → CompilerFunction) (s : Compiler) : Compiler :=
  ⟨⟨g s.functions.top, s.functions.lower⟩, s.nextStringId⟩

/-- `self.functions.top.opcodes.push(op)`. -/
def pushOpcodeS (op : OpCode) : Compiler → Compiler :=
  modTop fun f => { f with opcodes := f.opcodes ++ [op] }

/-- `self.functions.top.opcodes.extend(ops)`. -/
def extendOpcodesS (ops : List OpCode) : Compiler → Compiler :=
  modTop fun f => { f with opcodes := f.opcodes ++ ops }

/-- `self.functions.top.locals.push((name, register))`. -/
def pushLocalS (nm : Name) (reg : Nat) : Compiler → Compiler :=
  modTop fun f => { f with locals := f.locals ++ [(nm, reg)] }

/-- `String::new(mc, bytes)`: allocate a fresh string handle. -/
def stringNewS (bytes : String) (s : Compiler) : Value × Compiler :=
  (.str s.nextStringId bytes, ⟨s.functions, s.nextStringId + 1⟩)

/-- `self.functions.top.register_allocator.allocate().ok_or(Registers)`. -/
def allocS (s : Compiler) : Res Nat :=
  match s.functions.top.registerAllocator.allocate with
  | some (r, ra) => .ok (r, modTop (fun f => { f with registerAllocator := ra }) s)
  | none => .error (.limit .registers)

/-- `self.functions.top.register_allocator.push(size).ok_or(Registers)`. -/
def pushRegsS (size : Nat) (s : Compiler) : Res Nat :=
  match s.functions.top.registerAllocator.push size with
  | some (r, ra) => .ok (r, modTop (fun f => { f with registerAllocator := ra }) s)
  | none => .error (.limit .registers)

/-- `self.functions.top.register_allocator.free(register)`; the assertion
panic is `assertionFailed`. -/
def freeS (register : Nat) (s : Compiler) : Res Unit :=
  match s.functions.top.registerAllocator.free register with
  | some ra => .ok ((), modTop (fun f => { f with registerAllocator := ra }) s)
  | none => .error .assertionFailed

/-- `self.functions.top.register_allocator.pop_to(newTop)`. -/
def popToS (newTop : Nat) : Compiler → Compiler :=
  modTop fun f => { f with registerAllocator := f.registerAllocator.popTo newTop }

/-- Checked cast to `u8`. -/
def castU8 (n : Nat) : Option Nat := if n ≤ 255 then some n else none

/-- Checked cast to `u16`. -/
def castU16 (n : Nat) : Option Nat := if n ≤ 65535 then some n else none

/-- The reverse scan over a function's locals (innermost declaration
first), as in `find_variable`. -/
def findLocal (locals : List (Name × Nat)) (name : Name) : Option Nat :=
  match locals with
  | [] => none
  | p :: rest =>
      match findLocal rest name with
      | some r => some r
      | none => if p.1 = name then some p.2 else none

/-- The forward scan over a function's upvalues by name, returning the
first matching index, as in `find_variable`. -/
def findUpvalueIdx (upvalues : List (Name × UpValueDescriptor)) (name : Name) : Option Nat :=
  match upvalues with
  | [] => none
  | p :: rest =>
      if p.1 = name then some 0
      else (findUpvalueIdx rest name).map (· + 1)

/-- Append an upvalue entry to the function context at stack index `i`
(`self.functions.get_mut(i).upvalues.push(entry)`). -/
def pushUpvalAt (i : Nat) (entry : Name × UpValueDescriptor) (s : Compiler) : Compiler :=
  ⟨s.functions.modifyAt i (fun f => { f with upvalues := f.upvalues ++ [entry] }),
   s.nextStringId⟩

/-- The `for k in start..function_len` loops of `find_variable` that extend
an upvalue chain with `Outer` entries; the first argument counts the
remaining iterations `function_len - k`. -/
def propagateOuter (name : Name) : Nat → Nat → Nat → Compiler → Res Nat
  | 0, _, idx, s => .ok (idx, s)
  | r + 1, k, idx, s =>
      let s1 := pushUpvalAt k (name, .outer idx) s
      stepOk (liftOpt (castU8 ((s1.functions.get k).upvalues.length - 1))
          (.limit .upValues) s1) fun idx1 s2 =>
        propagateOuter name r (k + 1) idx1 s2

/-- One iteration of `Compiler::find_variable`'s outer loop: scan depth
`i`, answering `some` to return from the whole scan and `none` to continue
at depth `i - 1`; depth 0 is the chunk function. -/
def findVarScan (name : Name) (i : Nat) (s : Compiler) : Res (Option VariableDescriptor) :=
  let flen := s.functions.len
  match findLocal (s.functions.get i).locals name with
  | some register =>
      if i = flen - 1 then .ok (some (.localVar register), s)
      else
        let s1 := pushUpvalAt (i + 1) (name, .parentLocal register) s
        stepOk (liftOpt (castU8 ((s1.functions.get (i + 1)).upvalues.length - 1))
            (.limit .upValues) s1) fun idx0 s2 =>
          stepOk (propagateOuter name (flen - (i + 2)) (i + 2) idx0 s2) fun idx s3 =>
            .ok (some (.upValue idx), s3)
  | none =>
      let s1 :=
        if i = 0 ∧ name = "_ENV" ∧ (s.functions.get 0).upvalues.isEmpty then
          pushUpvalAt 0 ("_ENV", .environment) s
        else s
      match findUpvalueIdx (s1.functions.get i).upvalues name with
      | some j =>
          stepOk (liftOpt (castU8 j) .assertionFailed s1) fun j1 s2 =>
            if i = flen - 1 then .ok (some (.upValue j1), s2)
            else
              stepOk (propagateOuter name (flen - (i + 1)) (i + 1) j1 s2) fun idx s3 =>
                .ok (some (.upValue idx), s3)
      | none => .ok (none, s1)

/-- The outer loop of `Compiler::find_variable`, from depth `i` down to
depth 0; falling through every depth yields `Global`. -/
def findVariableAux (name : Name) : Nat → Compiler → Res VariableDescriptor
  | 0, s =>
      stepOk (findVarScan name 0 s) fun r s1 =>
        match r with
        | some res => .ok (res, s1)
        | none => .ok (.global name, s1)
  | i + 1, s =>
      stepOk (findVarScan name (i + 1) s) fun r s1 =>
        match r with
        | some res => .ok (res, s1)
        | none => findVariableAux name i s1

/-- `Compiler::find_variable`. -/
def findVariableS (name : Name) (s : Compiler) : Res VariableDescriptor :=
  findVariableAux name (s.functions.len - 1) s

/-- `Compiler::get_environment`: resolve `_ENV`; the `unreachable!` branch
becomes the `unreachableEnv` error. -/
def getEnvironmentS (s : Compiler) : Res ExprDescriptor :=
  stepOk (findVariableS "_ENV" s) fun v s1 =>
    match v with
    | .localVar register => .ok (.register register false, s1)
    | .upValue upvalue => .ok (.upValue upvalue, s1)
    | .global _ => .error .unreachableEnv

/-- Association-list lookup standing for the `HashMap` lookup of the
interning table; keys are compared with the bit-exact `ConstantValue`
equality, which here is structural equality of `Value`. -/
def lookupConstant (table : List (Value × Nat)) (v : Value) : Option Nat :=
  match table with
  | [] => none
  | p :: rest => if p.1 = v then some p.2 else lookupConstant rest v

/-- `Compiler::get_constant`. -/
def getConstantS (constant : Value) (s : Compiler) : Res Nat :=
  match lookupConstant s.functions.top.constantTable constant with
  | some c => .ok (c, s)
  | none =>
      match castU16 s.functions.top.constants.length with
      | some c =>
          .ok (c, modTop (fun f =>
            { f with constants := f.constants ++ [constant],
                     constantTable := (constant, c) :: f.constantTable }) s)
      | none => .error (.limit .constants)

/-- `Compiler::load_nil`: emit a LoadNil opcode; when the previous opcode
is a LoadNil covering the registers right below `dest`, the code pushes a
widened LoadNil (note: it pushes, it does not replace the previous one). -/
def loadNilS (dest : Nat) (s : Compiler) : Compiler :=
  match s.functions.top.opcodes.getLast? with
  | some (.loadNil prevDest prevCount) =>
      if prevDest + prevCount = dest then
        pushOpcodeS (.loadNil prevDest (prevCount + 1)) s
      else
        pushOpcodeS (.loadNil dest 1) s
  | _ => pushOpcodeS (.loadNil dest 1) s

/-- `CompilerFunction::to_proto`; `none` models the "register leak
detected" assertion. -/
def CompilerFunction.toProto (f : CompilerFunction) : Option FunctionProto :=
  if f.registerAllocator.stackTop = f.locals.length then
    some (.mk f.fixedParams false f.registerAllocator.stackSize f.constants f.opcodes
      (f.upvalues.map (·.2)) f.prototypes)
  else none

/-- Wrap the Lua integer arithmetic of the folded operators: 64-bit
wrap-around. -/
def wrap64 (n : Int) : Int := (n + 2 ^ 63) % 2 ^ 64 - 2 ^ 63

/-- Modelled from the spec: the category split of `categorize_binop`
(module `operators` is not in the given sources). -/
inductive BinOpCategory where
  | simple (op : BinaryOperator)
  | comparison (op : BinaryOperator)
  | shortCircuit (op : ShortCircuitBinOp)
  | concat

def categorizeBinop : BinaryOperator → BinOpCategory
  | .and => .shortCircuit .and
  | .or => .shortCircuit .or
  | .concat => .concat
  | .lessThan => .comparison .lessThan
  | .lessEqual => .comparison .lessEqual
  | .greaterThan => .comparison .greaterThan
  | .greaterEqual => .comparison .greaterEqual
  | .equal => .comparison .equal
  | .notEqual => .comparison .notEqual
  | op => .simple op

/-- Modelled from the spec: an entry of the `SIMPLE_BINOPS` table: a
constant-folding predicate and an opcode constructor. -/
structure SimpleBinOpEntry where
  constantFold : Value → Value → Option Value
  makeOpcode : Nat → BinOpArgs → OpCode

/-- Modelled from the spec: the fold function for `+`, defined on two
integers (the real table also folds two floats, but floats are opaque bit
patterns here, so that case is left unfolded; no claim depends on it). -/
def addFold (a b : Value) : Option Value :=
  match a, b with
  | .integer x, .integer y => some (.integer (wrap64 (x + y)))
  | _, _ => none

/-- Modelled from the spec: the `SIMPLE_BINOPS` lookup; only `+` is needed
by the claims, the other entries answer `none` ("unsupported binary
operator"). -/
def simpleBinops : BinaryOperator → Option SimpleBinOpEntry
  | .add => some ⟨addFold, fun dest args => .addOp dest args⟩
  | _ => none

/-- Modelled from the spec: an entry of the `COMPARISON_BINOPS` table,
producing a fixed opcode sequence. -/
structure ComparisonBinOpEntry where
  constantFold : Value → Value → Option Value
  makeOpcodes : Nat → BinOpArgs → List OpCode

/-- Modelled from the spec: the `COMPARISON_BINOPS` lookup; no claim
exercises a comparison operator, so every entry answers `none`. -/
def comparisonBinops : BinaryOperator → Option ComparisonBinOpEntry
  | _ => none

/-- Modelled from the spec: an entry of the `UNOPS` table. -/
structure UnOpEntry where
  constantFold : Value → Option Value
  makeOpcode : Nat → Nat → OpCode

/-- Modelled from the spec: the `UNOPS` lookup; only unary minus is
modelled (integer negation folds), no claim depends on the others. -/
def unops : UnaryOperator → Option UnOpEntry
  | .minus =>
      some ⟨fun v => match v with
              | .integer x => some (.integer (wrap64 (-x)))
              | _ => none,
            fun dest source => .negOp dest source⟩
  | _ => none

/-- Modelled from the spec: the checked cast of a short-circuit jump offset
into the Jump operand; the spec leaves the width open ("the opcode operand
width"), a 16-bit signed bound is used.  No claim depends on the exact
bound. -/
def castJump (n : Nat) : Option Nat := if n ≤ 32767 then some n else none

/-- The trailing loop of `local_statement`: initialize surplus names to
nil via (the compiler's attempt at) fused LoadNil. -/
def nilLocalsS : List Name → Compiler → Res Unit
  | [], s => .ok ((), s)
  | nm :: rest, s =>
      stepOk (allocS s) fun reg s1 =>
        nilLocalsS rest (pushLocalS nm reg (loadNilS reg s1))

/-- `Compiler::table_constructor`. -/
def tableConstructorS (t : TableConstructor) (s : Compiler) : Res ExprDescriptor :=
  if t.fieldCount ≠ 0 then .error (.unsupported "only empty table constructors supported")
  else
    stepOk (allocS s) fun dest s1 =>
      .ok (.register dest true, pushOpcodeS (.newTable dest) s1)

/-- The helper `new_destination` inside `expr_discharge`. -/
def newDestinationS (dest : ExprDestination) (s : Compiler) : Res (Option Nat) :=
  match dest with
  | .register d => .ok (some d, s)
  | .allocateNew => stepOk (allocS s) fun r s1 => .ok (some r, s1)
  | .pushNew => stepOk (pushRegsS 1 s) fun r s1 => .ok (some r, s1)
  | .none => .ok (none, s)

/-- The parameter-binding loop of `new_prototype`. -/
def bindParams (params : List Name) : List (Name × Nat) :=
  (List.range params.length).map fun i => (params.getD i "", i)

/-- The local-binding loop of the multi-return arm of `local_statement`:
names `names[i + j]` bound to registers `reg + j` for `j < num`. -/
def bindSeq (names : List Name) (i num reg : Nat) : List (Name × Nat) :=
  (List.range num).map fun j => (names.getD (i + j) "", reg + j)

/-- The recursive compiler methods are tied through a single fuel-indexed
dispatcher (`compRun` below); `CompCall` is the sum of their argument
shapes, one constructor per method (or per source-level loop inside a
method). -/
inductive CompCall where
  | block (b : Block)
  | statementList (l : List Statement)
  | statement (st : Statement)
  | functionStatement (fs : FunctionStatement)
  | returnStatement (rs : ReturnStatement)
  | pushReturns (l : List Expression)
  | localStatement (ls : LocalStatement)
  | localValues (ls : LocalStatement) (i : Nat)
  | functionCallStatement (c : FunctionCallStatement)
  | assignment (a : AssignmentStatement)
  | assignTargets (a : AssignmentStatement) (i : Nat)
  | localFunction (fs : FunctionStatement)
  | expression (e : Expression)
  | expressionTail (d : ExprDescriptor) (t : List (BinaryOperator × Expression))
  | headExpression (he : HeadExpression)
  | simpleExpression (se : SimpleExpression)
  | functionExpression (d : FunctionDefinition)
  | suffixedExpression (se : SuffixedExpression)
  | suffixes (d : ExprDescriptor) (parts : List SuffixPart)
  | primaryExpression (pe : PrimaryExpression)
  | expressionList (l : List Expression)
  | newPrototype (d : FunctionDefinition)
  | unaryOperator (op : UnaryOperator) (e : ExprDescriptor)
  | binaryOperator (left : ExprDescriptor) (op : BinaryOperator) (right : Expression)
  | makeBinOpArgs (l r : ExprDescriptor)
  | exprDischarge (e : ExprDescriptor) (dest : ExprDestination)
  | exprFunctionCall (f : ExprDescriptor) (args : List ExprDescriptor) (returns : VarCount)
  | dischargeArgs (args : List ExprDescriptor)
  | getTable (t k : ExprDescriptor)
  | setTable (t k v : ExprDescriptor)
  | anyRegister (e : ExprDescriptor)
  | anyRegisterOrConstant (e : ExprDescriptor)

/-- The sum of the compiler methods' result types. -/
inductive CRes where
  | unit
  | expr (d : ExprDescriptor)
  | exprList (l : List ExprDescriptor)
  | optReg (r : Option Nat)
  | reg (r : Nat)
  | binArgs (a : BinOpArgs)
  | regExpr (r : Nat) (e : ExprDescriptor)
  | rcExpr (rc : RegisterOrConstant) (e : ExprDescriptor)
  | triple (a b c : ExprDescriptor)

/-- The type of the recursion parameter threaded through the compiler
methods; `compRun fuel` is the instance actually used. -/
abbrev Recur := CompCall → Compiler → Res CRes

/-- Invoke a method returning unit.  The mismatch arms of these `call*`
projections are dead code (the dispatcher always answers in the right
shape). -/
def callUnit (recur : Recur) (c : CompCall) (s : Compiler) : Res Unit :=
  stepOk (recur c s) fun r s1 =>
    match r with
    | .unit => .ok ((), s1)
    | _ => .error .assertionFailed

/-- Invoke a method returning an expression descriptor. -/
def callExpr (recur : Recur) (c : CompCall) (s : Compiler) : Res ExprDescriptor :=
  stepOk (recur c s) fun r s1 =>
    match r with
    | .expr d => .ok (d, s1)
    | _ => .error .assertionFailed

/-- Invoke a method returning a list of expression descriptors. -/
def callExprList (recur : Recur) (c : CompCall) (s : Compiler) : Res (List ExprDescriptor) :=
  stepOk (recur c s) fun r s1 =>
    match r with
    | .exprList l => .ok (l, s1)
    | _ => .error .assertionFailed

/-- Invoke a method returning an optional register. -/
def callOptReg (recur : Recur) (c : CompCall) (s : Compiler) : Res (Option Nat) :=
  stepOk (recur c s) fun r s1 =>
    match r with
    | .optReg r1 => .ok (r1, s1)
    | _ => .error .assertionFailed

/-- Invoke a method returning a register or index. -/
def callReg (recur : Recur) (c : CompCall) (s : Compiler) : Res Nat :=
  stepOk (recur c s) fun r s1 =>
    match r with
    | .reg r1 => .ok (r1, s1)
    | _ => .error .assertionFailed

/-- Invoke a method returning binary operand shapes. -/
def callBinArgs (recur : Recur) (c : CompCall) (s : Compiler) : Res BinOpArgs :=
  stepOk (recur c s) fun r s1 =>
    match r with
    | .binArgs a => .ok (a, s1)
    | _ => .error .assertionFailed

/-- Invoke a method returning a register with an updated descriptor. -/
def callRegExpr (recur : Recur) (c : CompCall) (s : Compiler) : Res (Nat × ExprDescriptor) :=
  stepOk (recur c s) fun r s1 =>
    match r with
    | .regExpr r1 e => .ok ((r1, e), s1)
    | _ => .error .assertionFailed

/-- Invoke a method returning a register-or-constant with an updated
descriptor. -/
def callRCExpr (recur : Recur) (c : CompCall) (s : Compiler) :
    Res (RegisterOrConstant × ExprDescriptor) :=
  stepOk (recur c s) fun r s1 =>
    match r with
    | .rcExpr rc e => .ok ((rc, e), s1)
    | _ => .error .assertionFailed

/-- Invoke a method returning three descriptors. -/
def callTriple (recur : Recur) (c : CompCall) (s : Compiler) :
    Res (ExprDescriptor × ExprDescriptor × ExprDescriptor) :=
  stepOk (recur c s) fun r s1 =>
    match r with
    | .triple a b c1 => .ok ((a, b, c1), s1)
    | _ => .error .assertionFailed

/-- `Compiler::block`. -/
def blockF (recur : Recur) (b : Block) (s : Compiler) : Res Unit :=
  stepOk (callUnit recur (.statementList b.statements) s) fun _ s1 =>
    match b.returnStatement with
    | some rs => callUnit recur (.returnStatement rs) s1
    | Option.none => .ok ((), pushOpcodeS (.ret 0 VarCount.makeZero) s1)

/-- The statement loop of `Compiler::block`. -/
def statementListF (recur : Recur) : List Statement → Compiler → Res Unit
  | [], s => .ok ((), s)
  | st :: rest, s =>
      stepOk (callUnit recur (.statement st) s) fun _ s1 =>
        callUnit recur (.statementList rest) s1

/-- `Compiler::statement`. -/
def statementF (recur : Recur) (st : Statement) (s : Compiler) : Res Unit :=
  match st with
  | .ifS => .error (.unsupported "if statement unsupported")
  | .whileS => .error (.unsupported "while statement unsupported")
  | .doS => .error (.unsupported "do statement unsupported")
  | .forS => .error (.unsupported "for statement unsupported")
  | .repeatS => .error (.unsupported "repeat statement unsupported")
  | .function fs => callUnit recur (.functionStatement fs) s
  | .localFunction fs => callUnit recur (.localFunction fs) s
  | .localStatement ls => callUnit recur (.localStatement ls) s
  | .labelS => .error (.unsupported "label statement unsupported")
  | .breakS => .error (.unsupported "break statement unsupported")
  | .gotoS => .error (.unsupported "goto statement unsupported")
  | .functionCall c => callUnit recur (.functionCallStatement c) s
  | .assignment a => callUnit recur (.assignment a) s

/-- `Compiler::function_statement`. -/
def functionStatementF (recur : Recur) (fs : FunctionStatement) (s : Compiler) : Res Unit :=
  if !fs.name.fields.isEmpty then .error (.unsupported "no function name fields support")
  else if fs.name.method.isSome then .error (.unsupported "no method support")
  else
    stepOk (callReg recur (.newPrototype fs.definition) s) fun proto s1 =>
    stepOk (getEnvironmentS s1) fun env s2 =>
    stepOk (allocS s2) fun dest s3 =>
    let s4 := pushOpcodeS (.closure proto dest) s3
    let p := stringNewS fs.name.name s4
    stepOk (callTriple recur (.setTable env (.value p.1) (.register dest true)) p.2) fun r s5 =>
    stepOk (callOptReg recur (.exprDischarge r.1 .none) s5) fun _ s6 =>
    stepOk (callOptReg recur (.exprDischarge r.2.1 .none) s6) fun _ s7 =>
    stepOk (callOptReg recur (.exprDischarge r.2.2 .none) s7) fun _ s8 =>
    .ok ((), s8)

/-- `Compiler::return_statement`. -/
def returnStatementF (recur : Recur) (rs : ReturnStatement) (s : Compiler) : Res Unit :=
  if rs.returns.length = 0 then .ok ((), pushOpcodeS (.ret 0 VarCount.makeZero) s)
  else
    stepOk (liftOpt (castU8 s.functions.top.registerAllocator.stackTop)
        (.limit .registers) s) fun retStart s1 =>
    stepOk (callUnit recur (.pushReturns rs.returns.dropLast) s1) fun _ s2 =>
    stepOk (liftOpt rs.returns.getLast? .assertionFailed s2) fun lastE s3 =>
    stepOk (callExpr recur (.expression lastE) s3) fun lastD s4 =>
    stepOk
      (match lastD with
       | .functionCall func args =>
           stepOk (callReg recur (.exprFunctionCall func args VarCount.makeVariable) s4)
             fun _ s5 => .ok (VarCount.makeVariable, s5)
       | d =>
           stepOk (callOptReg recur (.exprDischarge d .pushNew) s4) fun _ s5 =>
             liftOpt ((castU8 rs.returns.length).bind VarCount.makeConstant)
               (.limit .returns) s5)
      fun retCount s6 =>
    .ok ((), popToS retStart (pushOpcodeS (.ret retStart retCount) s6))

/-- The `for i in 0..ret_len - 1` loop of `return_statement`. -/
def pushReturnsF (recur : Recur) : List Expression → Compiler → Res Unit
  | [], s => .ok ((), s)
  | e :: rest, s =>
      stepOk (callExpr recur (.expression e) s) fun d s1 =>
      stepOk (callOptReg recur (.exprDischarge d .pushNew) s1) fun _ s2 =>
      callUnit recur (.pushReturns rest) s2

/-- `Compiler::local_statement`. -/
def localStatementF (recur : Recur) (ls : LocalStatement) (s : Compiler) : Res Unit :=
  callUnit recur (.localValues ls 0) s

/-- The `for i in 0..val_len` loop of `local_statement` (index `i`),
falling through to the surplus-name nil loop when the values are
exhausted.  The multi-return arm returns early, skipping the nil loop. -/
def localValuesF (recur : Recur) (ls : LocalStatement) (i : Nat) (s : Compiler) : Res Unit :=
  match ls.values.get? i with
  | Option.none => nilLocalsS (ls.names.drop ls.values.length) s
  | some value =>
      stepOk (callExpr recur (.expression value) s) fun expr s1 =>
        if i ≥ ls.names.length then
          stepOk (callOptReg recur (.exprDischarge expr .none) s1) fun _ s2 =>
            callUnit recur (.localValues ls (i + 1)) s2
        else if i = ls.values.length - 1 then
          match expr with
          | .functionCall func args =>
              stepOk (liftOpt (castU8 (1 + ls.names.length - ls.values.length))
                  (.limit .registers) s1) fun numReturns s2 =>
              stepOk (liftOpt (VarCount.makeConstant numReturns) (.limit .returns) s2)
                fun vc s3 =>
              stepOk (callReg recur (.exprFunctionCall func args vc) s3) fun _ s4 =>
              stepOk (pushRegsS numReturns s4) fun reg s5 =>
              .ok ((), modTop (fun f =>
                { f with locals := f.locals ++ bindSeq ls.names i numReturns reg }) s5)
          | expr =>
              stepOk (callOptReg recur (.exprDischarge expr .allocateNew) s1) fun regOpt s2 =>
              stepOk (liftOpt regOpt .assertionFailed s2) fun reg s3 =>
              callUnit recur (.localValues ls (i + 1)) (pushLocalS (ls.names.getD i "") reg s3)
        else
          stepOk (callOptReg recur (.exprDischarge expr .allocateNew) s1) fun regOpt s2 =>
          stepOk (liftOpt regOpt .assertionFailed s2) fun reg s3 =>
          callUnit recur (.localValues ls (i + 1)) (pushLocalS (ls.names.getD i "") reg s3)

/-- `Compiler::function_call` (statement position). -/
def functionCallStatementF (recur : Recur) (c : FunctionCallStatement) (s : Compiler) :
    Res Unit :=
  stepOk (callExpr recur (.suffixedExpression c.head) s) fun funcExpr s1 =>
    match c.call with
    | .function args =>
        stepOk (callExprList recur (.expressionList args) s1) fun argExprs s2 =>
        stepOk (callReg recur (.exprFunctionCall funcExpr argExprs VarCount.makeZero) s2)
          fun _ s3 => .ok ((), s3)
    | .method _ _ => .error (.unsupported "method call unsupported")

/-- `Compiler::assignment`. -/
def assignmentF (recur : Recur) (a : AssignmentStatement) (s : Compiler) : Res Unit :=
  callUnit recur (.assignTargets a 0) s

/-- The target loop of `Compiler::assignment` (index `i`). -/
def assignTargetsF (recur : Recur) (a : AssignmentStatement) (i : Nat) (s : Compiler) :
    Res Unit :=
  match a.targets.get? i with
  | Option.none => .ok ((), s)
  | some target =>
      stepOk
        (match a.values.get? i with
         | some v => callExpr recur (.expression v) s
         | Option.none => .ok (ExprDescriptor.value .nil, s))
        fun expr s1 =>
      stepOk
        (match target with
         | .name nm =>
             stepOk (findVariableS nm s1) fun v s2 =>
               match v with
               | .localVar dest =>
                   stepOk (callOptReg recur (.exprDischarge expr (.register dest)) s2)
                     fun _ s3 => .ok ((), s3)
               | .upValue dest =>
                   stepOk (callRegExpr recur (.anyRegister expr) s2) fun r s3 =>
                   stepOk (callOptReg recur (.exprDischarge r.2 .none)
                       (pushOpcodeS (.setUpValue r.1 dest) s3)) fun _ s4 =>
                   .ok ((), s4)
               | .global gname =>
                   stepOk (getEnvironmentS s2) fun env s3 =>
                   let p := stringNewS gname s3
                   stepOk (callTriple recur (.setTable env (.value p.1) expr) p.2) fun r s4 =>
                   stepOk (callOptReg recur (.exprDischarge r.1 .none) s4) fun _ s5 =>
                   stepOk (callOptReg recur (.exprDischarge r.2.1 .none) s5) fun _ s6 =>
                   stepOk (callOptReg recur (.exprDischarge r.2.2 .none) s6) fun _ s7 =>
                   .ok ((), s7)
         | .field tbl fld =>
             stepOk (callExpr recur (.suffixedExpression tbl) s1) fun table s2 =>
             stepOk
               (match fld with
                | .named nm =>
                    let p := stringNewS nm s2
                    .ok (ExprDescriptor.value p.1, p.2)
                | .indexed idx => callExpr recur (.expression idx) s2)
               fun key s3 =>
             stepOk (callTriple recur (.setTable table key expr) s3) fun r s4 =>
             stepOk (callOptReg recur (.exprDischarge r.1 .none) s4) fun _ s5 =>
             stepOk (callOptReg recur (.exprDischarge r.2.1 .none) s5) fun _ s6 =>
             stepOk (callOptReg recur (.exprDischarge r.2.2 .none) s6) fun _ s7 =>
             .ok ((), s7))
        fun _ s8 =>
      callUnit recur (.assignTargets a (i + 1)) s8

/-- `Compiler::local_function`. -/
def localFunctionF (recur : Recur) (fs : FunctionStatement) (s : Compiler) : Res Unit :=
  if !fs.name.fields.isEmpty then .error (.unsupported "no function name fields support")
  else if fs.name.method.isSome then .error (.unsupported "no method support")
  else
    stepOk (callReg recur (.newPrototype fs.definition) s) fun proto s1 =>
    stepOk (allocS s1) fun dest s2 =>
    .ok ((), pushLocalS fs.name.name dest (pushOpcodeS (.closure proto dest) s2))

/-- `Compiler::expression`. -/
def expressionF (recur : Recur) (e : Expression) (s : Compiler) : Res ExprDescriptor :=
  stepOk (callExpr recur (.headExpression e.head) s) fun d s1 =>
    callExpr recur (.expressionTail d e.tail) s1

/-- The binary-operator fold of `Compiler::expression`. -/
def expressionTailF (recur : Recur) (d : ExprDescriptor) :
    List (BinaryOperator × Expression) → Compiler → Res ExprDescriptor
  | [], s => .ok (d, s)
  | (binop, right) :: rest, s =>
      stepOk (callExpr recur (.binaryOperator d binop right) s) fun d1 s1 =>
        callExpr recur (.expressionTail d1 rest) s1

/-- `Compiler::head_expression`. -/
def headExpressionF (recur : Recur) (he : HeadExpression) (s : Compiler) : Res ExprDescriptor :=
  match he with
  | .simple se => callExpr recur (.simpleExpression se) s
  | .unaryOp unop e =>
      stepOk (callExpr recur (.expression e) s) fun d s1 =>
        callExpr recur (.unaryOperator unop d) s1

/-- `Compiler::simple_expression`. -/
def simpleExpressionF (recur : Recur) (se : SimpleExpression) (s : Compiler) :
    Res ExprDescriptor :=
  match se with
  | .float bits => .ok (.value (.number bits), s)
  | .integer i => .ok (.value (.integer i), s)
  | .stringE str =>
      let p := stringNewS str s
      .ok (.value p.1, p.2)
  | .nil => .ok (.value .nil, s)
  | .trueE => .ok (.value (.boolean true), s)
  | .falseE => .ok (.value (.boolean false), s)
  | .varArgs => .error (.unsupported "varargs expression unsupported")
  | .tableCtor t => tableConstructorS t s
  | .function d => callExpr recur (.functionExpression d) s
  | .suffixed sx => callExpr recur (.suffixedExpression sx) s

/-- `Compiler::function_expression`. -/
def functionExpressionF (recur : Recur) (d : FunctionDefinition) (s : Compiler) :
    Res ExprDescriptor :=
  stepOk (callReg recur (.newPrototype d) s) fun proto s1 =>
  stepOk (allocS s1) fun dest s2 =>
  .ok (.register dest true, pushOpcodeS (.closure proto dest) s2)

/-- `Compiler::suffixed_expression`. -/
def suffixedExpressionF (recur : Recur) (se : SuffixedExpression) (s : Compiler) :
    Res ExprDescriptor :=
  stepOk (callExpr recur (.primaryExpression se.primary) s) fun d s1 =>
    callExpr recur (.suffixes d se.suffixes) s1

/-- The suffix loop of `Compiler::suffixed_expression`. -/
def suffixesF (recur : Recur) (d : ExprDescriptor) :
    List SuffixPart → Compiler → Res ExprDescriptor
  | [], s => .ok (d, s)
  | part :: rest, s =>
      match part with
      | .field fld =>
          stepOk
            (match fld with
             | .named nm =>
                 let p := stringNewS nm s
                 .ok (ExprDescriptor.value p.1, p.2)
             | .indexed idx => callExpr recur (.expression idx) s)
            fun key s1 =>
          stepOk (callTriple recur (.getTable d key) s1) fun r s2 =>
          stepOk (callOptReg recur (.exprDischarge r.2.1 .none) s2) fun _ s3 =>
          stepOk (callOptReg recur (.exprDischarge r.2.2 .none) s3) fun _ s4 =>
          callExpr recur (.suffixes r.1 rest) s4
      | .call cs =>
          match cs with
          | .function args =>
              stepOk (callExprList recur (.expressionList args) s) fun argExprs s1 =>
                callExpr recur (.suffixes (.functionCall d argExprs) rest) s1
          | .method _ _ => .error (.unsupported "methods not supported yet")

/-- `Compiler::primary_expression`. -/
def primaryExpressionF (recur : Recur) (pe : PrimaryExpression) (s : Compiler) :
    Res ExprDescriptor :=
  match pe with
  | .name nm =>
      stepOk (findVariableS nm s) fun v s1 =>
        match v with
        | .localVar register => .ok (.register register false, s1)
        | .upValue upvalue => .ok (.upValue upvalue, s1)
        | .global gname =>
            stepOk (getEnvironmentS s1) fun env s2 =>
            let p := stringNewS gname s2
            stepOk (callTriple recur (.getTable env (.value p.1)) p.2) fun r s3 =>
            stepOk (callOptReg recur (.exprDischarge r.2.1 .none) s3) fun _ s4 =>
            stepOk (callOptReg recur (.exprDischarge r.2.2 .none) s4) fun _ s5 =>
            .ok (r.1, s5)
  | .groupedExpression e => callExpr recur (.expression e) s

/-- The argument collection `args.iter().map(|arg| self.expression(arg))`. -/
def expressionListF (recur : Recur) : List Expression → Compiler → Res (List ExprDescriptor)
  | [], s => .ok ([], s)
  | e :: rest, s =>
      stepOk (callExpr recur (.expression e) s) fun d s1 =>
      stepOk (callExprList recur (.expressionList rest) s1) fun ds s2 =>
      .ok (d :: ds, s2)

/-- `Compiler::new_prototype`. -/
def newPrototypeF (recur : Recur) (d : FunctionDefinition) (s : Compiler) : Res Nat :=
  if d.hasVarargs then .error (.unsupported "no varargs support")
  else
    let s1 : Compiler := ⟨s.functions.push CompilerFunction.default, s.nextStringId⟩
    stepOk (liftOpt (castU8 d.parameters.length) (.limit .fixedParameters) s1)
      fun fixedParams s2 =>
    let s3 := modTop (fun f =>
      { f with registerAllocator :=
          match f.registerAllocator.push fixedParams with
          | some (_, ra) => ra
          | Option.none => f.registerAllocator }) s2
    let s4 := modTop (fun f => { f with fixedParams := fixedParams }) s3
    let s5 := modTop (fun f => { f with locals := f.locals ++ bindParams d.parameters }) s4
    stepOk (callUnit recur (.block d.body) s5) fun _ s6 =>
    stepOk
      (match s6.functions.pop with
       | some (fn, ts) => .ok (fn, (⟨ts, s6.nextStringId⟩ : Compiler))
       | Option.none => .error .assertionFailed)
      fun newFunction s7 =>
    stepOk (liftOpt newFunction.toProto .registerLeak s7) fun proto s8 =>
    let s9 := modTop (fun f => { f with prototypes := f.prototypes ++ [proto] }) s8
    liftOpt (castU16 (s9.functions.top.prototypes.length - 1)) (.limit .functions) s9

/-- `Compiler::unary_operator`. -/
def unaryOperatorF (recur : Recur) (unop : UnaryOperator) (expr : ExprDescriptor)
    (s : Compiler) : Res ExprDescriptor :=
  stepOk (liftOpt (unops unop) (.unsupported "unsupported unary operator") s) fun entry s1 =>
    match (match expr with
           | .value v => entry.constantFold v
           | _ => Option.none) with
    | some v => .ok (.value v, s1)
    | Option.none =>
        stepOk (callRegExpr recur (.anyRegister expr) s1) fun r s2 =>
        stepOk (callOptReg recur (.exprDischarge r.2 .none) s2) fun _ s3 =>
        stepOk (allocS s3) fun dest s4 =>
        .ok (.register dest true, pushOpcodeS (entry.makeOpcode dest r.1) s4)

/-- `Compiler::binary_operator`. -/
def binaryOperatorF (recur : Recur) (left : ExprDescriptor) (binop : BinaryOperator)
    (right : Expression) (s : Compiler) : Res ExprDescriptor :=
  match categorizeBinop binop with
  | .simple sb =>
      stepOk (liftOpt (simpleBinops sb) (.unsupported "unsupported binary operator") s)
        fun entry s1 =>
      stepOk (callExpr recur (.expression right) s1) fun rightD s2 =>
        match (match left, rightD with
               | .value a, .value b => entry.constantFold a b
               | _, _ => Option.none) with
        | some v => .ok (.value v, s2)
        | Option.none =>
            stepOk (callBinArgs recur (.makeBinOpArgs left rightD) s2) fun binopArgs s3 =>
            stepOk (allocS s3) fun dest s4 =>
            .ok (.register dest true, pushOpcodeS (entry.makeOpcode dest binopArgs) s4)
  | .comparison cb =>
      stepOk (liftOpt (comparisonBinops cb) (.unsupported "unsupported binary operator") s)
        fun entry s1 =>
      stepOk (callExpr recur (.expression right) s1) fun rightD s2 =>
        match (match left, rightD with
               | .value a, .value b => entry.constantFold a b
               | _, _ => Option.none) with
        | some v => .ok (.value v, s2)
        | Option.none =>
            stepOk (callBinArgs recur (.makeBinOpArgs left rightD) s2) fun binopArgs s3 =>
            stepOk (allocS s3) fun dest s4 =>
            .ok (.register dest true, extendOpcodesS (entry.makeOpcodes dest binopArgs) s4)
  | .shortCircuit op => .ok (.shortCircuitBinOp left op right, s)
  | .concat => .error (.unsupported "no support for concat operator")

/-- The helper `make_binop_args` inside `binary_operator`. -/
def makeBinOpArgsF (recur : Recur) (left right : ExprDescriptor) (s : Compiler) :
    Res BinOpArgs :=
  stepOk (callRCExpr recur (.anyRegisterOrConstant left) s) fun lp s1 =>
  stepOk (callRCExpr recur (.anyRegisterOrConstant right) s1) fun rp s2 =>
  stepOk
    (match lp.1, rp.1 with
     | .constant lc, .register rr => .ok (BinOpArgs.cr lc rr, s2)
     | .register lr, .constant rc => .ok (BinOpArgs.rc lr rc, s2)
     | .register lr, .register rr => .ok (BinOpArgs.rr lr rr, s2)
     | .constant _, .constant _ => .error .unreachableBinop)
    fun op s3 =>
  stepOk (callOptReg recur (.exprDischarge lp.2 .none) s3) fun _ s4 =>
  stepOk (callOptReg recur (.exprDischarge rp.2 .none) s4) fun _ s5 =>
  .ok (op, s5)

/-- `Compiler::expr_discharge`. -/
def exprDischargeF (recur : Recur) (expr : ExprDescriptor) (dest : ExprDestination)
    (s : Compiler) : Res (Option Nat) :=
  stepOk
    (match expr with
     | .register source isTemporary =>
         if dest = .allocateNew ∧ isTemporary then .ok (some source, s)
         else
           stepOk (if isTemporary then freeS source s else .ok ((), s)) fun _ s1 =>
           stepOk (newDestinationS dest s1) fun dOpt s2 =>
             match dOpt with
             | some d =>
                 .ok (some d, if d ≠ source then pushOpcodeS (.move d source) s2 else s2)
             | Option.none => .ok (Option.none, s2)
     | .upValue source =>
         stepOk (newDestinationS dest s) fun dOpt s1 =>
           match dOpt with
           | some d => .ok (some d, pushOpcodeS (.getUpValue source d) s1)
           | Option.none => .ok (Option.none, s1)
     | .value v =>
         stepOk (newDestinationS dest s) fun dOpt s1 =>
           match dOpt with
           | some d =>
               (match v with
                | .nil => .ok (some d, loadNilS d s1)
                | .boolean b => .ok (some d, pushOpcodeS (.loadBool d b false) s1)
                | val =>
                    stepOk (getConstantS val s1) fun c s2 =>
                      .ok (some d, pushOpcodeS (.loadConstant d c) s2))
           | Option.none => .ok (Option.none, s1)
     | .functionCall func args =>
         stepOk (callReg recur (.exprFunctionCall func args VarCount.makeOne) s)
           fun source s1 =>
           match dest with
           | .register d =>
               if d = source then .error .assertionFailed
               else .ok (some d, pushOpcodeS (.move d source) s1)
           | .allocateNew =>
               stepOk (pushRegsS 1 s1) fun r s2 =>
                 if r = source then .ok (some source, s2) else .error .assertionFailed
           | .pushNew =>
               stepOk (pushRegsS 1 s1) fun r s2 =>
                 if r = source then .ok (some source, s2) else .error .assertionFailed
           | .none => .ok (Option.none, s1)
     | .shortCircuitBinOp left op right =>
         stepOk (callRegExpr recur (.anyRegister left) s) fun lr s1 =>
         stepOk (callOptReg recur (.exprDischarge lr.2 .none) s1) fun _ s2 =>
         stepOk (newDestinationS dest s2) fun dst s3 =>
         let testOp :=
           match dst with
           | some d =>
               if lr.1 = d then OpCode.test lr.1 (decide (op = ShortCircuitBinOp.and))
               else OpCode.testSet d lr.1 (decide (op = ShortCircuitBinOp.and))
           | Option.none => OpCode.test lr.1 (decide (op = ShortCircuitBinOp.and))
         let s4 := pushOpcodeS testOp s3
         let jmpInst := s4.functions.top.opcodes.length
         let s5 := pushOpcodeS (.jump 0) s4
         stepOk (callExpr recur (.expression right) s5) fun rightD s6 =>
         stepOk
           (match dst with
            | some d => callOptReg recur (.exprDischarge rightD (.register d)) s6
            | Option.none => callOptReg recur (.exprDischarge rightD .none) s6)
           fun _ s7 =>
         stepOk (liftOpt (castJump (s7.functions.top.opcodes.length - jmpInst - 1))
             (.limit .opCodes) s7) fun jmpOffset s8 =>
         stepOk
           (match s8.functions.top.opcodes.get? jmpInst with
            | some (.jump _) =>
                .ok ((), modTop (fun f =>
                  { f with opcodes := f.opcodes.set jmpInst (.jump jmpOffset) }) s8)
            | _ => .error .misplacedJump)
           fun _ s9 =>
         .ok (dst, s9))
    fun result s1 =>
  match result with
  | some r =>
      if dest = .pushNew then
        if r = 0 ∨ s1.functions.top.registerAllocator.registers (r - 1) then
          .ok (result, s1)
        else .error .assertionFailed
      else .ok (result, s1)
  | Option.none => .ok (result, s1)

/-- `Compiler::expr_function_call`. -/
def exprFunctionCallF (recur : Recur) (func : ExprDescriptor) (args : List ExprDescriptor)
    (returns : VarCount) (s : Compiler) : Res Nat :=
  stepOk (callOptReg recur (.exprDischarge func .pushNew) s) fun topRegOpt s1 =>
  stepOk (liftOpt topRegOpt .assertionFailed s1) fun topReg s2 =>
  stepOk (liftOpt (castU8 args.length) (.limit .fixedParameters) s2) fun argCount s3 =>
  stepOk (callUnit recur (.dischargeArgs args.dropLast) s3) fun _ s4 =>
  stepOk
    (match args.getLast? with
     | some (.functionCall f2 a2) =>
         stepOk (callReg recur (.exprFunctionCall f2 a2 VarCount.makeVariable) s4) fun _ s5 =>
           .ok ((), pushOpcodeS (.call topReg VarCount.makeVariable returns) s5)
     | some la =>
         stepOk (callOptReg recur (.exprDischarge la .pushNew) s4) fun _ s5 =>
         stepOk (liftOpt (VarCount.makeConstant argCount) (.limit .fixedParameters) s5)
           fun cnt s6 =>
           .ok ((), pushOpcodeS (.call topReg cnt returns) s6)
     | Option.none =>
         stepOk (liftOpt (VarCount.makeConstant argCount) (.limit .fixedParameters) s4)
           fun cnt s5 =>
           .ok ((), pushOpcodeS (.call topReg cnt returns) s5))
    fun _ s7 =>
  .ok (topReg, popToS topReg s7)

/-- The `for arg in args` loop of `expr_function_call`. -/
def dischargeArgsF (recur : Recur) : List ExprDescriptor → Compiler → Res Unit
  | [], s => .ok ((), s)
  | a :: rest, s =>
      stepOk (callOptReg recur (.exprDischarge a .pushNew) s) fun _ s1 =>
        callUnit recur (.dischargeArgs rest) s1

/-- `Compiler::get_table`, returning the result descriptor together with
the (possibly register-forced) table and key descriptors that the Rust
code updates through mutable borrows. -/
def getTableF (recur : Recur) (table key : ExprDescriptor) (s : Compiler) :
    Res (ExprDescriptor × ExprDescriptor × ExprDescriptor) :=
  stepOk (allocS s) fun dest s1 =>
    match table with
    | .upValue tableIdx =>
        stepOk (callRCExpr recur (.anyRegisterOrConstant key) s1) fun kp s2 =>
          .ok ((.register dest true, table, kp.2),
            pushOpcodeS
              (match kp.1 with
               | .constant k => OpCode.getUpTableC dest tableIdx k
               | .register k => OpCode.getUpTableR dest tableIdx k) s2)
    | _ =>
        stepOk (callRegExpr recur (.anyRegister table) s1) fun tp s2 =>
        stepOk (callRCExpr recur (.anyRegisterOrConstant key) s2) fun kp s3 =>
          .ok ((.register dest true, tp.2, kp.2),
            pushOpcodeS
              (match kp.1 with
               | .constant k => OpCode.getTableC dest tp.1 k
               | .register k => OpCode.getTableR dest tp.1 k) s3)

/-- `Compiler::set_table`, returning the updated table, key and value
descriptors. -/
def setTableF (recur : Recur) (table key value : ExprDescriptor) (s : Compiler) :
    Res (ExprDescriptor × ExprDescriptor × ExprDescriptor) :=
  match table with
  | .upValue t =>
      stepOk (callRCExpr recur (.anyRegisterOrConstant key) s) fun kp s1 =>
      stepOk (callRCExpr recur (.anyRegisterOrConstant value) s1) fun vp s2 =>
        .ok ((table, kp.2, vp.2),
          pushOpcodeS
            (match kp.1, vp.1 with
             | .register k, .register v => OpCode.setUpTableRR t k v
             | .register k, .constant v => OpCode.setUpTableRC t k v
             | .constant k, .register v => OpCode.setUpTableCR t k v
             | .constant k, .constant v => OpCode.setUpTableCC t k v) s2)
  | _ =>
      stepOk (callRegExpr recur (.anyRegister table) s) fun tp s1 =>
      stepOk (callRCExpr recur (.anyRegisterOrConstant key) s1) fun kp s2 =>
      stepOk (callRCExpr recur (.anyRegisterOrConstant value) s2) fun vp s3 =>
        .ok ((tp.2, kp.2, vp.2),
          pushOpcodeS
            (match kp.1, vp.1 with
             | .register k, .register v => OpCode.setTableRR tp.1 k v
             | .register k, .constant v => OpCode.setTableRC tp.1 k v
             | .constant k, .register v => OpCode.setTableCR tp.1 k v
             | .constant k, .constant v => OpCode.setTableCC tp.1 k v) s3)

/-- `Compiler::expr_any_register`, returning the register together with
the updated descriptor. -/
def exprAnyRegisterF (recur : Recur) (expr : ExprDescriptor) (s : Compiler) :
    Res (Nat × ExprDescriptor) :=
  match expr with
  | .register r t => .ok ((r, .register r t), s)
  | e =>
      stepOk (callOptReg recur (.exprDischarge e .allocateNew) s) fun rOpt s1 =>
      stepOk (liftOpt rOpt .assertionFailed s1) fun r s2 =>
      .ok ((r, .register r true), s2)

/-- `Compiler::expr_any_register_or_constant`, returning the operand
together with the updated descriptor. -/
def exprAnyRegisterOrConstantF (recur : Recur) (expr : ExprDescriptor) (s : Compiler) :
    Res (RegisterOrConstant × ExprDescriptor) :=
  match expr with
  | .value v =>
      stepOk (getConstantS v s) fun c s1 =>
        (match castU8 c with
         | some c8 => .ok ((.constant c8, .value v), s1)
         | Option.none =>
             stepOk (callRegExpr recur (.anyRegister (.value v)) s1) fun rp s2 =>
               .ok ((RegisterOrConstant.register rp.1, rp.2), s2))
  | e =>
      stepOk (callRegExpr recur (.anyRegister e) s) fun rp s1 =>
        .ok ((RegisterOrConstant.register rp.1, rp.2), s1)

/-- One step of the dispatcher: route a call to its method body, with all
recursive calls going through `recur`. -/
def compStep (recur : Recur) : CompCall → Compiler → Res CRes
  | .block b, s => stepOk (blockF recur b s) fun _ s1 => .ok (.unit, s1)
  | .statementList l, s => stepOk (statementListF recur l s) fun _ s1 => .ok (.unit, s1)
  | .statement st, s => stepOk (statementF recur st s) fun _ s1 => .ok (.unit, s1)
  | .functionStatement fs, s =>
      stepOk (functionStatementF recur fs s) fun _ s1 => .ok (.unit, s1)
  | .returnStatement rs, s =>
      stepOk (returnStatementF recur rs s) fun _ s1 => .ok (.unit, s1)
  | .pushReturns l, s => stepOk (pushReturnsF recur l s) fun _ s1 => .ok (.unit, s1)
  | .localStatement ls, s => stepOk (localStatementF recur ls s) fun _ s1 => .ok (.unit, s1)
  | .localValues ls i, s => stepOk (localValuesF recur ls i s) fun _ s1 => .ok (.unit, s1)
  | .functionCallStatement fc, s =>
      stepOk (functionCallStatementF recur fc s) fun _ s1 => .ok (.unit, s1)
  | .assignment a, s => stepOk (assignmentF recur a s) fun _ s1 => .ok (.unit, s1)
  | .assignTargets a i, s => stepOk (assignTargetsF recur a i s) fun _ s1 => .ok (.unit, s1)
  | .localFunction fs, s => stepOk (localFunctionF recur fs s) fun _ s1 => .ok (.unit, s1)
  | .expression e, s => stepOk (expressionF recur e s) fun d s1 => .ok (.expr d, s1)
  | .expressionTail d t, s =>
      stepOk (expressionTailF recur d t s) fun d1 s1 => .ok (.expr d1, s1)
  | .headExpression he, s => stepOk (headExpressionF recur he s) fun d s1 => .ok (.expr d, s1)
  | .simpleExpression se, s =>
      stepOk (simpleExpressionF recur se s) fun d s1 => .ok (.expr d, s1)
  | .functionExpression fd, s =>
      stepOk (functionExpressionF recur fd s) fun d s1 => .ok (.expr d, s1)
  | .suffixedExpression se, s =>
      stepOk (suffixedExpressionF recur se s) fun d s1 => .ok (.expr d, s1)
  | .suffixes d parts, s => stepOk (suffixesF recur d parts s) fun d1 s1 => .ok (.expr d1, s1)
  | .primaryExpression pe, s =>
      stepOk (primaryExpressionF recur pe s) fun d s1 => .ok (.expr d, s1)
  | .expressionList l, s =>
      stepOk (expressionListF recur l s) fun ds s1 => .ok (.exprList ds, s1)
  | .newPrototype fd, s => stepOk (newPrototypeF recur fd s) fun idx s1 => .ok (.reg idx, s1)
  | .unaryOperator op e, s =>
      stepOk (unaryOperatorF recur op e s) fun d s1 => .ok (.expr d, s1)
  | .binaryOperator left op right, s =>
      stepOk (binaryOperatorF recur left op right s) fun d s1 => .ok (.expr d, s1)
  | .makeBinOpArgs l r, s => stepOk (makeBinOpArgsF recur l r s) fun a s1 => .ok (.binArgs a, s1)
  | .exprDischarge e dest, s =>
      stepOk (exprDischargeF recur e dest s) fun r s1 => .ok (.optReg r, s1)
  | .exprFunctionCall f args returns, s =>
      stepOk (exprFunctionCallF recur f args returns s) fun r s1 => .ok (.reg r, s1)
  | .dischargeArgs args, s => stepOk (dischargeArgsF recur args s) fun _ s1 => .ok (.unit, s1)
  | .getTable t k, s =>
      stepOk (getTableF recur t k s) fun r s1 => .ok (.triple r.1 r.2.1 r.2.2, s1)
  | .setTable t k v, s =>
      stepOk (setTableF recur t k v s) fun r s1 => .ok (.triple r.1 r.2.1 r.2.2, s1)
  | .anyRegister e, s =>
      stepOk (exprAnyRegisterF recur e s) fun r s1 => .ok (.regExpr r.1 r.2, s1)
  | .anyRegisterOrConstant e, s =>
      stepOk (exprAnyRegisterOrConstantF recur e s) fun r s1 => .ok (.rcExpr r.1 r.2, s1)

/-- The fuel-indexed dispatcher for the mutually recursive compiler
methods: each call consumes one unit of fuel. -/
def compRun : Nat → CompCall → Compiler → Res CRes
  | 0, _, _ => .error .outOfFuel
  | n + 1, c, s => compStep (compRun n) c s

/-- `Compiler::block` at a given fuel. -/
def blockC (fuel : Nat) (b : Block) (s : Compiler) : Res Unit :=
  blockF (compRun fuel) b s

/-- `Compiler::expression` at a given fuel. -/
def expressionC (fuel : Nat) (e : Expression) (s : Compiler) : Res ExprDescriptor :=
  expressionF (compRun fuel) e s

/-- `Compiler::expr_discharge` at a given fuel. -/
def exprDischargeC (fuel : Nat) (e : ExprDescriptor) (dest : ExprDestination) (s : Compiler) :
    Res (Option Nat) :=
  exprDischargeF (compRun fuel) e dest s

/-- The initial compiler state of `Compiler::compile`. -/
def initCompiler : Compiler := ⟨TopStack.new CompilerFunction.default, 0⟩

/-- `compile_chunk` / `Compiler::compile`. -/
def compileChunk (fuel : Nat) (chunk : Chunk) : Except CompileError FunctionProto :=
  match blockC fuel chunk.block initCompiler with
  | .error e => .error e
  | .ok (_, s) =>
      match s.functions.top.toProto with
      | some p => .ok p
      | Option.none => .error .registerLeak

/-- Shorthand for an expression with a simple head and no operator tail. -/
def expL (se : SimpleExpression) : Expression := .mk (.simple se) []

/-- The chunk `local a; local b; local c` (three uninitialized local
declarations). -/
def chunkLocals3 : Chunk :=
  ⟨.mk [.localStatement (.mk ["a"] []), .localStatement (.mk ["b"] []),
        .localStatement (.mk ["c"] [])] Option.none⟩

/-- The chunk `print(x)`: one function-call statement whose callee and
argument are both globals. -/
def chunkPrintX : Chunk :=
  ⟨.mk [.functionCall (.mk (.mk (.name "print") [])
      (.function [expL (.suffixed (.mk (.name "x") []))]))] Option.none⟩

/-- The chunk `local function f() return 1 end; return f()`. -/
def chunkLocalFn : Chunk :=
  ⟨.mk [.localFunction (.mk ⟨"f", [], Option.none⟩
        (.mk [] false (.mk [] (some (.mk [expL (.integer 1)])))))]
    (some (.mk [expL (.suffixed (.mk (.name "f") [.call (.function [])]))]))⟩

/-- The chunk `local x = 1 + 2`. -/
def chunkAdd : Chunk :=
  ⟨.mk [.localStatement (.mk ["x"]
      [.mk (.simple (.integer 1)) [(.add, expL (.integer 2))]])] Option.none⟩

/-- The chunk `local _ENV = 1; x = 2`: it shadows the implicit environment
with a plain local and then assigns to the undeclared name `x`, which
`find_variable` resolves to `Global "x"`. -/
def chunkShadowEnv : Chunk :=
  ⟨.mk [.localStatement (.mk ["_ENV"] [expL (.integer 1)]),
        .assignment (.mk [.name "x"] [expL (.integer 2)])] Option.none⟩

/-- The chunk `local x = _ENV`: no global reference, yet `_ENV` itself is
resolved. -/
def chunkLocalEnv : Chunk :=
  ⟨.mk [.localStatement (.mk ["x"] [expL (.suffixed (.mk (.name "_ENV") []))])]
    Option.none⟩

/-- Test for a LoadNil opcode. -/
def isLoadNil : OpCode → Bool
  | .loadNil _ _ => true
  | _ => false

/-- Test for a Return opcode. -/
def isRet : OpCode → Bool
  | .ret _ _ => true
  | _ => false

/-- Whether an opcode list is non-empty and ends in a Return. -/
def endsRetB (l : List OpCode) : Bool :=
  match l.getLast? with
  | some op => isRet op
  | Option.none => false

mutual

/-- Whether the opcode list of a prototype, and of every nested prototype
recursively, is non-empty and ends in a Return. -/
def protoRetOK : FunctionProto → Bool
  | .mk _ _ _ _ ops _ ps => endsRetB ops && protoListRetOK ps

/-- `protoRetOK` over a prototype list. -/
def protoListRetOK : List FunctionProto → Bool
  | [] => true
  | p :: rest => protoRetOK p && protoListRetOK rest

end

/-- Structural duplicate-freedom check on a list of values. -/
def listNodupB : List Value → Bool
  | [] => true
  | v :: rest => !(rest.contains v) && listNodupB rest

mutual

/-- Whether the constant pool of a prototype, and of every nested prototype
recursively, holds each value at most once. -/
def protoConstsNodup : FunctionProto → Bool
  | .mk _ _ _ cs _ _ ps => listNodupB cs && protoListConstsNodup ps

/-- `protoConstsNodup` over a prototype list. -/
def protoListConstsNodup : List FunctionProto → Bool
  | [] => true
  | p :: rest => protoConstsNodup p && protoListConstsNodup rest

end

/-- The upvalue list of the bottom (chunk-level) function context. -/
def upv0 (s : Compiler) : List (Name × UpValueDescriptor) :=
  (s.functions.get 0).upvalues

/-- The legal upvalue lists of the chunk function: none at all, or exactly
the lazily created environment slot. -/
def EnvOk (u : List (Name × UpValueDescriptor)) : Prop :=
  u = [] ∨ u = [("_ENV", .environment)]

/-- Well-formedness of one function's constant interning: every pooled
constant is reachable through the interning table, and the pool has no
duplicates. -/
def ConstOk (f : CompilerFunction) : Prop :=
  (∀ v, v ∈ f.constants → (lookupConstant f.constantTable v).isSome = true) ∧
  listNodupB f.constants = true

/-- Well-formedness of one function context on the compiler stack. -/
def FnOk (f : CompilerFunction) : Prop :=
  ConstOk f ∧ ∀ q, q ∈ f.prototypes → protoRetOK q = true ∧ protoConstsNodup q = true

/-- All function contexts on the stack, bottom first. -/
def stackFns (s : Compiler) : List CompilerFunction :=
  s.functions.lower ++ [s.functions.top]

/-- The compiler-state invariant maintained by every method. -/
def Inv (s : Compiler) : Prop :=
  EnvOk (upv0 s) ∧ ∀ f, f ∈ stackFns s → FnOk f

/-- Evolution of one opcode list during compilation: it only grows, and an
existing entry changes only by a short-circuit Jump being re-targeted. -/
def opListLe (l l' : List OpCode) : Prop :=
  l.length ≤ l'.length ∧
  ∀ i, i < l.length →
    l'.get? i = l.get? i ∨ ∃ a b, l.get? i = some (.jump a) ∧ l'.get? i = some (.jump b)

/-- Evolution of one interning table during compilation: every recorded
value keeps its index (`get_constant` only ever adds bindings for values
the table does not hold yet). -/
def tabSub (t t' : List (Value × Nat)) : Prop :=
  ∀ v c, lookupConstant t v = some c → lookupConstant t' v = some c

/-- Evolution of the whole stack across one method call: same depth, each
level's opcodes evolve by `opListLe`, and each level's interning table
keeps every binding it already has. -/
def stackLe (s s' : Compiler) : Prop :=
  s'.functions.len = s.functions.len ∧
  (∀ i, i < s.functions.len →
    opListLe ((s.functions.get i).opcodes) ((s'.functions.get i).opcodes)) ∧
  (∀ i, i < s.functions.len →
    tabSub ((s.functions.get i).constantTable) ((s'.functions.get i).constantTable))

/-- Postconditions of specific methods, used by the step induction: a
compiled block and a compiled return statement leave the current function's
opcodes ending in a Return, and a block without an explicit return
statement ends in the implicit `Return{start 0, count zero}`. -/
def cpost : CompCall → Compiler → Prop
  | .block b, s1 =>
      endsRetB s1.functions.top.opcodes = true ∧
      (b.returnStatement = Option.none →
        s1.functions.top.opcodes.getLast? = some (.ret 0 VarCount.makeZero))
  | .returnStatement _, s1 => endsRetB s1.functions.top.opcodes = true
  | _, _ => True

/-- Goodness of one computation result relative to a pre-state: it is not
the `unreachable!` panic of `get_environment`, and on success the invariant
still holds, the stack evolved by `stackLe`, and the postcondition holds. -/
def GRes {α : Type} (s : Compiler) (r : Res α) (post : α → Compiler → Prop) : Prop :=
  r ≠ .error .unreachableEnv ∧
  ∀ a s1, r = .ok (a, s1) → Inv s1 ∧ stackLe s s1 ∧ post a s1

/-- Goodness of a recursion parameter: on every invariant-satisfying state
it produces a good result carrying the method's postcondition. -/
def GoodRecur (recur : Recur) : Prop :=
  ∀ c s, Inv s → GRes s (recur c s) (fun _ s1 => cpost c s1)

/-- Goodness of a result without a fixed pre-state: the stack evolution is
tracked inside the postcondition instead.  Used across the push/pop
bracket of `new_prototype`. -/
def WRes {α : Type} (r : Res α) (post : α → Compiler → Prop) : Prop :=
  r ≠ .error .unreachableEnv ∧ ∀ a s1, r = .ok (a, s1) → Inv s1 ∧ post a s1

/-- A sequence of compiler calls run one after the other, modelling an
arbitrary stretch of compilation work interleaved between two points of
interest. -/
def runCalls (recur : Recur) : List CompCall → Compiler → Res Unit
  | [], s => .ok ((), s)
  | c :: rest, s => stepOk (recur c s) fun _ s1 => runCalls recur rest s1

/-- The shape `new_prototype` guarantees of the prototype it appends to
the enclosing function: it is Return-terminated (recursively), its pool is
duplicate-free, and when its body block has no explicit return statement
its last opcode is the implicit `Return{start 0, count zero}`. -/
def protoShape (d : FunctionDefinition) (s' : Compiler) : Prop :=
  ∃ proto, s'.functions.top.prototypes.getLast? = some proto ∧
    protoRetOK proto = true ∧ protoConstsNodup proto = true ∧
    (d.body.returnStatement = Option.none →
      proto.opcodes.getLast? = some (.ret 0 VarCount.makeZero))

/-- Whether a compile outcome avoids the `unreachable!` panic of
`get_environment`. -/
def envSafeB : Except CompileError FunctionProto → Bool
  | .error .unreachableEnv => false
  | _ => true

/-- A three-deep compilation stack whose chunk function holds the local
`v` in register 0, for exercising the upvalue chain. -/
def upvalChainState : Compiler :=
  ⟨⟨CompilerFunction.default,
    [{ CompilerFunction.default with locals := [("v", 0)] },
     CompilerFunction.default]⟩, 0⟩
/-- Congruence rule for `stepOk`: rewriting works on the first computation
first and enters the continuation only after it has produced a concrete
result. -/
theorem stepOk_congr {α β : Type} {r r1 : Res α} (h : r = r1)
    (f : α → Compiler → Res β) : stepOk r f = stepOk r1 f := by rw [h]

attribute [congr] stepOk_congr

/-- Pointwise behavior of `setReg`, used when evaluating concrete runs. -/
theorem setReg_app (regs : Nat → Bool) (i : Nat) (b : Bool) (j : Nat) :
    setReg regs i b j = if j = i then b else regs j := rfl

/-- Pointwise behavior of `setRange`, used when evaluating concrete runs. -/
theorem setRange_app (regs : Nat → Bool) (start size : Nat) (b : Bool) (j : Nat) :
    setRange regs start size b j = if start ≤ j ∧ j < start + size then b else regs j := rfl

/-- Elimination of a successful `stepOk`: the first step succeeded and the
continuation ran on its result. -/
theorem stepOk_ok_elim {α β : Type} {r : Res α} {f : α → Compiler → Res β} {b : β}
    {s1 : Compiler} (h : stepOk r f = .ok (b, s1)) :
    ∃ a s0, r = .ok (a, s0) ∧ f a s0 = .ok (b, s1) := by
  cases hr : r with
  | error e => rw [hr] at h; exact absurd h (by simp [stepOk])
  | ok p =>
      refine ⟨p.1, p.2, rfl, ?_⟩
      rw [hr] at h
      exact h

/-- `opListLe` is reflexive. -/
theorem opListLe_refl (l : List OpCode) : opListLe l l :=
  ⟨Nat.le_refl _, fun _ _ => Or.inl rfl⟩

/-- `opListLe` is transitive. -/
theorem opListLe_trans {a b c : List OpCode} (h1 : opListLe a b) (h2 : opListLe b c) :
    opListLe a c := by
  refine ⟨Nat.le_trans h1.1 h2.1, fun i hi => ?_⟩
  have hb := h1.2 i hi
  have hc := h2.2 i (Nat.lt_of_lt_of_le hi h1.1)
  rcases hb with hb | ⟨x, y, hx, hy⟩
  · rcases hc with hc | ⟨u, v, hu, hv⟩
    · exact Or.inl (hc.trans hb)
    · exact Or.inr ⟨u, v, hb ▸ hu, hv⟩
  · rcases hc with hc | ⟨u, v, hu, hv⟩
    · exact Or.inr ⟨x, y, hx, hc.trans hy⟩
    · exact Or.inr ⟨x, v, hx, hv⟩

/-- Appending opcodes is an `opListLe` step. -/
theorem opListLe_append (l t : List OpCode) : opListLe l (l ++ t) := by
  refine ⟨by simp, fun i hi => Or.inl ?_⟩
  exact List.get?_append hi

/-- Re-targeting a Jump in place is an `opListLe` step. -/
theorem opListLe_set_jump {l : List OpCode} {j a : Nat} (b : Nat)
    (h : l.get? j = some (.jump a)) : opListLe l (l.set j (.jump b)) := by
  have hj : j < l.length := by
    by_contra hge
    rw [List.get?_eq_none.2 (Nat.le_of_not_lt hge)] at h
    exact absurd h (by simp)
  refine ⟨by simp, fun i hi => ?_⟩
  by_cases hij : i = j
  · subst hij
    exact Or.inr ⟨a, b, h, List.get?_set_eq_of_lt _ hj⟩
  · exact Or.inl (List.get?_set_ne _ _ fun he => hij he.symm)

/-- `tabSub` is reflexive. -/
theorem tabSub_refl (t : List (Value × Nat)) : tabSub t t :=
  fun _ _ h => h

/-- `tabSub` is transitive. -/
theorem tabSub_trans {a b c : List (Value × Nat)} (h1 : tabSub a b) (h2 : tabSub b c) :
    tabSub a c :=
  fun v n h => h2 v n (h1 v n h)

/-- `stackLe` is reflexive. -/
theorem stackLe_refl (s : Compiler) : stackLe s s :=
  ⟨rfl, fun _ _ => opListLe_refl _, fun _ _ => tabSub_refl _⟩

/-- `stackLe` is transitive. -/
theorem stackLe_trans {a b c : Compiler} (h1 : stackLe a b) (h2 : stackLe b c) :
    stackLe a c := by
  refine ⟨h2.1.trans h1.1, fun i hi => ?_, fun i hi => ?_⟩
  · exact opListLe_trans (h1.2.1 i hi) (h2.2.1 i (h1.1 ▸ hi))
  · exact tabSub_trans (h1.2.2 i hi) (h2.2.2 i (h1.1 ▸ hi))

/-- `TopStack.get` below the old length is unchanged by a push. -/
theorem TopStack.get_push_lt (t : TopStack) (f : CompilerFunction) {i : Nat}
    (h : i < t.len) : (t.push f).get i = t.get i := by
  unfold TopStack.push TopStack.get TopStack.len at *
  rcases Nat.lt_or_ge i t.lower.length with hi | hi
  · rw [List.getD_eq_get? , List.getD_eq_get?, List.get?_append hi, List.get?_eq_get hi]
    rfl
  · have hieq : i = t.lower.length := Nat.le_antisymm (by omega) hi
    subst hieq
    rw [List.getD_eq_get?, List.getD_eq_get?]
    rw [List.get?_eq_none.2 (Nat.le_refl _), List.get?_concat_length]
    rfl

/-- Pushing grows the stack length by one. -/
theorem TopStack.len_push (t : TopStack) (f : CompilerFunction) :
    (t.push f).len = t.len + 1 := by
  unfold TopStack.push TopStack.len
  simp

/-- A successful pop returns the old top and restores the levels below. -/
theorem TopStack.pop_spec {t : TopStack} {fn : CompilerFunction} {ts : TopStack}
    (h : t.pop = some (fn, ts)) :
    fn = t.top ∧ ts.len + 1 = t.len ∧ ∀ i, i < ts.len → ts.get i = t.get i := by
  unfold TopStack.pop at h
  cases hl : t.lower.getLast? with
  | none => rw [hl] at h; exact absurd h (by simp)
  | some g =>
      rw [hl] at h
      have hne : t.lower ≠ [] := by
        intro he
        rw [he] at hl
        exact absurd hl (by simp)
      injection h with h1
      injection h1 with hfn hts
      subst hfn
      subst hts
      refine ⟨rfl, ?_, ?_⟩
      · unfold TopStack.len
        simp [List.length_dropLast, Nat.sub_add_cancel (List.length_pos.2 hne)]
      · intro i hi
        unfold TopStack.len at hi
        unfold TopStack.get
        simp only at hi ⊢
        have hlen : t.lower.dropLast.length = t.lower.length - 1 := List.length_dropLast _
        have hpos : 0 < t.lower.length := List.length_pos.2 hne
        rcases Nat.lt_or_ge i t.lower.dropLast.length with hid | hid
        · rw [List.getD_eq_get?, List.getD_eq_get?, List.get?_eq_get hid,
            List.get?_eq_get (by omega : i < t.lower.length)]
          simp [List.getElem_dropLast]
        · have hieq : i = t.lower.dropLast.length := by omega
          subst hieq
          rw [List.getD_eq_get?, List.getD_eq_get?, List.get?_eq_none.2 (Nat.le_refl _)]
          rw [List.get?_eq_get (by omega : t.lower.dropLast.length < t.lower.length)]
          have := List.getLast?_eq_getLast t.lower hne
          rw [hl] at this
          have hg : g = t.lower.getLast hne := by injection this
          subst hg
          rw [List.getLast_eq_get]
          simp only [Option.getD_some, Option.getD_none]
          congr 1
          exact Fin.ext (by simpa using hlen)

/-- `TopStack.modifyAt` keeps the length. -/
theorem TopStack.len_modifyAt (t : TopStack) (i : Nat) (g : CompilerFunction → CompilerFunction) :
    (t.modifyAt i g).len = t.len := by
  unfold TopStack.modifyAt TopStack.len
  split <;> simp

/-- `TopStack.modifyAt` maps the addressed level through `g` (for an
in-range index). -/
theorem TopStack.get_modifyAt_self (t : TopStack) {i : Nat}
    (g : CompilerFunction → CompilerFunction) (h : i < t.len) :
    (t.modifyAt i g).get i = g (t.get i) := by
  unfold TopStack.modifyAt TopStack.get TopStack.len at *
  rcases Nat.lt_or_ge i t.lower.length with hi | hi
  · rw [if_pos hi]
    simp only
    rw [List.getD_eq_get?, List.get?_set_eq_of_lt _ hi, List.getD_eq_get?,
      List.get?_eq_get hi]
    rfl
  · rw [if_neg (Nat.not_lt.2 hi)]
    have hieq : i = t.lower.length := by omega
    subst hieq
    simp only
    rw [List.getD_eq_get?, List.getD_eq_get?, List.get?_eq_none.2 (Nat.le_refl _)]
    rfl

/-- `TopStack.modifyAt` leaves the other levels alone (for in-range
indices). -/
theorem TopStack.get_modifyAt_other (t : TopStack) {i j : Nat}
    (g : CompilerFunction → CompilerFunction) (hi : i < t.len) (hj : j < t.len)
    (hne : j ≠ i) : (t.modifyAt i g).get j = t.get j := by
  unfold TopStack.modifyAt TopStack.get TopStack.len at *
  rcases Nat.lt_or_ge i t.lower.length with hil | hil
  · rw [if_pos hil]
    simp only
    rw [List.getD_eq_get?, List.get?_set_ne _ _ fun he => hne he.symm, List.getD_eq_get?]
  · rw [if_neg (Nat.not_lt.2 hil)]
    simp only
    have hjl : j < t.lower.length := by omega
    rw [List.getD_eq_get?, List.getD_eq_get?, List.get?_eq_get hjl]
    rfl

/-- The top of the stack is its last level. -/
theorem TopStack.get_top (t : TopStack) : t.get (t.len - 1) = t.top := by
  unfold TopStack.get TopStack.len
  simp only [Nat.add_sub_cancel]
  rw [List.getD_eq_get?, List.get?_eq_none.2 (Nat.le_refl _)]
  rfl

/-- `modTop` is `modifyAt` at the top level in disguise. -/
theorem modTop_get_lower (g : CompilerFunction → CompilerFunction) (s : Compiler)
    {i : Nat} (h : i < s.functions.len - 1) :
    (modTop g s).functions.get i = s.functions.get i := by
  unfold modTop TopStack.get TopStack.len at *
  simp only
  have hi : i < s.functions.lower.length := by omega
  rw [List.getD_eq_get?, List.getD_eq_get?, List.get?_eq_get hi]
  rfl

/-- The stack length is unchanged by `modTop`. -/
theorem modTop_len (g : CompilerFunction → CompilerFunction) (s : Compiler) :
    (modTop g s).functions.len = s.functions.len := rfl

/-- The top level of `modTop` is the mapped top. -/
theorem modTop_top (g : CompilerFunction → CompilerFunction) (s : Compiler) :
    (modTop g s).functions.top = g s.functions.top := rfl

/-- `modTop` maps the top level through `g` when read back with `get`. -/
theorem modTop_get_last (g : CompilerFunction → CompilerFunction) (s : Compiler)
    {i : Nat} (h : i = s.functions.len - 1) :
    (modTop g s).functions.get i = g (s.functions.get i) := by
  subst h
  have h1 : (modTop g s).functions.len - 1 = s.functions.len - 1 := rfl
  rw [← h1, TopStack.get_top, h1, TopStack.get_top]
  rfl

/-- `upv0` through `modTop` for an upvalue-preserving update. -/
theorem upv0_modTop {g : CompilerFunction → CompilerFunction}
    (hg : ∀ f, (g f).upvalues = f.upvalues) (s : Compiler) :
    upv0 (modTop g s) = upv0 s := by
  unfold upv0 modTop TopStack.get
  cases hl : s.functions.lower with
  | nil => simp [List.getD, hg]
  | cons a l => simp [List.getD]

/-- `stackFns` of a `modTop` state. -/
theorem stackFns_modTop (g : CompilerFunction → CompilerFunction) (s : Compiler) :
    stackFns (modTop g s) = s.functions.lower ++ [g s.functions.top] := rfl

/-- `Inv` is preserved by `modTop` updates that keep the upvalues and the
function-level well-formedness. -/
theorem Inv_modTop {g : CompilerFunction → CompilerFunction}
    (hg : ∀ f, (g f).upvalues = f.upvalues)
    (hfn : ∀ f, FnOk f → FnOk (g f)) {s : Compiler} (hInv : Inv s) :
    Inv (modTop g s) := by
  refine ⟨by rw [upv0_modTop hg]; exact hInv.1, ?_⟩
  intro f hf
  rw [stackFns_modTop] at hf
  rcases List.mem_append.1 hf with hf | hf
  · exact hInv.2 f (List.mem_append.2 (Or.inl hf))
  · rcases List.mem_singleton.1 hf with rfl
    exact hfn _ (hInv.2 _ (List.mem_append.2 (Or.inr (List.mem_singleton.2 rfl))))

/-- `stackLe` for `modTop` updates that keep the opcodes. -/
theorem stackLe_modTop_keep (g : CompilerFunction → CompilerFunction)
    (hg : ∀ f, (g f).opcodes = f.opcodes) (s : Compiler)
    (hgt : tabSub s.functions.top.constantTable (g s.functions.top).constantTable) :
    stackLe s (modTop g s) := by
  refine ⟨rfl, fun i hi => ?_, fun i hi => ?_⟩
  · rcases Nat.lt_or_ge i (s.functions.len - 1) with hil | hil
    · rw [modTop_get_lower g s hil]
      exact opListLe_refl _
    · have hieq : i = s.functions.len - 1 := by
        unfold TopStack.len at hi hil ⊢
        omega
      rw [modTop_get_last g s hieq, hg]
      exact opListLe_refl _
  · rcases Nat.lt_or_ge i (s.functions.len - 1) with hil | hil
    · rw [modTop_get_lower g s hil]
      exact tabSub_refl _
    · have hieq : i = s.functions.len - 1 := by
        unfold TopStack.len at hi hil ⊢
        omega
      rw [modTop_get_last g s hieq]
      have htop : s.functions.get i = s.functions.top := by
        rw [hieq]
        exact TopStack.get_top _
      rw [htop]
      exact hgt

/-- `stackLe` for `modTop` updates that append to the opcodes. -/
theorem stackLe_modTop_append (g : CompilerFunction → CompilerFunction) {t : List OpCode}
    (hg : ∀ f, (g f).opcodes = f.opcodes ++ t) (s : Compiler)
    (hgt : tabSub s.functions.top.constantTable (g s.functions.top).constantTable) :
    stackLe s (modTop g s) := by
  refine ⟨rfl, fun i hi => ?_, fun i hi => ?_⟩
  · rcases Nat.lt_or_ge i (s.functions.len - 1) with hil | hil
    · rw [modTop_get_lower g s hil]
      exact opListLe_refl _
    · have hieq : i = s.functions.len - 1 := by
        unfold TopStack.len at hi hil ⊢
        omega
      rw [modTop_get_last g s hieq, hg]
      exact opListLe_append _ _
  · rcases Nat.lt_or_ge i (s.functions.len - 1) with hil | hil
    · rw [modTop_get_lower g s hil]
      exact tabSub_refl _
    · have hieq : i = s.functions.len - 1 := by
        unfold TopStack.len at hi hil ⊢
        omega
      rw [modTop_get_last g s hieq]
      have htop : s.functions.get i = s.functions.top := by
        rw [hieq]
        exact TopStack.get_top _
      rw [htop]
      exact hgt

/-- Succeeding with an explicitly given state is good when the invariant,
the stack evolution and the postcondition hold there. -/
theorem gres_ok {α : Type} {s s1 : Compiler} {a : α} {post : α → Compiler → Prop}
    (h1 : Inv s1) (h2 : stackLe s s1) (h3 : post a s1) :
    GRes s (Except.ok (a, s1)) post := by
  refine ⟨by simp, ?_⟩
  intro b s2 he
  cases he
  exact ⟨h1, h2, h3⟩

/-- Every error other than the environment panic is a good result. -/
theorem gres_error {α : Type} {s : Compiler} {post : α → Compiler → Prop}
    {e : CompileError} (he : e ≠ CompileError.unreachableEnv) :
    GRes s (Except.error e : Res α) post := by
  refine ⟨?_, ?_⟩
  · intro hc
    injection hc with hc
    exact he hc
  · intro a s1 hc
    exact absurd hc (by simp)

/-- Goodness against an earlier pre-state. -/
theorem gres_pre {α : Type} {s s1 : Compiler} {r : Res α} {post : α → Compiler → Prop}
    (hle : stackLe s s1) (h : GRes s1 r post) : GRes s r post := by
  refine ⟨h.1, ?_⟩
  intro a s2 he
  obtain ⟨hi, hl, hp⟩ := h.2 a s2 he
  exact ⟨hi, stackLe_trans hle hl, hp⟩

/-- Goodness composes along `stepOk`. -/
theorem gres_stepOk {α β : Type} {s : Compiler} {r : Res α} {post1 : α → Compiler → Prop}
    {f : α → Compiler → Res β} {post2 : β → Compiler → Prop}
    (h : GRes s r post1)
    (h2 : ∀ a s1, Inv s1 → stackLe s s1 → post1 a s1 → GRes s1 (f a s1) post2) :
    GRes s (stepOk r f) post2 := by
  cases hr : r with
  | error e =>
      subst hr
      exact gres_error fun hc => h.1 (by rw [hc])
  | ok p =>
      obtain ⟨a, s1⟩ := p
      subst hr
      obtain ⟨hi, hl, hp⟩ := h.2 a s1 rfl
      exact gres_pre hl (h2 a s1 hi hl hp)

/-- Goodness is monotone in the postcondition. -/
theorem gres_mono {α : Type} {s : Compiler} {r : Res α} {post1 post2 : α → Compiler → Prop}
    (h : GRes s r post1)
    (him : ∀ a s1, Inv s1 → stackLe s s1 → post1 a s1 → post2 a s1) :
    GRes s r post2 := by
  refine ⟨h.1, ?_⟩
  intro a s1 he
  obtain ⟨hi, hl, hp⟩ := h.2 a s1 he
  exact ⟨hi, hl, him a s1 hi hl hp⟩

/-- `Inv` through `modTop`, demanding well-formedness only of the mapped
top function. -/
theorem Inv_modTop_top {g : CompilerFunction → CompilerFunction} {s : Compiler}
    (hg : ∀ f, (g f).upvalues = f.upvalues)
    (hfn : FnOk s.functions.top → FnOk (g s.functions.top)) (hInv : Inv s) :
    Inv (modTop g s) := by
  refine ⟨by rw [upv0_modTop hg]; exact hInv.1, ?_⟩
  intro f hf
  rw [stackFns_modTop] at hf
  rcases List.mem_append.1 hf with hf | hf
  · exact hInv.2 f (List.mem_append.2 (Or.inl hf))
  · rcases List.mem_singleton.1 hf with rfl
    exact hfn (hInv.2 _ (List.mem_append.2 (Or.inr (List.mem_singleton.2 rfl))))

/-- The state after `pushOpcodeS` keeps the invariant. -/
theorem Inv_pushOpcodeS (op : OpCode) {s : Compiler} (hInv : Inv s) :
    Inv (pushOpcodeS op s) :=
  Inv_modTop_top (fun _ => rfl) (fun h => h) hInv

/-- The state after `pushOpcodeS` extends the opcodes. -/
theorem stackLe_pushOpcodeS (op : OpCode) (s : Compiler) :
    stackLe s (pushOpcodeS op s) := by
  unfold pushOpcodeS
  apply stackLe_modTop_append
  · intro f
    rfl
  · exact tabSub_refl _

/-- The state after `extendOpcodesS` keeps the invariant. -/
theorem Inv_extendOpcodesS (ops : List OpCode) {s : Compiler} (hInv : Inv s) :
    Inv (extendOpcodesS ops s) :=
  Inv_modTop_top (fun _ => rfl) (fun h => h) hInv

/-- The state after `extendOpcodesS` extends the opcodes. -/
theorem stackLe_extendOpcodesS (ops : List OpCode) (s : Compiler) :
    stackLe s (extendOpcodesS ops s) := by
  unfold extendOpcodesS
  apply stackLe_modTop_append
  · intro f
    rfl
  · exact tabSub_refl _

/-- The state after `pushLocalS` keeps the invariant. -/
theorem Inv_pushLocalS (nm : Name) (reg : Nat) {s : Compiler} (hInv : Inv s) :
    Inv (pushLocalS nm reg s) :=
  Inv_modTop_top (fun _ => rfl) (fun h => h) hInv

/-- The state after `pushLocalS` keeps the opcodes. -/
theorem stackLe_pushLocalS (nm : Name) (reg : Nat) (s : Compiler) :
    stackLe s (pushLocalS nm reg s) := by
  unfold pushLocalS
  apply stackLe_modTop_keep
  · intro f
    rfl
  · exact tabSub_refl _

/-- The state after `popToS` keeps the invariant. -/
theorem Inv_popToS (n : Nat) {s : Compiler} (hInv : Inv s) : Inv (popToS n s) :=
  Inv_modTop_top (fun _ => rfl) (fun h => h) hInv

/-- The state after `popToS` keeps the opcodes. -/
theorem stackLe_popToS (n : Nat) (s : Compiler) : stackLe s (popToS n s) := by
  unfold popToS
  apply stackLe_modTop_keep
  · intro f
    rfl
  · exact tabSub_refl _

/-- `loadNilS` is some single opcode push. -/
theorem loadNilS_eq_push (d : Nat) (s : Compiler) :
    ∃ op, loadNilS d s = pushOpcodeS op s := by
  unfold loadNilS
  split
  · split
    · exact ⟨_, rfl⟩
    · exact ⟨_, rfl⟩
  · exact ⟨_, rfl⟩

/-- The state after `loadNilS` keeps the invariant. -/
theorem Inv_loadNilS (d : Nat) {s : Compiler} (hInv : Inv s) : Inv (loadNilS d s) := by
  obtain ⟨op, hop⟩ := loadNilS_eq_push d s
  rw [hop]
  exact Inv_pushOpcodeS op hInv

/-- The state after `loadNilS` extends the opcodes. -/
theorem stackLe_loadNilS (d : Nat) (s : Compiler) : stackLe s (loadNilS d s) := by
  obtain ⟨op, hop⟩ := loadNilS_eq_push d s
  rw [hop]
  exact stackLe_pushOpcodeS op s

/-- The state after a fresh-string allocation keeps the invariant. -/
theorem Inv_stringNewS (b : String) {s : Compiler} (hInv : Inv s) :
    Inv (stringNewS b s).2 := hInv

/-- The state after a fresh-string allocation keeps the opcodes. -/
theorem stackLe_stringNewS (b : String) (s : Compiler) : stackLe s (stringNewS b s).2 :=
  ⟨rfl, fun _ _ => opListLe_refl _, fun _ _ => tabSub_refl _⟩

/-- `liftOpt` is good: it fails with the given error or returns the value
on the unchanged state. -/
theorem gres_liftOpt {α : Type} {o : Option α} {e : CompileError} {s : Compiler}
    {post : α → Compiler → Prop} (he : e ≠ CompileError.unreachableEnv)
    (h : ∀ a, o = some a → Inv s ∧ post a s) : GRes s (liftOpt o e s) post := by
  cases ho : o with
  | none => exact gres_error he
  | some a =>
      obtain ⟨h1, h2⟩ := h a ho
      exact gres_ok h1 (stackLe_refl s) h2

/-- `allocS` is good. -/
theorem gres_allocS {s : Compiler} (hInv : Inv s) :
    GRes s (allocS s) (fun _ _ => True) := by
  unfold allocS
  split
  · refine gres_ok (Inv_modTop_top (fun _ => rfl) (fun h => h) hInv) ?_ trivial
    apply stackLe_modTop_keep
    · intro f
      rfl
    · exact tabSub_refl _
  · exact gres_error (by simp)

/-- `pushRegsS` is good. -/
theorem gres_pushRegsS (n : Nat) {s : Compiler} (hInv : Inv s) :
    GRes s (pushRegsS n s) (fun _ _ => True) := by
  unfold pushRegsS
  split
  · refine gres_ok (Inv_modTop_top (fun _ => rfl) (fun h => h) hInv) ?_ trivial
    apply stackLe_modTop_keep
    · intro f
      rfl
    · exact tabSub_refl _
  · exact gres_error (by simp)

/-- `freeS` is good. -/
theorem gres_freeS (reg : Nat) {s : Compiler} (hInv : Inv s) :
    GRes s (freeS reg s) (fun _ _ => True) := by
  unfold freeS
  split
  · refine gres_ok (Inv_modTop_top (fun _ => rfl) (fun h => h) hInv) ?_ trivial
    apply stackLe_modTop_keep
    · intro f
      rfl
    · exact tabSub_refl _
  · exact gres_error (by simp)

/-- `newDestinationS` is good. -/
theorem gres_newDestinationS (dest : ExprDestination) {s : Compiler} (hInv : Inv s) :
    GRes s (newDestinationS dest s) (fun _ _ => True) := by
  cases dest with
  | register d => exact gres_ok hInv (stackLe_refl s) trivial
  | allocateNew =>
      unfold newDestinationS
      refine gres_stepOk (gres_allocS hInv) ?_
      intro a s1 h1 h2 _
      exact gres_ok h1 (stackLe_refl s1) trivial
  | pushNew =>
      unfold newDestinationS
      refine gres_stepOk (gres_pushRegsS 1 hInv) ?_
      intro a s1 h1 h2 _
      exact gres_ok h1 (stackLe_refl s1) trivial
  | none => exact gres_ok hInv (stackLe_refl s) trivial

/-- `tableConstructorS` is good. -/
theorem gres_tableConstructorS (t : TableConstructor) {s : Compiler} (hInv : Inv s) :
    GRes s (tableConstructorS t s) (fun _ _ => True) := by
  unfold tableConstructorS
  split
  · exact gres_error (by simp)
  · refine gres_stepOk (gres_allocS hInv) ?_
    intro a s1 h1 h2 _
    exact gres_ok (Inv_pushOpcodeS _ h1) (stackLe_pushOpcodeS _ s1) trivial

/-- Table lookup after an insertion. -/
theorem lookupConstant_cons (v : Value) (c : Nat) (table : List (Value × Nat)) (w : Value) :
    lookupConstant ((v, c) :: table) w = if v = w then some c else lookupConstant table w := rfl

/-- A value absent from a list makes `contains` false. -/
theorem contains_false_of_not_mem {l : List Value} {v : Value} (h : ¬ v ∈ l) :
    l.contains v = false := by
  by_contra hne
  have hc : l.contains v = true := by
    cases hb : l.contains v with
    | false => exact absurd hb hne
    | true => rfl
  exact h (List.elem_iff.1 hc)

/-- Appending a fresh value keeps a pool duplicate-free. -/
theorem listNodupB_append_singleton {l : List Value} {v : Value}
    (h : listNodupB l = true) (hv : ¬ v ∈ l) : listNodupB (l ++ [v]) = true := by
  induction l with
  | nil => simp [listNodupB]
  | cons a rest ih =>
      simp only [listNodupB, Bool.and_eq_true, Bool.not_eq_true'] at h
      have hva : ¬ v ∈ rest := fun hm => hv (List.mem_cons_of_mem a hm)
      have hav : a ≠ v := fun he => hv (he ▸ List.mem_cons_self a rest)
      simp only [List.cons_append, listNodupB, Bool.and_eq_true, Bool.not_eq_true']
      refine ⟨?_, ih h.2 hva⟩
      apply contains_false_of_not_mem
      intro hm
      rcases List.mem_append.1 hm with hm | hm
      · have hc := List.elem_iff.2 hm
        have h1 : List.elem a rest = false := h.1
        rw [h1] at hc
        exact absurd hc (by simp)
      · exact hav (List.mem_singleton.1 hm)

/-- Inserting an unseen constant keeps the interning well-formed. -/
theorem ConstOk_insert {f : CompilerFunction} {v : Value} {c : Nat}
    (h : ConstOk f) (hnone : lookupConstant f.constantTable v = Option.none) :
    ConstOk { f with constants := f.constants ++ [v],
                     constantTable := (v, c) :: f.constantTable } := by
  obtain ⟨h1, h2⟩ := h
  constructor
  · intro w hw
    simp only
    rw [lookupConstant_cons]
    by_cases hvw : v = w
    · simp [hvw]
    · rw [if_neg hvw]
      rcases List.mem_append.1 hw with hw | hw
      · exact h1 w hw
      · exact absurd (List.mem_singleton.1 hw).symm hvw
  · simp only
    apply listNodupB_append_singleton h2
    intro hv
    have := h1 v hv
    rw [hnone] at this
    exact absurd this (by simp)

/-- `getConstantS` is good. -/
theorem gres_getConstantS (v : Value) {s : Compiler} (hInv : Inv s) :
    GRes s (getConstantS v s) (fun _ _ => True) := by
  unfold getConstantS
  split
  · exact gres_ok hInv (stackLe_refl s) trivial
  next hnone =>
    split
    next c16 hc =>
      refine gres_ok ?_ ?_ trivial
      · refine Inv_modTop_top (fun _ => rfl) ?_ hInv
        intro hfn
        exact ⟨ConstOk_insert hfn.1 hnone, hfn.2⟩
      · apply stackLe_modTop_keep
        · intro f
          rfl
        · intro w cw hw
          by_cases hv : v = w
          · rw [← hv, hnone] at hw
            exact absurd hw (by simp)
          · show (if v = w then some c16 else
              lookupConstant s.functions.top.constantTable w) = some cw
            rw [if_neg hv]
            exact hw
    · exact gres_error (by simp)

/-- `nilLocalsS` is good. -/
theorem gres_nilLocalsS : ∀ (l : List Name) {s : Compiler}, Inv s →
    GRes s (nilLocalsS l s) (fun _ _ => True) := by
  intro l
  induction l with
  | nil => intro s hInv; exact gres_ok hInv (stackLe_refl s) trivial
  | cons nm rest ih =>
      intro s hInv
      unfold nilLocalsS
      refine gres_stepOk (gres_allocS hInv) ?_
      intro reg s1 h1 hle _
      have h2 : Inv (pushLocalS nm reg (loadNilS reg s1)) :=
        Inv_pushLocalS _ _ (Inv_loadNilS _ h1)
      have hle2 : stackLe s1 (pushLocalS nm reg (loadNilS reg s1)) :=
        stackLe_trans (stackLe_loadNilS reg s1) (stackLe_pushLocalS nm reg _)
      exact gres_pre hle2 (ih h2)

/-- `pushUpvalAt` keeps the stack length. -/
theorem pushUpvalAt_len (i : Nat) (e : Name × UpValueDescriptor) (s : Compiler) :
    (pushUpvalAt i e s).functions.len = s.functions.len :=
  TopStack.len_modifyAt _ _ _

/-- `pushUpvalAt` appends to the addressed level's upvalues. -/
theorem pushUpvalAt_get_self {i : Nat} (e : Name × UpValueDescriptor) {s : Compiler}
    (h : i < s.functions.len) :
    (pushUpvalAt i e s).functions.get i =
      { s.functions.get i with upvalues := (s.functions.get i).upvalues ++ [e] } :=
  TopStack.get_modifyAt_self _ _ h

/-- `pushUpvalAt` leaves the other levels alone. -/
theorem pushUpvalAt_get_other {i j : Nat} (e : Name × UpValueDescriptor) {s : Compiler}
    (hi : i < s.functions.len) (hj : j < s.functions.len) (hne : j ≠ i) :
    (pushUpvalAt i e s).functions.get j = s.functions.get j :=
  TopStack.get_modifyAt_other _ _ hi hj hne

/-- The stack only gains upvalues under `pushUpvalAt`: opcodes are kept at
every level. -/
theorem stackLe_pushUpvalAt {i : Nat} (e : Name × UpValueDescriptor) {s : Compiler}
    (hi : i < s.functions.len) : stackLe s (pushUpvalAt i e s) := by
  refine ⟨pushUpvalAt_len i e s, fun j hj => ?_, fun j hj => ?_⟩
  · by_cases hij : j = i
    · subst hij
      rw [pushUpvalAt_get_self e hi]
      exact opListLe_refl _
    · rw [pushUpvalAt_get_other e hi hj hij]
      exact opListLe_refl _
  · by_cases hij : j = i
    · subst hij
      rw [pushUpvalAt_get_self e hi]
      exact tabSub_refl _
    · rw [pushUpvalAt_get_other e hi hj hij]
      exact tabSub_refl _

/-- Function well-formedness over the stack survives `pushUpvalAt`. -/
theorem FnOkAll_pushUpvalAt (i : Nat) (e : Name × UpValueDescriptor) {s : Compiler}
    (h : ∀ f, f ∈ stackFns s → FnOk f) :
    ∀ f, f ∈ stackFns (pushUpvalAt i e s) → FnOk f := by
  intro f hf
  unfold pushUpvalAt TopStack.modifyAt stackFns at hf
  split at hf
  · simp only at hf
    rcases List.mem_append.1 hf with hf | hf
    · rcases List.mem_or_eq_of_mem_set hf with hf | hf
      · exact h f (List.mem_append.2 (Or.inl hf))
      · subst hf
        have hm : s.functions.lower.getD i s.functions.top ∈ stackFns s := by
          unfold stackFns
          rw [List.getD_eq_get?, List.get?_eq_get (by assumption)]
          exact List.mem_append.2 (Or.inl (by simp [List.get_mem]))
        exact (h _ hm : FnOk _)
    · rcases List.mem_singleton.1 hf with rfl
      exact h _ (List.mem_append.2 (Or.inr (List.mem_singleton.2 rfl)))
  · simp only at hf
    rcases List.mem_append.1 hf with hf | hf
    · exact h f (List.mem_append.2 (Or.inl hf))
    · rcases List.mem_singleton.1 hf with rfl
      exact (h s.functions.top
        (List.mem_append.2 (Or.inr (List.mem_singleton.2 rfl))) : FnOk _)

/-- The invariant survives an upvalue push at a positive depth. -/
theorem Inv_pushUpvalAt_pos {i : Nat} (e : Name × UpValueDescriptor) {s : Compiler}
    (h1 : 1 ≤ i) (h2 : i < s.functions.len) (hInv : Inv s) : Inv (pushUpvalAt i e s) := by
  refine ⟨?_, FnOkAll_pushUpvalAt i e hInv.2⟩
  unfold upv0
  rw [pushUpvalAt_get_other e h2 (by omega) (by omega)]
  exact hInv.1

/-- The invariant survives the lazy environment push at depth 0 when the
chunk function had no upvalues yet. -/
theorem Inv_pushUpvalAt_env {s : Compiler} (hempty : upv0 s = [])
    (hInv : Inv s) : Inv (pushUpvalAt 0 ("_ENV", .environment) s) := by
  have h0 : 0 < s.functions.len := by
    unfold TopStack.len
    omega
  refine ⟨?_, FnOkAll_pushUpvalAt 0 _ hInv.2⟩
  unfold upv0
  rw [pushUpvalAt_get_self _ h0]
  simp only
  unfold upv0 at hempty
  rw [hempty]
  exact Or.inr rfl

/-- `liftOpt` is good, with its characteristic postcondition. -/
theorem gres_liftOptC {α : Type} (o : Option α) (e : CompileError) (s : Compiler)
    (he : e ≠ CompileError.unreachableEnv) (hInv : Inv s) :
    GRes s (liftOpt o e s) (fun a s1 => s1 = s ∧ o = some a) := by
  cases ho : o with
  | none => exact gres_error he
  | some a => exact gres_ok hInv (stackLe_refl s) ⟨rfl, rfl⟩

/-- `propagateOuter` is good when its whole range lies on the stack above
depth 0. -/
theorem gres_propagateOuter (name : Name) : ∀ (r k idx : Nat) {s : Compiler},
    1 ≤ k → k + r ≤ s.functions.len → Inv s →
    GRes s (propagateOuter name r k idx s) (fun _ _ => True) := by
  intro r
  induction r with
  | zero =>
      intro k idx s h1 h2 hInv
      exact gres_ok hInv (stackLe_refl s) trivial
  | succ n ih =>
      intro k idx s h1 h2 hInv
      unfold propagateOuter
      have hk : k < s.functions.len := by omega
      have hle1 : stackLe s (pushUpvalAt k (name, .outer idx) s) :=
        stackLe_pushUpvalAt _ hk
      have hInv1 : Inv (pushUpvalAt k (name, .outer idx) s) :=
        Inv_pushUpvalAt_pos _ h1 hk hInv
      refine gres_stepOk (gres_pre hle1 (gres_liftOptC _ _ _ (by simp) hInv1)) ?_
      intro idx1 s2 hInv2 hle2 hs2
      obtain ⟨rfl, hcast⟩ := hs2
      refine ih (k + 1) idx1 (by omega) ?_ hInv1
      rw [pushUpvalAt_len]
      omega

/-- The length of a stack is at least one. -/
theorem TopStack.len_pos (t : TopStack) : 0 < t.len := by
  unfold TopStack.len
  omega

/-- `findUpvalueIdx` finds the environment slot. -/
theorem findUpvalueIdx_env :
    findUpvalueIdx [("_ENV", .environment)] "_ENV" = some 0 := rfl

/-- One scan depth of `find_variable` is good: it never answers a Global
through `some`, and for `_ENV` at depth 0 it always answers. -/
theorem gres_findVarScan (name : Name) (i : Nat) {s : Compiler}
    (hi : i < s.functions.len) (hInv : Inv s) :
    GRes s (findVarScan name i s)
      (fun r _ => (∀ g, r ≠ some (.global g)) ∧
        (name = "_ENV" → i = 0 → r ≠ Option.none)) := by
  unfold findVarScan
  simp only
  split
  next register hloc =>
    split
    · exact gres_ok hInv (stackLe_refl s) ⟨by simp, fun _ _ => by simp⟩
    next hne =>
      have hlt : i + 1 < s.functions.len := by
        have := TopStack.len_pos s.functions
        omega
      refine gres_stepOk
        (gres_pre (stackLe_pushUpvalAt _ hlt)
          (gres_liftOptC _ _ _ (by simp)
            (Inv_pushUpvalAt_pos _ (by omega) hlt hInv))) ?_
      intro idx0 s2 hInv2 hle2 hs2
      obtain ⟨rfl, hcast⟩ := hs2
      refine gres_stepOk (gres_propagateOuter name _ _ idx0 (by omega) ?_ hInv2) ?_
      · rw [pushUpvalAt_len]
        omega
      · intro idx s3 hInv3 hle3 _
        exact gres_ok hInv3 (stackLe_refl s3) ⟨by simp, fun _ _ => by simp⟩
  next hloc =>
    by_cases hcond : i = 0 ∧ name = "_ENV" ∧
        ((s.functions.get 0).upvalues.isEmpty = true)
    · rw [if_pos hcond]
      obtain ⟨hi0, hname, hemp⟩ := hcond
      have hempty : upv0 s = [] := by
        unfold upv0
        exact List.isEmpty_iff_eq_nil.1 hemp
      have hInv1 : Inv (pushUpvalAt 0 ("_ENV", .environment) s) :=
        Inv_pushUpvalAt_env hempty hInv
      have hle1 : stackLe s (pushUpvalAt 0 ("_ENV", .environment) s) :=
        stackLe_pushUpvalAt _ (TopStack.len_pos s.functions)
      have hup : ((pushUpvalAt 0 ("_ENV", .environment) s).functions.get i).upvalues =
          [("_ENV", .environment)] := by
        subst hi0
        rw [pushUpvalAt_get_self _ (TopStack.len_pos s.functions)]
        simp only
        unfold upv0 at hempty
        rw [hempty]
        rfl
      split
      next j hj =>
        refine gres_stepOk (gres_pre hle1 (gres_liftOptC _ _ _ (by simp) hInv1)) ?_
        intro j1 s2 hInv2 hle2 hs2
        obtain ⟨rfl, hcast⟩ := hs2
        split
        · exact gres_ok hInv2 (stackLe_refl _) ⟨by simp, fun _ _ => by simp⟩
        · refine gres_stepOk (gres_propagateOuter name _ _ j1 (by omega) ?_ hInv2) ?_
          · rw [pushUpvalAt_len]
            omega
          · intro idx s3 hInv3 hle3 _
            exact gres_ok hInv3 (stackLe_refl s3) ⟨by simp, fun _ _ => by simp⟩
      next hj =>
        rw [hup] at hj
        subst hname
        rw [findUpvalueIdx_env] at hj
        exact absurd hj (by simp)
    · rw [if_neg hcond]
      split
      next j hj =>
        refine gres_stepOk (gres_liftOptC _ _ _ (by simp) hInv) ?_
        intro j1 s2 hInv2 hle2 hs2
        obtain ⟨rfl, hcast⟩ := hs2
        split
        · exact gres_ok hInv2 (stackLe_refl _) ⟨by simp, fun _ _ => by simp⟩
        · refine gres_stepOk (gres_propagateOuter name _ _ j1 (by omega) ?_ hInv2) ?_
          · omega
          · intro idx s3 hInv3 hle3 _
            exact gres_ok hInv3 (stackLe_refl s3) ⟨by simp, fun _ _ => by simp⟩
      next hj =>
        refine gres_ok hInv (stackLe_refl s) ⟨by simp, ?_⟩
        intro hname hi0
        exfalso
        subst hname
        subst hi0
        rcases hInv.1 with henv | henv
        · refine hcond ⟨rfl, rfl, ?_⟩
          unfold upv0 at henv
          rw [henv]
          rfl
        · unfold upv0 at henv
          rw [henv] at hj
          rw [findUpvalueIdx_env] at hj
          exact absurd hj (by simp)

/-- The depth loop of `find_variable` is good: for `_ENV` it never answers
Global. -/
theorem gres_findVariableAux (name : Name) : ∀ (i : Nat) {s : Compiler},
    i < s.functions.len → Inv s →
    GRes s (findVariableAux name i s)
      (fun v _ => name = "_ENV" → ∀ g, v ≠ .global g) := by
  intro i
  induction i with
  | zero =>
      intro s hi hInv
      unfold findVariableAux
      refine gres_stepOk (gres_findVarScan name 0 hi hInv) ?_
      intro r s1 hInv1 hle1 hpost
      cases r with
      | some res =>
          refine gres_ok hInv1 (stackLe_refl s1) ?_
          intro hname g he
          exact hpost.1 g (by rw [he])
      | none =>
          refine gres_ok hInv1 (stackLe_refl s1) ?_
          intro hname g
          exact (hpost.2 hname rfl rfl).elim
  | succ n ih =>
      intro s hi hInv
      unfold findVariableAux
      refine gres_stepOk (gres_findVarScan name (n + 1) hi hInv) ?_
      intro r s1 hInv1 hle1 hpost
      cases r with
      | some res =>
          refine gres_ok hInv1 (stackLe_refl s1) ?_
          intro hname g he
          exact hpost.1 g (by rw [he])
      | none =>
          refine ih ?_ hInv1
          rw [hle1.1]
          omega

/-- `find_variable` is good: for `_ENV` it never answers Global. -/
theorem gres_findVariableS (name : Name) {s : Compiler} (hInv : Inv s) :
    GRes s (findVariableS name s)
      (fun v _ => name = "_ENV" → ∀ g, v ≠ .global g) := by
  unfold findVariableS
  refine gres_findVariableAux name _ ?_ hInv
  have := TopStack.len_pos s.functions
  omega

/-- `get_environment` is good: in particular its `unreachable!` branch is
never taken on an invariant-satisfying state. -/
theorem gres_getEnvironmentS {s : Compiler} (hInv : Inv s) :
    GRes s (getEnvironmentS s) (fun _ _ => True) := by
  unfold getEnvironmentS
  refine gres_stepOk (gres_findVariableS "_ENV" hInv) ?_
  intro v s1 h1 h2 hpost
  cases v with
  | localVar r => exact gres_ok h1 (stackLe_refl s1) trivial
  | upValue u => exact gres_ok h1 (stackLe_refl s1) trivial
  | global g => exact absurd rfl (hpost rfl g)

/-- `callUnit` is good and carries the callee's postcondition. -/
theorem gres_callUnit {recur : Recur} (hrec : GoodRecur recur) (c : CompCall) {s : Compiler}
    (hInv : Inv s) : GRes s (callUnit recur c s) (fun _ s1 => cpost c s1) := by
  unfold callUnit
  refine gres_stepOk (hrec c s hInv) ?_
  intro r s1 h1 hle hpost
  cases r <;> first
    | exact gres_ok h1 (stackLe_refl s1) hpost
    | exact gres_error (by simp)

/-- `callExpr` is good and carries the callee's postcondition. -/
theorem gres_callExpr {recur : Recur} (hrec : GoodRecur recur) (c : CompCall) {s : Compiler}
    (hInv : Inv s) : GRes s (callExpr recur c s) (fun _ s1 => cpost c s1) := by
  unfold callExpr
  refine gres_stepOk (hrec c s hInv) ?_
  intro r s1 h1 hle hpost
  cases r <;> first
    | exact gres_ok h1 (stackLe_refl s1) hpost
    | exact gres_error (by simp)

/-- `callExprList` is good and carries the callee's postcondition. -/
theorem gres_callExprList {recur : Recur} (hrec : GoodRecur recur) (c : CompCall)
    {s : Compiler} (hInv : Inv s) :
    GRes s (callExprList recur c s) (fun _ s1 => cpost c s1) := by
  unfold callExprList
  refine gres_stepOk (hrec c s hInv) ?_
  intro r s1 h1 hle hpost
  cases r <;> first
    | exact gres_ok h1 (stackLe_refl s1) hpost
    | exact gres_error (by simp)

/-- `callOptReg` is good and carries the callee's postcondition. -/
theorem gres_callOptReg {recur : Recur} (hrec : GoodRecur recur) (c : CompCall)
    {s : Compiler} (hInv : Inv s) :
    GRes s (callOptReg recur c s) (fun _ s1 => cpost c s1) := by
  unfold callOptReg
  refine gres_stepOk (hrec c s hInv) ?_
  intro r s1 h1 hle hpost
  cases r <;> first
    | exact gres_ok h1 (stackLe_refl s1) hpost
    | exact gres_error (by simp)

/-- `callReg` is good and carries the callee's postcondition. -/
theorem gres_callReg {recur : Recur} (hrec : GoodRecur recur) (c : CompCall)
    {s : Compiler} (hInv : Inv s) :
    GRes s (callReg recur c s) (fun _ s1 => cpost c s1) := by
  unfold callReg
  refine gres_stepOk (hrec c s hInv) ?_
  intro r s1 h1 hle hpost
  cases r <;> first
    | exact gres_ok h1 (stackLe_refl s1) hpost
    | exact gres_error (by simp)

/-- `callBinArgs` is good and carries the callee's postcondition. -/
theorem gres_callBinArgs {recur : Recur} (hrec : GoodRecur recur) (c : CompCall)
    {s : Compiler} (hInv : Inv s) :
    GRes s (callBinArgs recur c s) (fun _ s1 => cpost c s1) := by
  unfold callBinArgs
  refine gres_stepOk (hrec c s hInv) ?_
  intro r s1 h1 hle hpost
  cases r <;> first
    | exact gres_ok h1 (stackLe_refl s1) hpost
    | exact gres_error (by simp)

/-- `callRegExpr` is good and carries the callee's postcondition. -/
theorem gres_callRegExpr {recur : Recur} (hrec : GoodRecur recur) (c : CompCall)
    {s : Compiler} (hInv : Inv s) :
    GRes s (callRegExpr recur c s) (fun _ s1 => cpost c s1) := by
  unfold callRegExpr
  refine gres_stepOk (hrec c s hInv) ?_
  intro r s1 h1 hle hpost
  cases r <;> first
    | exact gres_ok h1 (stackLe_refl s1) hpost
    | exact gres_error (by simp)

/-- `callRCExpr` is good and carries the callee's postcondition. -/
theorem gres_callRCExpr {recur : Recur} (hrec : GoodRecur recur) (c : CompCall)
    {s : Compiler} (hInv : Inv s) :
    GRes s (callRCExpr recur c s) (fun _ s1 => cpost c s1) := by
  unfold callRCExpr
  refine gres_stepOk (hrec c s hInv) ?_
  intro r s1 h1 hle hpost
  cases r <;> first
    | exact gres_ok h1 (stackLe_refl s1) hpost
    | exact gres_error (by simp)

/-- `callTriple` is good and carries the callee's postcondition. -/
theorem gres_callTriple {recur : Recur} (hrec : GoodRecur recur) (c : CompCall)
    {s : Compiler} (hInv : Inv s) :
    GRes s (callTriple recur c s) (fun _ s1 => cpost c s1) := by
  unfold callTriple
  refine gres_stepOk (hrec c s hInv) ?_
  intro r s1 h1 hle hpost
  cases r <;> first
    | exact gres_ok h1 (stackLe_refl s1) hpost
    | exact gres_error (by simp)

/-- A pushed Return ends the opcodes with a Return. -/
theorem endsRetB_push_ret (s : Compiler) (a : Nat) (c : VarCount) :
    endsRetB (pushOpcodeS (.ret a c) s).functions.top.opcodes = true := by
  show endsRetB (s.functions.top.opcodes ++ [OpCode.ret a c]) = true
  unfold endsRetB
  rw [List.getLast?_concat]
  rfl

/-- A pushed Return is the last opcode. -/
theorem getLast_push_ret (s : Compiler) (a : Nat) (c : VarCount) :
    (pushOpcodeS (.ret a c) s).functions.top.opcodes.getLast? = some (.ret a c) := by
  show (s.functions.top.opcodes ++ [OpCode.ret a c]).getLast? = some (OpCode.ret a c)
  exact List.getLast?_concat _

/-- `Compiler::block` is good: it ends the opcodes in a Return. -/
theorem good_blockF {recur : Recur} (hrec : GoodRecur recur) (b : Block) {s : Compiler}
    (hInv : Inv s) : GRes s (blockF recur b s) (fun _ s1 => cpost (.block b) s1) := by
  unfold blockF
  refine gres_stepOk (gres_callUnit hrec (.statementList b.statements) hInv) ?_
  intro a s1 h1 hle _
  cases hb : b.returnStatement with
  | some rs =>
      refine gres_mono (gres_callUnit hrec (.returnStatement rs) h1) ?_
      intro a2 s2 h2 hle2 hpost
      exact ⟨hpost, fun hc => absurd hc (by rw [hb]; simp)⟩
  | none =>
      refine gres_ok (Inv_pushOpcodeS _ h1) (stackLe_pushOpcodeS _ s1) ?_
      exact ⟨endsRetB_push_ret s1 0 VarCount.makeZero,
        fun _ => getLast_push_ret s1 0 VarCount.makeZero⟩

/-- The statement loop of `Compiler::block` is good. -/
theorem good_statementListF {recur : Recur} (hrec : GoodRecur recur) (l : List Statement)
    {s : Compiler} (hInv : Inv s) :
    GRes s (statementListF recur l s) (fun _ _ => True) := by
  cases l with
  | nil => exact gres_ok hInv (stackLe_refl s) trivial
  | cons st rest =>
      unfold statementListF
      refine gres_stepOk (gres_callUnit hrec (.statement st) hInv) ?_
      intro a s1 h1 hle _
      exact gres_mono (gres_callUnit hrec (.statementList rest) h1) (fun _ _ _ _ _ => trivial)

/-- `Compiler::statement` is good. -/
theorem good_statementF {recur : Recur} (hrec : GoodRecur recur) (st : Statement)
    {s : Compiler} (hInv : Inv s) :
    GRes s (statementF recur st s) (fun _ _ => True) := by
  cases st <;> simp only [statementF] <;> first
    | exact gres_error (by simp)
    | exact gres_mono (gres_callUnit hrec _ hInv) (fun _ _ _ _ _ => trivial)

/-- The return-expression loop of `return_statement` is good. -/
theorem good_pushReturnsF {recur : Recur} (hrec : GoodRecur recur) (l : List Expression)
    {s : Compiler} (hInv : Inv s) :
    GRes s (pushReturnsF recur l s) (fun _ _ => True) := by
  cases l with
  | nil => exact gres_ok hInv (stackLe_refl s) trivial
  | cons e rest =>
      unfold pushReturnsF
      refine gres_stepOk (gres_callExpr hrec (.expression e) hInv) ?_
      intro d s1 h1 hle _
      refine gres_stepOk (gres_callOptReg hrec (.exprDischarge d .pushNew) h1) ?_
      intro a s2 h2 hle2 _
      exact gres_mono (gres_callUnit hrec (.pushReturns rest) h2) (fun _ _ _ _ _ => trivial)

/-- Variant of `gres_stepOk` with a trivial intermediate postcondition. -/
theorem gres_stepOkT {α β : Type} {s : Compiler} {r : Res α}
    {f : α → Compiler → Res β} {post2 : β → Compiler → Prop}
    (h : GRes s r (fun _ _ => True))
    (h2 : ∀ a s1, Inv s1 → stackLe s s1 → GRes s1 (f a s1) post2) :
    GRes s (stepOk r f) post2 :=
  gres_stepOk h (fun a s1 hi hl _ => h2 a s1 hi hl)

/-- `Compiler::return_statement` is good: it ends the opcodes in a
Return. -/
theorem good_returnStatementF {recur : Recur} (hrec : GoodRecur recur)
    (rs : ReturnStatement) {s : Compiler} (hInv : Inv s) :
    GRes s (returnStatementF recur rs s) (fun _ s1 => cpost (.returnStatement rs) s1) := by
  unfold returnStatementF
  split
  · exact gres_ok (Inv_pushOpcodeS _ hInv) (stackLe_pushOpcodeS _ s)
      (endsRetB_push_ret s 0 VarCount.makeZero)
  · refine gres_stepOk (gres_liftOptC _ _ _ (by simp) hInv) ?_
    intro retStart s1 h1 hle1 hs1
    obtain ⟨rfl, hcast⟩ := hs1
    refine gres_stepOk (gres_callUnit hrec (.pushReturns rs.returns.dropLast) h1) ?_
    intro a s2 h2 hle2 _
    refine gres_stepOk (gres_liftOptC _ _ _ (by simp) h2) ?_
    intro lastE s3 h3 hle3 hs3
    obtain ⟨rfl, hlast⟩ := hs3
    refine gres_stepOk (gres_callExpr hrec (.expression lastE) h3) ?_
    intro lastD s4 h4 hle4 _
    refine gres_stepOkT ?_ ?_
    · cases lastD with
      | functionCall func args =>
          refine gres_stepOk (gres_callReg hrec _ h4) ?_
          intro a2 s5 h5 hle5 _
          exact gres_ok h5 (stackLe_refl s5) trivial
      | register r t =>
          refine gres_stepOk (gres_callOptReg hrec _ h4) ?_
          intro a2 s5 h5 hle5 _
          exact gres_mono (gres_liftOptC _ _ _ (by simp) h5) (fun _ _ _ _ _ => trivial)
      | upValue u =>
          refine gres_stepOk (gres_callOptReg hrec _ h4) ?_
          intro a2 s5 h5 hle5 _
          exact gres_mono (gres_liftOptC _ _ _ (by simp) h5) (fun _ _ _ _ _ => trivial)
      | value v =>
          refine gres_stepOk (gres_callOptReg hrec _ h4) ?_
          intro a2 s5 h5 hle5 _
          exact gres_mono (gres_liftOptC _ _ _ (by simp) h5) (fun _ _ _ _ _ => trivial)
      | shortCircuitBinOp left op right =>
          refine gres_stepOk (gres_callOptReg hrec _ h4) ?_
          intro a2 s5 h5 hle5 _
          exact gres_mono (gres_liftOptC _ _ _ (by simp) h5) (fun _ _ _ _ _ => trivial)
    · intro retCount s6 h6 hle6
      refine gres_ok (Inv_popToS _ (Inv_pushOpcodeS _ h6))
        (stackLe_trans (stackLe_pushOpcodeS _ s6) (stackLe_popToS _ _)) ?_
      show endsRetB (pushOpcodeS (.ret retStart retCount) s6).functions.top.opcodes = true
      exact endsRetB_push_ret s6 retStart retCount

/-- `Compiler::local_statement` is good. -/
theorem good_localStatementF {recur : Recur} (hrec : GoodRecur recur)
    (ls : LocalStatement) {s : Compiler} (hInv : Inv s) :
    GRes s (localStatementF recur ls s) (fun _ _ => True) := by
  unfold localStatementF
  exact gres_mono (gres_callUnit hrec _ hInv) (fun _ _ _ _ _ => trivial)

/-- `Compiler::expression` is good. -/
theorem good_expressionF {recur : Recur} (hrec : GoodRecur recur) (e : Expression)
    {s : Compiler} (hInv : Inv s) :
    GRes s (expressionF recur e s) (fun _ _ => True) := by
  unfold expressionF
  refine gres_stepOk (gres_callExpr hrec (.headExpression e.head) hInv) ?_
  intro d s1 h1 hle _
  exact gres_mono (gres_callExpr hrec (.expressionTail d e.tail) h1) (fun _ _ _ _ _ => trivial)

/-- The operator fold of `Compiler::expression` is good. -/
theorem good_expressionTailF {recur : Recur} (hrec : GoodRecur recur) (d : ExprDescriptor)
    (t : List (BinaryOperator × Expression)) {s : Compiler} (hInv : Inv s) :
    GRes s (expressionTailF recur d t s) (fun _ _ => True) := by
  cases t with
  | nil => exact gres_ok hInv (stackLe_refl s) trivial
  | cons p rest =>
      obtain ⟨binop, right⟩ := p
      unfold expressionTailF
      refine gres_stepOk (gres_callExpr hrec (.binaryOperator d binop right) hInv) ?_
      intro d1 s1 h1 hle _
      exact gres_mono (gres_callExpr hrec (.expressionTail d1 rest) h1) (fun _ _ _ _ _ => trivial)

/-- `Compiler::head_expression` is good. -/
theorem good_headExpressionF {recur : Recur} (hrec : GoodRecur recur) (he : HeadExpression)
    {s : Compiler} (hInv : Inv s) :
    GRes s (headExpressionF recur he s) (fun _ _ => True) := by
  cases he with
  | simple se =>
      exact gres_mono (gres_callExpr hrec (.simpleExpression se) hInv) (fun _ _ _ _ _ => trivial)
  | unaryOp unop e =>
      unfold headExpressionF
      refine gres_stepOk (gres_callExpr hrec (.expression e) hInv) ?_
      intro d s1 h1 hle _
      exact gres_mono (gres_callExpr hrec (.unaryOperator unop d) h1) (fun _ _ _ _ _ => trivial)

/-- `Compiler::simple_expression` is good. -/
theorem good_simpleExpressionF {recur : Recur} (hrec : GoodRecur recur)
    (se : SimpleExpression) {s : Compiler} (hInv : Inv s) :
    GRes s (simpleExpressionF recur se s) (fun _ _ => True) := by
  cases se with
  | float bits => exact gres_ok hInv (stackLe_refl s) trivial
  | integer i => exact gres_ok hInv (stackLe_refl s) trivial
  | stringE str => exact gres_ok (Inv_stringNewS _ hInv) (stackLe_stringNewS _ s) trivial
  | nil => exact gres_ok hInv (stackLe_refl s) trivial
  | trueE => exact gres_ok hInv (stackLe_refl s) trivial
  | falseE => exact gres_ok hInv (stackLe_refl s) trivial
  | varArgs => exact gres_error (by simp)
  | tableCtor t => exact gres_mono (gres_tableConstructorS t hInv) (fun _ _ _ _ _ => trivial)
  | function d =>
      exact gres_mono (gres_callExpr hrec (.functionExpression d) hInv) (fun _ _ _ _ _ => trivial)
  | suffixed sx =>
      exact gres_mono (gres_callExpr hrec (.suffixedExpression sx) hInv) (fun _ _ _ _ _ => trivial)

/-- `Compiler::function_expression` is good. -/
theorem good_functionExpressionF {recur : Recur} (hrec : GoodRecur recur)
    (d : FunctionDefinition) {s : Compiler} (hInv : Inv s) :
    GRes s (functionExpressionF recur d s) (fun _ _ => True) := by
  unfold functionExpressionF
  refine gres_stepOk (gres_callReg hrec (.newPrototype d) hInv) ?_
  intro proto s1 h1 hle _
  refine gres_stepOk (gres_allocS h1) ?_
  intro dest s2 h2 hle2 _
  exact gres_ok (Inv_pushOpcodeS _ h2) (stackLe_pushOpcodeS _ s2) trivial

/-- `Compiler::suffixed_expression` is good. -/
theorem good_suffixedExpressionF {recur : Recur} (hrec : GoodRecur recur)
    (se : SuffixedExpression) {s : Compiler} (hInv : Inv s) :
    GRes s (suffixedExpressionF recur se s) (fun _ _ => True) := by
  unfold suffixedExpressionF
  refine gres_stepOk (gres_callExpr hrec (.primaryExpression se.primary) hInv) ?_
  intro d s1 h1 hle _
  exact gres_mono (gres_callExpr hrec (.suffixes d se.suffixes) h1) (fun _ _ _ _ _ => trivial)

/-- The argument collection loop is good. -/
theorem good_expressionListF {recur : Recur} (hrec : GoodRecur recur) (l : List Expression)
    {s : Compiler} (hInv : Inv s) :
    GRes s (expressionListF recur l s) (fun _ _ => True) := by
  cases l with
  | nil => exact gres_ok hInv (stackLe_refl s) trivial
  | cons e rest =>
      unfold expressionListF
      refine gres_stepOk (gres_callExpr hrec (.expression e) hInv) ?_
      intro d s1 h1 hle _
      refine gres_stepOk (gres_callExprList hrec (.expressionList rest) h1) ?_
      intro ds s2 h2 hle2 _
      exact gres_ok h2 (stackLe_refl s2) trivial

/-- The argument discharge loop of `expr_function_call` is good. -/
theorem good_dischargeArgsF {recur : Recur} (hrec : GoodRecur recur)
    (args : List ExprDescriptor) {s : Compiler} (hInv : Inv s) :
    GRes s (dischargeArgsF recur args s) (fun _ _ => True) := by
  cases args with
  | nil => exact gres_ok hInv (stackLe_refl s) trivial
  | cons a rest =>
      unfold dischargeArgsF
      refine gres_stepOk (gres_callOptReg hrec (.exprDischarge a .pushNew) hInv) ?_
      intro r s1 h1 hle _
      exact gres_mono (gres_callUnit hrec (.dischargeArgs rest) h1) (fun _ _ _ _ _ => trivial)

/-- `Compiler::assignment` is good. -/
theorem good_assignmentF {recur : Recur} (hrec : GoodRecur recur)
    (a : AssignmentStatement) {s : Compiler} (hInv : Inv s) :
    GRes s (assignmentF recur a s) (fun _ _ => True) := by
  unfold assignmentF
  exact gres_mono (gres_callUnit hrec _ hInv) (fun _ _ _ _ _ => trivial)

/-- The default function context is well-formed. -/
theorem FnOk_default : FnOk CompilerFunction.default := by
  refine ⟨⟨?_, rfl⟩, ?_⟩
  · intro v hv
    exact absurd hv (by simp [CompilerFunction.default])
  · intro q hq
    exact absurd hq (by simp [CompilerFunction.default])

/-- The chunk function's upvalues are unchanged by pushing a new function
context. -/
theorem upv0_push (f : CompilerFunction) (s : Compiler) :
    upv0 ⟨s.functions.push f, s.nextStringId⟩ = upv0 s := by
  unfold upv0
  show (TopStack.get _ 0).upvalues = _
  rw [TopStack.get_push_lt s.functions f (TopStack.len_pos s.functions)]

/-- The invariant survives pushing a well-formed function context. -/
theorem Inv_push {s : Compiler} (f : CompilerFunction) (hf : FnOk f) (hInv : Inv s) :
    Inv ⟨s.functions.push f, s.nextStringId⟩ := by
  refine ⟨by rw [upv0_push]; exact hInv.1, ?_⟩
  intro g hg
  unfold stackFns TopStack.push at hg
  simp only at hg
  rcases List.mem_append.1 hg with hg | hg
  · exact hInv.2 g hg
  · rcases List.mem_singleton.1 hg with rfl
    exact hf

/-- Each stack level is a member of `stackFns`. -/
theorem stackFns_get {s : Compiler} {i : Nat} (h : i < s.functions.len) :
    s.functions.get i ∈ stackFns s := by
  unfold stackFns TopStack.get TopStack.len at *
  rcases Nat.lt_or_ge i s.functions.lower.length with hi | hi
  · rw [List.getD_eq_get?, List.get?_eq_get hi]
    exact List.mem_append.2 (Or.inl (by simp [List.get_mem]))
  · have hieq : i = s.functions.lower.length := by omega
    subst hieq
    rw [List.getD_eq_get?, List.get?_eq_none.2 (Nat.le_refl _)]
    exact List.mem_append.2 (Or.inr (by simp))

/-- Each member of `stackFns` is some stack level. -/
theorem mem_stackFns_elim {s : Compiler} {g : CompilerFunction} (h : g ∈ stackFns s) :
    ∃ i, i < s.functions.len ∧ s.functions.get i = g := by
  unfold stackFns at h
  rcases List.mem_append.1 h with h | h
  · obtain ⟨i, hi⟩ := List.mem_iff_get?.1 h
    have hlt : i < s.functions.lower.length := by
      by_contra hge
      rw [List.get?_eq_none.2 (Nat.le_of_not_lt hge)] at hi
      exact absurd hi (by simp)
    refine ⟨i, by unfold TopStack.len; omega, ?_⟩
    unfold TopStack.get
    rw [List.getD_eq_get?, hi]
    rfl
  · rcases List.mem_singleton.1 h with rfl
    refine ⟨s.functions.len - 1, by unfold TopStack.len; omega, TopStack.get_top _⟩

/-- The invariant survives popping the top function context. -/
theorem Inv_popState {s : Compiler} {fn : CompilerFunction} {ts : TopStack}
    (h : s.functions.pop = some (fn, ts)) (hInv : Inv s) (n : Nat) :
    Inv (⟨ts, n⟩ : Compiler) := by
  obtain ⟨hfn, hlen, hget⟩ := TopStack.pop_spec h
  constructor
  · unfold upv0
    show (ts.get 0).upvalues = [] ∨ _
    rw [hget 0 (TopStack.len_pos ts)]
    exact hInv.1
  · intro g hg
    obtain ⟨i, hi, he⟩ := mem_stackFns_elim hg
    have he2 : ts.get i = g := he
    have hi2 : i < ts.len := hi
    rw [hget i hi2] at he2
    have hmem : s.functions.get i ∈ stackFns s := stackFns_get (by omega)
    rw [he2] at hmem
    exact hInv.2 g hmem

/-- Specification of a successful `to_proto`. -/
theorem toProto_spec {f : CompilerFunction} {p : FunctionProto}
    (h : f.toProto = some p) :
    p.opcodes = f.opcodes ∧ p.constants = f.constants ∧ p.prototypes = f.prototypes ∧
    p.upvalues = f.upvalues.map (·.2) := by
  unfold CompilerFunction.toProto at h
  split at h
  · injection h with h
    subst h
    exact ⟨rfl, rfl, rfl, rfl⟩
  · exact absurd h (by simp)

/-- Pointwise Return-termination gives the list form. -/
theorem protoListRetOK_of_forall : ∀ {l : List FunctionProto},
    (∀ q, q ∈ l → protoRetOK q = true) → protoListRetOK l = true := by
  intro l
  induction l with
  | nil => intro h; rfl
  | cons p rest ih =>
      intro h
      have h1 : protoRetOK p = true := h p (List.mem_cons_self p rest)
      have h2 : protoListRetOK rest = true := ih fun q hq => h q (List.mem_cons_of_mem p hq)
      simp [protoListRetOK, h1, h2]

/-- Pointwise constant-pool dedup gives the list form. -/
theorem protoListConstsNodup_of_forall : ∀ {l : List FunctionProto},
    (∀ q, q ∈ l → protoConstsNodup q = true) → protoListConstsNodup l = true := by
  intro l
  induction l with
  | nil => intro h; rfl
  | cons p rest ih =>
      intro h
      have h1 : protoConstsNodup p = true := h p (List.mem_cons_self p rest)
      have h2 : protoListConstsNodup rest = true :=
        ih fun q hq => h q (List.mem_cons_of_mem p hq)
      simp [protoListConstsNodup, h1, h2]

/-- A well-formed function whose opcodes end in Return emits a fully
Return-terminated, duplicate-free prototype. -/
theorem protoOK_of_toProto {f : CompilerFunction} {p : FunctionProto}
    (h : f.toProto = some p) (hfn : FnOk f) (hret : endsRetB f.opcodes = true) :
    protoRetOK p = true ∧ protoConstsNodup p = true := by
  unfold CompilerFunction.toProto at h
  split at h
  · injection h with h
    subst h
    constructor
    · simp only [protoRetOK, Bool.and_eq_true]
      exact ⟨hret, protoListRetOK_of_forall fun q hq => (hfn.2 q hq).1⟩
    · simp only [protoConstsNodup, Bool.and_eq_true]
      exact ⟨hfn.1.2, protoListConstsNodup_of_forall fun q hq => (hfn.2 q hq).2⟩
  · exact absurd h (by simp)

/-- Patching a Jump on the top function is a `stackLe` step. -/
theorem stackLe_setJump {s : Compiler} {j a : Nat} (b : Nat)
    (h : s.functions.top.opcodes.get? j = some (.jump a)) :
    stackLe s (modTop (fun f => { f with opcodes := f.opcodes.set j (.jump b) }) s) := by
  refine ⟨rfl, fun i hi => ?_, fun i hi => ?_⟩
  · rcases Nat.lt_or_ge i (s.functions.len - 1) with hil | hil
    · rw [modTop_get_lower _ s hil]
      exact opListLe_refl _
    · have hieq : i = s.functions.len - 1 := by
        unfold TopStack.len at hi hil ⊢
        omega
      rw [modTop_get_last _ s hieq]
      have htop : s.functions.get i = s.functions.top := by
        rw [hieq]
        exact TopStack.get_top _
      rw [htop]
      exact opListLe_set_jump b h
  · rcases Nat.lt_or_ge i (s.functions.len - 1) with hil | hil
    · rw [modTop_get_lower _ s hil]
      exact tabSub_refl _
    · have hieq : i = s.functions.len - 1 := by
        unfold TopStack.len at hi hil ⊢
        omega
      rw [modTop_get_last _ s hieq]
      exact tabSub_refl _

/-- The value loop of `local_statement` is good. -/
theorem good_localValuesF {recur : Recur} (hrec : GoodRecur recur) (ls : LocalStatement)
    (i : Nat) {s : Compiler} (hInv : Inv s) :
    GRes s (localValuesF recur ls i s) (fun _ _ => True) := by
  unfold localValuesF
  split
  · exact gres_mono (gres_nilLocalsS _ hInv) (fun _ _ _ _ _ => trivial)
  next value hval =>
    refine gres_stepOk (gres_callExpr hrec _ hInv) ?_
    intro expr s1 h1 hle _
    split
    · refine gres_stepOk (gres_callOptReg hrec _ h1) ?_
      intro r s2 h2 hle2 _
      exact gres_mono (gres_callUnit hrec _ h2) (fun _ _ _ _ _ => trivial)
    · split
      · cases expr with
        | functionCall func args =>
            refine gres_stepOk (gres_liftOptC _ _ _ (by simp) h1) ?_
            intro numReturns s2 h2 hle2 hs2
            obtain ⟨rfl, hn⟩ := hs2
            refine gres_stepOk (gres_liftOptC _ _ _ (by simp) h2) ?_
            intro vc s3 h3 hle3 hs3
            obtain ⟨rfl, hv⟩ := hs3
            refine gres_stepOk (gres_callReg hrec _ h3) ?_
            intro a s4 h4 hle4 _
            refine gres_stepOk (gres_pushRegsS _ h4) ?_
            intro reg s5 h5 hle5 _
            refine gres_ok (Inv_modTop_top (fun _ => rfl) (fun h => h) h5) ?_ trivial
            apply stackLe_modTop_keep
            · intro f
              rfl
            · exact tabSub_refl _
        | register r t =>
            refine gres_stepOk (gres_callOptReg hrec _ h1) ?_
            intro regOpt s2 h2 hle2 _
            refine gres_stepOk (gres_liftOptC _ _ _ (by simp) h2) ?_
            intro reg s3 h3 hle3 hs3
            obtain ⟨rfl, hr⟩ := hs3
            refine gres_pre (stackLe_pushLocalS (ls.names.getD i "") reg s3) ?_
            exact gres_mono (gres_callUnit hrec _ (Inv_pushLocalS _ _ h3))
              (fun _ _ _ _ _ => trivial)
        | upValue u =>
            refine gres_stepOk (gres_callOptReg hrec _ h1) ?_
            intro regOpt s2 h2 hle2 _
            refine gres_stepOk (gres_liftOptC _ _ _ (by simp) h2) ?_
            intro reg s3 h3 hle3 hs3
            obtain ⟨rfl, hr⟩ := hs3
            refine gres_pre (stackLe_pushLocalS (ls.names.getD i "") reg s3) ?_
            exact gres_mono (gres_callUnit hrec _ (Inv_pushLocalS _ _ h3))
              (fun _ _ _ _ _ => trivial)
        | value v =>
            refine gres_stepOk (gres_callOptReg hrec _ h1) ?_
            intro regOpt s2 h2 hle2 _
            refine gres_stepOk (gres_liftOptC _ _ _ (by simp) h2) ?_
            intro reg s3 h3 hle3 hs3
            obtain ⟨rfl, hr⟩ := hs3
            refine gres_pre (stackLe_pushLocalS (ls.names.getD i "") reg s3) ?_
            exact gres_mono (gres_callUnit hrec _ (Inv_pushLocalS _ _ h3))
              (fun _ _ _ _ _ => trivial)
        | shortCircuitBinOp left op right =>
            refine gres_stepOk (gres_callOptReg hrec _ h1) ?_
            intro regOpt s2 h2 hle2 _
            refine gres_stepOk (gres_liftOptC _ _ _ (by simp) h2) ?_
            intro reg s3 h3 hle3 hs3
            obtain ⟨rfl, hr⟩ := hs3
            refine gres_pre (stackLe_pushLocalS (ls.names.getD i "") reg s3) ?_
            exact gres_mono (gres_callUnit hrec _ (Inv_pushLocalS _ _ h3))
              (fun _ _ _ _ _ => trivial)
      · refine gres_stepOk (gres_callOptReg hrec _ h1) ?_
        intro regOpt s2 h2 hle2 _
        refine gres_stepOk (gres_liftOptC _ _ _ (by simp) h2) ?_
        intro reg s3 h3 hle3 hs3
        obtain ⟨rfl, hr⟩ := hs3
        refine gres_pre (stackLe_pushLocalS (ls.names.getD i "") reg s3) ?_
        exact gres_mono (gres_callUnit hrec _ (Inv_pushLocalS _ _ h3))
          (fun _ _ _ _ _ => trivial)

/-- `Compiler::function_call` (statement position) is good. -/
theorem good_functionCallStatementF {recur : Recur} (hrec : GoodRecur recur)
    (c : FunctionCallStatement) {s : Compiler} (hInv : Inv s) :
    GRes s (functionCallStatementF recur c s) (fun _ _ => True) := by
  unfold functionCallStatementF
  refine gres_stepOk (gres_callExpr hrec _ hInv) ?_
  intro funcExpr s1 h1 hle _
  cases hc : c.call with
  | function args =>
      refine gres_stepOk (gres_callExprList hrec _ h1) ?_
      intro argExprs s2 h2 hle2 _
      refine gres_stepOk (gres_callReg hrec _ h2) ?_
      intro a s3 h3 hle3 _
      exact gres_ok h3 (stackLe_refl s3) trivial
  | method a b => exact gres_error (by simp)

/-- `Compiler::local_function` is good. -/
theorem good_localFunctionF {recur : Recur} (hrec : GoodRecur recur)
    (fs : FunctionStatement) {s : Compiler} (hInv : Inv s) :
    GRes s (localFunctionF recur fs s) (fun _ _ => True) := by
  unfold localFunctionF
  split
  · exact gres_error (by simp)
  · split
    · exact gres_error (by simp)
    · refine gres_stepOk (gres_callReg hrec _ hInv) ?_
      intro proto s1 h1 hle _
      refine gres_stepOk (gres_allocS h1) ?_
      intro dest s2 h2 hle2 _
      exact gres_ok (Inv_pushLocalS _ _ (Inv_pushOpcodeS _ h2))
        (stackLe_trans (stackLe_pushOpcodeS _ s2) (stackLe_pushLocalS _ _ _)) trivial

/-- `Compiler::function_statement` is good. -/
theorem good_functionStatementF {recur : Recur} (hrec : GoodRecur recur)
    (fs : FunctionStatement) {s : Compiler} (hInv : Inv s) :
    GRes s (functionStatementF recur fs s) (fun _ _ => True) := by
  unfold functionStatementF
  split
  · exact gres_error (by simp)
  · split
    · exact gres_error (by simp)
    · refine gres_stepOk (gres_callReg hrec _ hInv) ?_
      intro proto s1 h1 hle _
      refine gres_stepOk (gres_getEnvironmentS h1) ?_
      intro env s2 h2 hle2 _
      refine gres_stepOk (gres_allocS h2) ?_
      intro dest s3 h3 hle3 _
      refine gres_pre (stackLe_trans
        (stackLe_pushOpcodeS (OpCode.closure proto dest) s3)
        (stackLe_stringNewS fs.name.name (pushOpcodeS (OpCode.closure proto dest) s3))) ?_
      refine gres_stepOk (gres_callTriple hrec _
        (Inv_stringNewS _ (Inv_pushOpcodeS _ h3))) ?_
      intro r s5 h5 hle5 _
      refine gres_stepOk (gres_callOptReg hrec _ h5) ?_
      intro a1 s6 h6 hle6 _
      refine gres_stepOk (gres_callOptReg hrec _ h6) ?_
      intro a2 s7 h7 hle7 _
      refine gres_stepOk (gres_callOptReg hrec _ h7) ?_
      intro a3 s8 h8 hle8 _
      exact gres_ok h8 (stackLe_refl s8) trivial

/-- The assignment-target loop is good. -/
theorem good_assignTargetsF {recur : Recur} (hrec : GoodRecur recur)
    (a : AssignmentStatement) (i : Nat) {s : Compiler} (hInv : Inv s) :
    GRes s (assignTargetsF recur a i s) (fun _ _ => True) := by
  unfold assignTargetsF
  split
  · exact gres_ok hInv (stackLe_refl s) trivial
  next target htar =>
    refine gres_stepOkT ?_ ?_
    · split
      · exact gres_mono (gres_callExpr hrec _ hInv) (fun _ _ _ _ _ => trivial)
      · exact gres_ok hInv (stackLe_refl s) trivial
    · intro expr s1 h1 hle1
      refine gres_stepOkT ?_ ?_
      · cases target with
        | name nm =>
            refine gres_stepOk (gres_findVariableS nm h1) ?_
            intro v s2 h2 hle2 _
            cases v with
            | localVar dest =>
                refine gres_stepOk (gres_callOptReg hrec _ h2) ?_
                intro a1 s3 h3 hle3 _
                exact gres_ok h3 (stackLe_refl s3) trivial
            | upValue dest =>
                refine gres_stepOk (gres_callRegExpr hrec _ h2) ?_
                intro r s3 h3 hle3 _
                refine gres_pre (stackLe_pushOpcodeS (OpCode.setUpValue r.1 dest) s3) ?_
                refine gres_stepOk (gres_callOptReg hrec _ (Inv_pushOpcodeS _ h3)) ?_
                intro a1 s4 h4 hle4 _
                exact gres_ok h4 (stackLe_refl s4) trivial
            | global gname =>
                refine gres_stepOk (gres_getEnvironmentS h2) ?_
                intro env s3 h3 hle3 _
                refine gres_pre (stackLe_stringNewS gname s3) ?_
                refine gres_stepOk (gres_callTriple hrec _ (Inv_stringNewS _ h3)) ?_
                intro r s4 h4 hle4 _
                refine gres_stepOk (gres_callOptReg hrec _ h4) ?_
                intro a1 s5 h5 hle5 _
                refine gres_stepOk (gres_callOptReg hrec _ h5) ?_
                intro a2 s6 h6 hle6 _
                refine gres_stepOk (gres_callOptReg hrec _ h6) ?_
                intro a3 s7 h7 hle7 _
                exact gres_ok h7 (stackLe_refl s7) trivial
        | field tbl fld =>
            refine gres_stepOk (gres_callExpr hrec _ h1) ?_
            intro table s2 h2 hle2 _
            refine gres_stepOkT ?_ ?_
            · cases fld with
              | named nm =>
                  exact gres_ok (Inv_stringNewS _ h2) (stackLe_stringNewS nm s2) trivial
              | indexed idx =>
                  exact gres_mono (gres_callExpr hrec _ h2) (fun _ _ _ _ _ => trivial)
            · intro key s3 h3 hle3
              refine gres_stepOk (gres_callTriple hrec _ h3) ?_
              intro r s4 h4 hle4 _
              refine gres_stepOk (gres_callOptReg hrec _ h4) ?_
              intro a1 s5 h5 hle5 _
              refine gres_stepOk (gres_callOptReg hrec _ h5) ?_
              intro a2 s6 h6 hle6 _
              refine gres_stepOk (gres_callOptReg hrec _ h6) ?_
              intro a3 s7 h7 hle7 _
              exact gres_ok h7 (stackLe_refl s7) trivial
      · intro b s8 h8 hle8
        exact gres_mono (gres_callUnit hrec _ h8) (fun _ _ _ _ _ => trivial)

/-- `Compiler::primary_expression` is good. -/
theorem good_primaryExpressionF {recur : Recur} (hrec : GoodRecur recur)
    (pe : PrimaryExpression) {s : Compiler} (hInv : Inv s) :
    GRes s (primaryExpressionF recur pe s) (fun _ _ => True) := by
  cases pe with
  | name nm =>
      unfold primaryExpressionF
      refine gres_stepOk (gres_findVariableS nm hInv) ?_
      intro v s1 h1 hle _
      cases v with
      | localVar register => exact gres_ok h1 (stackLe_refl s1) trivial
      | upValue upvalue => exact gres_ok h1 (stackLe_refl s1) trivial
      | global gname =>
          refine gres_stepOk (gres_getEnvironmentS h1) ?_
          intro env s2 h2 hle2 _
          refine gres_pre (stackLe_stringNewS gname s2) ?_
          refine gres_stepOk (gres_callTriple hrec _ (Inv_stringNewS _ h2)) ?_
          intro r s3 h3 hle3 _
          refine gres_stepOk (gres_callOptReg hrec _ h3) ?_
          intro a1 s4 h4 hle4 _
          refine gres_stepOk (gres_callOptReg hrec _ h4) ?_
          intro a2 s5 h5 hle5 _
          exact gres_ok h5 (stackLe_refl s5) trivial
  | groupedExpression e =>
      exact gres_mono (gres_callExpr hrec _ hInv) (fun _ _ _ _ _ => trivial)

/-- The suffix loop of `suffixed_expression` is good. -/
theorem good_suffixesF {recur : Recur} (hrec : GoodRecur recur) (d : ExprDescriptor)
    (parts : List SuffixPart) {s : Compiler} (hInv : Inv s) :
    GRes s (suffixesF recur d parts s) (fun _ _ => True) := by
  cases parts with
  | nil => exact gres_ok hInv (stackLe_refl s) trivial
  | cons part rest =>
      unfold suffixesF
      cases part with
      | field fld =>
          refine gres_stepOkT ?_ ?_
          · cases fld with
            | named nm =>
                exact gres_ok (Inv_stringNewS _ hInv) (stackLe_stringNewS nm s) trivial
            | indexed idx =>
                exact gres_mono (gres_callExpr hrec _ hInv) (fun _ _ _ _ _ => trivial)
          · intro key s1 h1 hle1
            refine gres_stepOk (gres_callTriple hrec _ h1) ?_
            intro r s2 h2 hle2 _
            refine gres_stepOk (gres_callOptReg hrec _ h2) ?_
            intro a1 s3 h3 hle3 _
            refine gres_stepOk (gres_callOptReg hrec _ h3) ?_
            intro a2 s4 h4 hle4 _
            exact gres_mono (gres_callExpr hrec _ h4) (fun _ _ _ _ _ => trivial)
      | call cs =>
          cases cs with
          | function args =>
              refine gres_stepOk (gres_callExprList hrec _ hInv) ?_
              intro argExprs s1 h1 hle _
              exact gres_mono (gres_callExpr hrec _ h1) (fun _ _ _ _ _ => trivial)
          | method a b => exact gres_error (by simp)

/-- `Compiler::unary_operator` is good. -/
theorem good_unaryOperatorF {recur : Recur} (hrec : GoodRecur recur) (unop : UnaryOperator)
    (expr : ExprDescriptor) {s : Compiler} (hInv : Inv s) :
    GRes s (unaryOperatorF recur unop expr s) (fun _ _ => True) := by
  unfold unaryOperatorF
  refine gres_stepOk (gres_liftOptC _ _ _ (by simp) hInv) ?_
  intro entry s1 h1 hle1 hs1
  obtain ⟨rfl, he⟩ := hs1
  split
  · exact gres_ok h1 (stackLe_refl s1) trivial
  · refine gres_stepOk (gres_callRegExpr hrec _ h1) ?_
    intro r s2 h2 hle2 _
    refine gres_stepOk (gres_callOptReg hrec _ h2) ?_
    intro a1 s3 h3 hle3 _
    refine gres_stepOk (gres_allocS h3) ?_
    intro dest s4 h4 hle4 _
    exact gres_ok (Inv_pushOpcodeS _ h4) (stackLe_pushOpcodeS _ s4) trivial

/-- `Compiler::binary_operator` is good. -/
theorem good_binaryOperatorF {recur : Recur} (hrec : GoodRecur recur)
    (left : ExprDescriptor) (binop : BinaryOperator) (right : Expression) {s : Compiler}
    (hInv : Inv s) :
    GRes s (binaryOperatorF recur left binop right s) (fun _ _ => True) := by
  unfold binaryOperatorF
  split
  · refine gres_stepOk (gres_liftOptC _ _ _ (by simp) hInv) ?_
    intro entry s1 h1 hle1 hs1
    obtain ⟨rfl, he⟩ := hs1
    refine gres_stepOk (gres_callExpr hrec _ h1) ?_
    intro rightD s2 h2 hle2 _
    split
    · exact gres_ok h2 (stackLe_refl s2) trivial
    · refine gres_stepOk (gres_callBinArgs hrec _ h2) ?_
      intro binopArgs s3 h3 hle3 _
      refine gres_stepOk (gres_allocS h3) ?_
      intro dest s4 h4 hle4 _
      exact gres_ok (Inv_pushOpcodeS _ h4) (stackLe_pushOpcodeS _ s4) trivial
  · refine gres_stepOk (gres_liftOptC _ _ _ (by simp) hInv) ?_
    intro entry s1 h1 hle1 hs1
    obtain ⟨rfl, he⟩ := hs1
    refine gres_stepOk (gres_callExpr hrec _ h1) ?_
    intro rightD s2 h2 hle2 _
    split
    · exact gres_ok h2 (stackLe_refl s2) trivial
    · refine gres_stepOk (gres_callBinArgs hrec _ h2) ?_
      intro binopArgs s3 h3 hle3 _
      refine gres_stepOk (gres_allocS h3) ?_
      intro dest s4 h4 hle4 _
      exact gres_ok (Inv_extendOpcodesS _ h4) (stackLe_extendOpcodesS _ s4) trivial
  · exact gres_ok hInv (stackLe_refl s) trivial
  · exact gres_error (by simp)

/-- The operand-shaping helper of `binary_operator` is good. -/
theorem good_makeBinOpArgsF {recur : Recur} (hrec : GoodRecur recur)
    (left right : ExprDescriptor) {s : Compiler} (hInv : Inv s) :
    GRes s (makeBinOpArgsF recur left right s) (fun _ _ => True) := by
  unfold makeBinOpArgsF
  refine gres_stepOk (gres_callRCExpr hrec _ hInv) ?_
  intro lp s1 h1 hle1 _
  refine gres_stepOk (gres_callRCExpr hrec _ h1) ?_
  intro rp s2 h2 hle2 _
  refine gres_stepOkT ?_ ?_
  · cases hl : lp.1 <;> cases hr : rp.1 <;> first
      | exact gres_ok h2 (stackLe_refl s2) trivial
      | exact gres_error (by simp)
  · intro op s3 h3 hle3
    refine gres_stepOk (gres_callOptReg hrec _ h3) ?_
    intro a1 s4 h4 hle4 _
    refine gres_stepOk (gres_callOptReg hrec _ h4) ?_
    intro a2 s5 h5 hle5 _
    exact gres_ok h5 (stackLe_refl s5) trivial

/-- `Compiler::get_table` is good. -/
theorem good_getTableF {recur : Recur} (hrec : GoodRecur recur)
    (table key : ExprDescriptor) {s : Compiler} (hInv : Inv s) :
    GRes s (getTableF recur table key s) (fun _ _ => True) := by
  unfold getTableF
  refine gres_stepOk (gres_allocS hInv) ?_
  intro dest s1 h1 hle _
  cases table with
  | upValue tableIdx =>
      refine gres_stepOk (gres_callRCExpr hrec _ h1) ?_
      intro kp s2 h2 hle2 _
      exact gres_ok (Inv_pushOpcodeS _ h2) (stackLe_pushOpcodeS _ s2) trivial
  | register r t =>
      refine gres_stepOk (gres_callRegExpr hrec _ h1) ?_
      intro tp s2 h2 hle2 _
      refine gres_stepOk (gres_callRCExpr hrec _ h2) ?_
      intro kp s3 h3 hle3 _
      exact gres_ok (Inv_pushOpcodeS _ h3) (stackLe_pushOpcodeS _ s3) trivial
  | value v =>
      refine gres_stepOk (gres_callRegExpr hrec _ h1) ?_
      intro tp s2 h2 hle2 _
      refine gres_stepOk (gres_callRCExpr hrec _ h2) ?_
      intro kp s3 h3 hle3 _
      exact gres_ok (Inv_pushOpcodeS _ h3) (stackLe_pushOpcodeS _ s3) trivial
  | functionCall f a =>
      refine gres_stepOk (gres_callRegExpr hrec _ h1) ?_
      intro tp s2 h2 hle2 _
      refine gres_stepOk (gres_callRCExpr hrec _ h2) ?_
      intro kp s3 h3 hle3 _
      exact gres_ok (Inv_pushOpcodeS _ h3) (stackLe_pushOpcodeS _ s3) trivial
  | shortCircuitBinOp l o r =>
      refine gres_stepOk (gres_callRegExpr hrec _ h1) ?_
      intro tp s2 h2 hle2 _
      refine gres_stepOk (gres_callRCExpr hrec _ h2) ?_
      intro kp s3 h3 hle3 _
      exact gres_ok (Inv_pushOpcodeS _ h3) (stackLe_pushOpcodeS _ s3) trivial

/-- `Compiler::set_table` is good. -/
theorem good_setTableF {recur : Recur} (hrec : GoodRecur recur)
    (table key value : ExprDescriptor) {s : Compiler} (hInv : Inv s) :
    GRes s (setTableF recur table key value s) (fun _ _ => True) := by
  unfold setTableF
  cases table with
  | upValue t =>
      refine gres_stepOk (gres_callRCExpr hrec _ hInv) ?_
      intro kp s1 h1 hle _
      refine gres_stepOk (gres_callRCExpr hrec _ h1) ?_
      intro vp s2 h2 hle2 _
      exact gres_ok (Inv_pushOpcodeS _ h2) (stackLe_pushOpcodeS _ s2) trivial
  | register r t =>
      refine gres_stepOk (gres_callRegExpr hrec _ hInv) ?_
      intro tp s1 h1 hle _
      refine gres_stepOk (gres_callRCExpr hrec _ h1) ?_
      intro kp s2 h2 hle2 _
      refine gres_stepOk (gres_callRCExpr hrec _ h2) ?_
      intro vp s3 h3 hle3 _
      exact gres_ok (Inv_pushOpcodeS _ h3) (stackLe_pushOpcodeS _ s3) trivial
  | value v =>
      refine gres_stepOk (gres_callRegExpr hrec _ hInv) ?_
      intro tp s1 h1 hle _
      refine gres_stepOk (gres_callRCExpr hrec _ h1) ?_
      intro kp s2 h2 hle2 _
      refine gres_stepOk (gres_callRCExpr hrec _ h2) ?_
      intro vp s3 h3 hle3 _
      exact gres_ok (Inv_pushOpcodeS _ h3) (stackLe_pushOpcodeS _ s3) trivial
  | functionCall f a =>
      refine gres_stepOk (gres_callRegExpr hrec _ hInv) ?_
      intro tp s1 h1 hle _
      refine gres_stepOk (gres_callRCExpr hrec _ h1) ?_
      intro kp s2 h2 hle2 _
      refine gres_stepOk (gres_callRCExpr hrec _ h2) ?_
      intro vp s3 h3 hle3 _
      exact gres_ok (Inv_pushOpcodeS _ h3) (stackLe_pushOpcodeS _ s3) trivial
  | shortCircuitBinOp l o r =>
      refine gres_stepOk (gres_callRegExpr hrec _ hInv) ?_
      intro tp s1 h1 hle _
      refine gres_stepOk (gres_callRCExpr hrec _ h1) ?_
      intro kp s2 h2 hle2 _
      refine gres_stepOk (gres_callRCExpr hrec _ h2) ?_
      intro vp s3 h3 hle3 _
      exact gres_ok (Inv_pushOpcodeS _ h3) (stackLe_pushOpcodeS _ s3) trivial

/-- `Compiler::expr_any_register` is good. -/
theorem good_exprAnyRegisterF {recur : Recur} (hrec : GoodRecur recur)
    (expr : ExprDescriptor) {s : Compiler} (hInv : Inv s) :
    GRes s (exprAnyRegisterF recur expr s) (fun _ _ => True) := by
  unfold exprAnyRegisterF
  split
  · exact gres_ok hInv (stackLe_refl s) trivial
  · refine gres_stepOk (gres_callOptReg hrec _ hInv) ?_
    intro rOpt s1 h1 hle _
    refine gres_stepOk (gres_liftOptC _ _ _ (by simp) h1) ?_
    intro r s2 h2 hle2 hs2
    obtain ⟨rfl, hr⟩ := hs2
    exact gres_ok h2 (stackLe_refl s2) trivial

/-- `Compiler::expr_any_register_or_constant` is good. -/
theorem good_exprAnyRegisterOrConstantF {recur : Recur} (hrec : GoodRecur recur)
    (expr : ExprDescriptor) {s : Compiler} (hInv : Inv s) :
    GRes s (exprAnyRegisterOrConstantF recur expr s) (fun _ _ => True) := by
  unfold exprAnyRegisterOrConstantF
  split
  · refine gres_stepOk (gres_getConstantS _ hInv) ?_
    intro c s1 h1 hle _
    split
    · exact gres_ok h1 (stackLe_refl s1) trivial
    · refine gres_stepOk (gres_callRegExpr hrec _ h1) ?_
      intro rp s2 h2 hle2 _
      exact gres_ok h2 (stackLe_refl s2) trivial
  · refine gres_stepOk (gres_callRegExpr hrec _ hInv) ?_
    intro rp s1 h1 hle _
    exact gres_ok h1 (stackLe_refl s1) trivial

/-- `Compiler::expr_function_call` is good. -/
theorem good_exprFunctionCallF {recur : Recur} (hrec : GoodRecur recur)
    (func : ExprDescriptor) (args : List ExprDescriptor) (returns : VarCount)
    {s : Compiler} (hInv : Inv s) :
    GRes s (exprFunctionCallF recur func args returns s) (fun _ _ => True) := by
  unfold exprFunctionCallF
  refine gres_stepOk (gres_callOptReg hrec _ hInv) ?_
  intro topRegOpt s1 h1 hle1 _
  refine gres_stepOk (gres_liftOptC _ _ _ (by simp) h1) ?_
  intro topReg s2 h2 hle2 hs2
  obtain ⟨rfl, ht⟩ := hs2
  refine gres_stepOk (gres_liftOptC _ _ _ (by simp) h2) ?_
  intro argCount s3 h3 hle3 hs3
  obtain ⟨rfl, hc⟩ := hs3
  refine gres_stepOk (gres_callUnit hrec _ h3) ?_
  intro a s4 h4 hle4 _
  refine gres_stepOkT ?_ ?_
  · cases hla : args.getLast? with
    | none =>
        refine gres_stepOk (gres_liftOptC _ _ _ (by simp) h4) ?_
        intro cnt s5 h5 hle5 hs5
        obtain ⟨rfl, hcnt⟩ := hs5
        exact gres_ok (Inv_pushOpcodeS _ h5) (stackLe_pushOpcodeS _ s5) trivial
    | some la =>
        cases la with
        | functionCall f2 a2 =>
            refine gres_stepOk (gres_callReg hrec _ h4) ?_
            intro a5 s5 h5 hle5 _
            exact gres_ok (Inv_pushOpcodeS _ h5) (stackLe_pushOpcodeS _ s5) trivial
        | register r t =>
            refine gres_stepOk (gres_callOptReg hrec _ h4) ?_
            intro a5 s5 h5 hle5 _
            refine gres_stepOk (gres_liftOptC _ _ _ (by simp) h5) ?_
            intro cnt s6 h6 hle6 hs6
            obtain ⟨rfl, hcnt⟩ := hs6
            exact gres_ok (Inv_pushOpcodeS _ h6) (stackLe_pushOpcodeS _ s6) trivial
        | upValue u =>
            refine gres_stepOk (gres_callOptReg hrec _ h4) ?_
            intro a5 s5 h5 hle5 _
            refine gres_stepOk (gres_liftOptC _ _ _ (by simp) h5) ?_
            intro cnt s6 h6 hle6 hs6
            obtain ⟨rfl, hcnt⟩ := hs6
            exact gres_ok (Inv_pushOpcodeS _ h6) (stackLe_pushOpcodeS _ s6) trivial
        | value v =>
            refine gres_stepOk (gres_callOptReg hrec _ h4) ?_
            intro a5 s5 h5 hle5 _
            refine gres_stepOk (gres_liftOptC _ _ _ (by simp) h5) ?_
            intro cnt s6 h6 hle6 hs6
            obtain ⟨rfl, hcnt⟩ := hs6
            exact gres_ok (Inv_pushOpcodeS _ h6) (stackLe_pushOpcodeS _ s6) trivial
        | shortCircuitBinOp l o r =>
            refine gres_stepOk (gres_callOptReg hrec _ h4) ?_
            intro a5 s5 h5 hle5 _
            refine gres_stepOk (gres_liftOptC _ _ _ (by simp) h5) ?_
            intro cnt s6 h6 hle6 hs6
            obtain ⟨rfl, hcnt⟩ := hs6
            exact gres_ok (Inv_pushOpcodeS _ h6) (stackLe_pushOpcodeS _ s6) trivial
  · intro b s7 h7 hle7
    exact gres_ok (Inv_popToS _ h7) (stackLe_popToS _ s7) trivial

/-- `Compiler::expr_discharge` is good. -/
theorem good_exprDischargeF {recur : Recur} (hrec : GoodRecur recur)
    (expr : ExprDescriptor) (dest : ExprDestination) {s : Compiler} (hInv : Inv s) :
    GRes s (exprDischargeF recur expr dest s) (fun _ _ => True) := by
  unfold exprDischargeF
  refine gres_stepOkT ?_ ?_
  · split
    · -- Register arm
      split
      · exact gres_ok hInv (stackLe_refl s) trivial
      · refine gres_stepOkT ?_ ?_
        · split
          · exact gres_mono (gres_freeS _ hInv) (fun _ _ _ _ _ => trivial)
          · exact gres_ok hInv (stackLe_refl s) trivial
        · intro a s1 h1 hle1
          refine gres_stepOk (gres_newDestinationS dest h1) ?_
          intro dOpt s2 h2 hle2 _
          split
          · split
            · exact gres_ok (Inv_pushOpcodeS _ h2) (stackLe_pushOpcodeS _ s2) trivial
            · exact gres_ok h2 (stackLe_refl s2) trivial
          · exact gres_ok h2 (stackLe_refl s2) trivial
    · -- UpValue arm
      refine gres_stepOk (gres_newDestinationS dest hInv) ?_
      intro dOpt s1 h1 hle1 _
      split
      · exact gres_ok (Inv_pushOpcodeS _ h1) (stackLe_pushOpcodeS _ s1) trivial
      · exact gres_ok h1 (stackLe_refl s1) trivial
    · -- Value arm
      refine gres_stepOk (gres_newDestinationS dest hInv) ?_
      intro dOpt s1 h1 hle1 _
      split
      · split
        · exact gres_ok (Inv_loadNilS _ h1) (stackLe_loadNilS _ s1) trivial
        · exact gres_ok (Inv_pushOpcodeS _ h1) (stackLe_pushOpcodeS _ s1) trivial
        · refine gres_stepOk (gres_getConstantS _ h1) ?_
          intro c s2 h2 hle2 _
          exact gres_ok (Inv_pushOpcodeS _ h2) (stackLe_pushOpcodeS _ s2) trivial
      · exact gres_ok h1 (stackLe_refl s1) trivial
    · -- FunctionCall arm
      refine gres_stepOk (gres_callReg hrec _ hInv) ?_
      intro source s1 h1 hle1 _
      split
      · split
        · exact gres_error (by simp)
        · exact gres_ok (Inv_pushOpcodeS _ h1) (stackLe_pushOpcodeS _ s1) trivial
      · refine gres_stepOk (gres_pushRegsS 1 h1) ?_
        intro r s2 h2 hle2 _
        split
        · exact gres_ok h2 (stackLe_refl s2) trivial
        · exact gres_error (by simp)
      · refine gres_stepOk (gres_pushRegsS 1 h1) ?_
        intro r s2 h2 hle2 _
        split
        · exact gres_ok h2 (stackLe_refl s2) trivial
        · exact gres_error (by simp)
      · exact gres_ok h1 (stackLe_refl s1) trivial
    next left op right =>
      refine gres_stepOk (gres_callRegExpr hrec _ hInv) ?_
      intro lr s1 h1 hle1 _
      refine gres_stepOk (gres_callOptReg hrec _ h1) ?_
      intro a1 s2 h2 hle2 _
      refine gres_stepOk (gres_newDestinationS dest h2) ?_
      intro dst s3 h3 hle3 _
      refine gres_pre (stackLe_trans
        (stackLe_pushOpcodeS
          (match dst with
           | some d =>
               if lr.1 = d then OpCode.test lr.1 (decide (op = ShortCircuitBinOp.and))
               else OpCode.testSet d lr.1 (decide (op = ShortCircuitBinOp.and))
           | Option.none => OpCode.test lr.1 (decide (op = ShortCircuitBinOp.and))) s3)
        (stackLe_pushOpcodeS (OpCode.jump 0) _)) ?_
      refine gres_stepOk (gres_callExpr hrec _
        (Inv_pushOpcodeS _ (Inv_pushOpcodeS _ h3))) ?_
      intro rightD s6 h6 hle6 _
      refine gres_stepOkT ?_ ?_
      · split
        · exact gres_mono (gres_callOptReg hrec _ h6) (fun _ _ _ _ _ => trivial)
        · exact gres_mono (gres_callOptReg hrec _ h6) (fun _ _ _ _ _ => trivial)
      · intro a2 s7 h7 hle7
        refine gres_stepOk (gres_liftOptC _ _ _ (by simp) h7) ?_
        intro jmpOffset s8 h8 hle8 hs8
        obtain ⟨rfl, hoff⟩ := hs8
        refine gres_stepOkT ?_ ?_
        · split
          next hjump =>
            refine gres_ok (Inv_modTop_top (fun _ => rfl) (fun h => h) h8)
              (stackLe_setJump _ hjump) trivial
          next hjump => exact gres_error (by simp)
        · intro a3 s9 h9 hle9
          exact gres_ok h9 (stackLe_refl s9) trivial
  · intro result s1 h1 hle1
    split
    · split
      · split
        · exact gres_ok h1 (stackLe_refl s1) trivial
        · exact gres_error (by simp)
      · exact gres_ok h1 (stackLe_refl s1) trivial
    · exact gres_ok h1 (stackLe_refl s1) trivial

/-- `WRes` composes along `stepOk`. -/
theorem wres_stepOk {α β : Type} {r : Res α} {post1 : α → Compiler → Prop}
    {f : α → Compiler → Res β} {post2 : β → Compiler → Prop}
    (h : WRes r post1)
    (h2 : ∀ a s1, Inv s1 → post1 a s1 → WRes (f a s1) post2) :
    WRes (stepOk r f) post2 := by
  cases hr : r with
  | error e =>
      subst hr
      refine ⟨?_, ?_⟩
      · intro hc
        rw [show stepOk (Except.error e : Res α) f = Except.error e from rfl] at hc
        injection hc with hce
        exact h.1 (by rw [hce])
      · intro a s1 hc
        exact absurd hc (by simp [stepOk])
  | ok p =>
      obtain ⟨a, s1⟩ := p
      subst hr
      obtain ⟨hi, hp⟩ := h.2 a s1 rfl
      exact h2 a s1 hi hp

/-- A `GRes` is a `WRes` that tracks the stack evolution. -/
theorem wres_of_gres {α : Type} {s : Compiler} {r : Res α} {post : α → Compiler → Prop}
    (h : GRes s r post) : WRes r (fun a s1 => stackLe s s1 ∧ post a s1) := by
  refine ⟨h.1, ?_⟩
  intro a s1 he
  obtain ⟨hi, hl, hp⟩ := h.2 a s1 he
  exact ⟨hi, hl, hp⟩

/-- A `WRes` tracking the right stack evolution is a `GRes`. -/
theorem gres_of_wres {α : Type} {s : Compiler} {r : Res α} {post : α → Compiler → Prop}
    (h : WRes r (fun a s1 => stackLe s s1 ∧ post a s1)) : GRes s r post := by
  refine ⟨h.1, ?_⟩
  intro a s1 he
  obtain ⟨hi, hl, hp⟩ := h.2 a s1 he
  exact ⟨hi, hl, hp⟩

/-- `liftOpt` never raises the environment panic when its error is not
that panic. -/
theorem liftOpt_ne_env {α : Type} {o : Option α} {e : CompileError} {s : Compiler}
    (he : e ≠ CompileError.unreachableEnv) :
    liftOpt o e s ≠ .error .unreachableEnv := by
  cases o with
  | none =>
      intro hc
      injection hc with hc
      exact he hc
  | some a => simp [liftOpt]

/-- Inversion of a successful `liftOpt`. -/
theorem liftOpt_ok_elim {α : Type} {o : Option α} {e : CompileError} {s : Compiler}
    {a : α} {s1 : Compiler} (h : liftOpt o e s = .ok (a, s1)) :
    s1 = s ∧ o = some a := by
  cases ho : o with
  | none => rw [ho] at h; exact absurd h (by simp [liftOpt])
  | some b =>
      rw [ho] at h
      injection h with h
      injection h with hb hs
      subst hb
      exact ⟨hs.symm, rfl⟩

/-- `Compiler::new_prototype` is good. -/
theorem good_newPrototypeF {recur : Recur} (hrec : GoodRecur recur)
    (d : FunctionDefinition) {s : Compiler} (hInv : Inv s) :
    GRes s (newPrototypeF recur d s) (fun _ s1 => protoShape d s1) := by
  unfold newPrototypeF
  split
  · exact gres_error (by simp)
  · apply gres_of_wres
    have hInv1 : Inv (⟨s.functions.push CompilerFunction.default, s.nextStringId⟩ : Compiler) :=
      Inv_push _ FnOk_default hInv
    refine wres_stepOk
      (wres_of_gres (gres_liftOptC _ _ _ (by simp) hInv1)) ?_
    intro fixedParams s2 hInv2 hpost2
    obtain ⟨hle2, heq2, hcast⟩ := hpost2
    subst heq2
    have hInv5 : Inv (modTop (fun f => { f with locals := f.locals ++ bindParams d.parameters })
        (modTop (fun f => { f with fixedParams := fixedParams })
          (modTop (fun f =>
            { f with registerAllocator :=
                match f.registerAllocator.push fixedParams with
                | some (_, ra) => ra
                | Option.none => f.registerAllocator })
            (⟨s.functions.push CompilerFunction.default, s.nextStringId⟩ : Compiler)))) :=
      Inv_modTop_top (fun _ => rfl) (fun h => h)
        (Inv_modTop_top (fun _ => rfl) (fun h => h)
          (Inv_modTop_top (fun _ => rfl) (fun h => h) hInv1))
    have hle5 : stackLe (⟨s.functions.push CompilerFunction.default, s.nextStringId⟩ : Compiler)
        (modTop (fun f => { f with locals := f.locals ++ bindParams d.parameters })
          (modTop (fun f => { f with fixedParams := fixedParams })
            (modTop (fun f =>
              { f with registerAllocator :=
                  match f.registerAllocator.push fixedParams with
                  | some (_, ra) => ra
                  | Option.none => f.registerAllocator })
              (⟨s.functions.push CompilerFunction.default, s.nextStringId⟩ : Compiler)))) :=
      stackLe_trans
        (stackLe_modTop_keep (fun f =>
            { f with registerAllocator :=
                match f.registerAllocator.push fixedParams with
                | some (_, ra) => ra
                | Option.none => f.registerAllocator }) (fun _ => rfl) _ (tabSub_refl _))
        (stackLe_trans
          (stackLe_modTop_keep (fun f => { f with fixedParams := fixedParams })
            (fun _ => rfl) _ (tabSub_refl _))
          (stackLe_modTop_keep (fun f => { f with locals := f.locals ++ bindParams d.parameters })
            (fun _ => rfl) _ (tabSub_refl _)))
    refine wres_stepOk (wres_of_gres (gres_pre hle5
      (gres_callUnit hrec (.block d.body) hInv5))) ?_
    intro a s6 hInv6 hpost6
    obtain ⟨hle6, hblockpost⟩ := hpost6
    have hlen6 : s6.functions.len = s.functions.len + 1 := by
      rw [hle6.1]
      exact TopStack.len_push _ _
    have hpopW : WRes (match s6.functions.pop with
        | some (fn, ts) => .ok (fn, (⟨ts, s6.nextStringId⟩ : Compiler))
        | Option.none => .error .assertionFailed)
        (fun fn1 s7 => ∃ ts, s6.functions.pop = some (fn1, ts) ∧
          s7 = (⟨ts, s6.nextStringId⟩ : Compiler)) := by
      cases hp : s6.functions.pop with
      | none => exact ⟨by simp, fun a1 s1 hc => absurd hc (by simp)⟩
      | some p =>
          obtain ⟨fn, ts⟩ := p
          refine ⟨by simp, ?_⟩
          intro fn1 s7 he
          injection he with he
          injection he with hfn1 hs7
          subst hfn1
          subst hs7
          exact ⟨Inv_popState hp hInv6 _, ts, rfl, rfl⟩
    refine wres_stepOk hpopW ?_
    · intro newFunction s7 hInv7 hpost7
      obtain ⟨ts, hp, rfl⟩ := hpost7
      obtain ⟨hfn, hlen7, hget7⟩ := TopStack.pop_spec hp
      have hle7 : stackLe s (⟨ts, s6.nextStringId⟩ : Compiler) := by
        refine ⟨?_, ?_, ?_⟩
        · show ts.len = s.functions.len
          omega
        · intro i hi
          have hgi : (⟨ts, s6.nextStringId⟩ : Compiler).functions.get i =
              s6.functions.get i := hget7 i (by omega)
          rw [hgi]
          have h1 := hle6.2.1 i (by
            show i < TopStack.len (TopStack.push s.functions CompilerFunction.default)
            rw [TopStack.len_push]
            omega)
          have h2 : (⟨s.functions.push CompilerFunction.default, s.nextStringId⟩ :
              Compiler).functions.get i = s.functions.get i :=
            TopStack.get_push_lt s.functions CompilerFunction.default hi
          rw [h2] at h1
          exact h1
        · intro i hi
          have hgi : (⟨ts, s6.nextStringId⟩ : Compiler).functions.get i =
              s6.functions.get i := hget7 i (by omega)
          rw [hgi]
          have h1 := hle6.2.2 i (by
            show i < TopStack.len (TopStack.push s.functions CompilerFunction.default)
            rw [TopStack.len_push]
            omega)
          have h2 : (⟨s.functions.push CompilerFunction.default, s.nextStringId⟩ :
              Compiler).functions.get i = s.functions.get i :=
            TopStack.get_push_lt s.functions CompilerFunction.default hi
          rw [h2] at h1
          exact h1
      refine wres_stepOk (wres_of_gres (gres_liftOptC _ _ _ (by simp) hInv7)) ?_
      intro proto s8 hInv8 hpost8
      obtain ⟨hle8, heq8, hproto⟩ := hpost8
      subst heq8
      have hfn6 : FnOk s6.functions.top := by
        have hm := stackFns_get (s := s6) (i := s6.functions.len - 1)
          (by have := TopStack.len_pos s6.functions; omega)
        rw [TopStack.get_top] at hm
        exact hInv6.2 _ hm
      have hpOK : protoRetOK proto = true ∧ protoConstsNodup proto = true := by
        subst hfn
        exact protoOK_of_toProto hproto hfn6 hblockpost.1
      have hInv9 : Inv (modTop (fun f => { f with prototypes := f.prototypes ++ [proto] })
          (⟨ts, s6.nextStringId⟩ : Compiler)) := by
        refine Inv_modTop_top (fun _ => rfl) ?_ hInv7
        intro hfn8
        refine ⟨hfn8.1, ?_⟩
        intro q hq
        simp only at hq
        rcases List.mem_append.1 hq with hq | hq
        · exact hfn8.2 q hq
        · rcases List.mem_singleton.1 hq with rfl
          exact hpOK
      have hle9 : stackLe (⟨ts, s6.nextStringId⟩ : Compiler)
          (modTop (fun f => { f with prototypes := f.prototypes ++ [proto] })
            (⟨ts, s6.nextStringId⟩ : Compiler)) :=
        stackLe_modTop_keep (fun f => { f with prototypes := f.prototypes ++ [proto] })
          (fun _ => rfl) _ (tabSub_refl _)
      refine ⟨liftOpt_ne_env (by simp), ?_⟩
      intro idx s11 he
      obtain ⟨rfl, hu⟩ := liftOpt_ok_elim he
      have hops : proto.opcodes = s6.functions.top.opcodes := by
        rw [(toProto_spec hproto).1, hfn]
      refine ⟨hInv9, stackLe_trans hle7 hle9, proto, ?_, hpOK.1, hpOK.2, ?_⟩
      · exact List.getLast?_concat _
      · intro hnb
        rw [hops]
        exact hblockpost.2 hnb

/-- One dispatcher step preserves goodness. -/
theorem good_compStep {recur : Recur} (hrec : GoodRecur recur) :
    GoodRecur (compStep recur) := by
  intro c s hInv
  cases c with
  | block b =>
      refine gres_stepOk (good_blockF hrec b hInv) ?_
      intro a s1 h1 hle hpost
      exact gres_ok h1 (stackLe_refl s1) hpost
  | statementList l =>
      refine gres_stepOk (good_statementListF hrec l hInv) ?_
      intro a s1 h1 hle hpost
      exact gres_ok h1 (stackLe_refl s1) hpost
  | statement st =>
      refine gres_stepOk (good_statementF hrec st hInv) ?_
      intro a s1 h1 hle hpost
      exact gres_ok h1 (stackLe_refl s1) hpost
  | functionStatement fs =>
      refine gres_stepOk (good_functionStatementF hrec fs hInv) ?_
      intro a s1 h1 hle hpost
      exact gres_ok h1 (stackLe_refl s1) hpost
  | returnStatement rs =>
      refine gres_stepOk (good_returnStatementF hrec rs hInv) ?_
      intro a s1 h1 hle hpost
      exact gres_ok h1 (stackLe_refl s1) hpost
  | pushReturns l =>
      refine gres_stepOk (good_pushReturnsF hrec l hInv) ?_
      intro a s1 h1 hle hpost
      exact gres_ok h1 (stackLe_refl s1) hpost
  | localStatement ls =>
      refine gres_stepOk (good_localStatementF hrec ls hInv) ?_
      intro a s1 h1 hle hpost
      exact gres_ok h1 (stackLe_refl s1) hpost
  | localValues ls i =>
      refine gres_stepOk (good_localValuesF hrec ls i hInv) ?_
      intro a s1 h1 hle hpost
      exact gres_ok h1 (stackLe_refl s1) hpost
  | functionCallStatement fc =>
      refine gres_stepOk (good_functionCallStatementF hrec fc hInv) ?_
      intro a s1 h1 hle hpost
      exact gres_ok h1 (stackLe_refl s1) hpost
  | assignment a =>
      refine gres_stepOk (good_assignmentF hrec a hInv) ?_
      intro a1 s1 h1 hle hpost
      exact gres_ok h1 (stackLe_refl s1) hpost
  | assignTargets a i =>
      refine gres_stepOk (good_assignTargetsF hrec a i hInv) ?_
      intro a1 s1 h1 hle hpost
      exact gres_ok h1 (stackLe_refl s1) hpost
  | localFunction fs =>
      refine gres_stepOk (good_localFunctionF hrec fs hInv) ?_
      intro a s1 h1 hle hpost
      exact gres_ok h1 (stackLe_refl s1) hpost
  | expression e =>
      refine gres_stepOk (good_expressionF hrec e hInv) ?_
      intro a s1 h1 hle hpost
      exact gres_ok h1 (stackLe_refl s1) hpost
  | expressionTail d t =>
      refine gres_stepOk (good_expressionTailF hrec d t hInv) ?_
      intro a s1 h1 hle hpost
      exact gres_ok h1 (stackLe_refl s1) hpost
  | headExpression he =>
      refine gres_stepOk (good_headExpressionF hrec he hInv) ?_
      intro a s1 h1 hle hpost
      exact gres_ok h1 (stackLe_refl s1) hpost
  | simpleExpression se =>
      refine gres_stepOk (good_simpleExpressionF hrec se hInv) ?_
      intro a s1 h1 hle hpost
      exact gres_ok h1 (stackLe_refl s1) hpost
  | functionExpression fd =>
      refine gres_stepOk (good_functionExpressionF hrec fd hInv) ?_
      intro a s1 h1 hle hpost
      exact gres_ok h1 (stackLe_refl s1) hpost
  | suffixedExpression se =>
      refine gres_stepOk (good_suffixedExpressionF hrec se hInv) ?_
      intro a s1 h1 hle hpost
      exact gres_ok h1 (stackLe_refl s1) hpost
  | suffixes d parts =>
      refine gres_stepOk (good_suffixesF hrec d parts hInv) ?_
      intro a s1 h1 hle hpost
      exact gres_ok h1 (stackLe_refl s1) hpost
  | primaryExpression pe =>
      refine gres_stepOk (good_primaryExpressionF hrec pe hInv) ?_
      intro a s1 h1 hle hpost
      exact gres_ok h1 (stackLe_refl s1) hpost
  | expressionList l =>
      refine gres_stepOk (good_expressionListF hrec l hInv) ?_
      intro a s1 h1 hle hpost
      exact gres_ok h1 (stackLe_refl s1) hpost
  | newPrototype fd =>
      refine gres_stepOk (good_newPrototypeF hrec fd hInv) ?_
      intro a s1 h1 hle hpost
      exact gres_ok h1 (stackLe_refl s1) trivial
  | unaryOperator op e =>
      refine gres_stepOk (good_unaryOperatorF hrec op e hInv) ?_
      intro a s1 h1 hle hpost
      exact gres_ok h1 (stackLe_refl s1) hpost
  | binaryOperator left op right =>
      refine gres_stepOk (good_binaryOperatorF hrec left op right hInv) ?_
      intro a s1 h1 hle hpost
      exact gres_ok h1 (stackLe_refl s1) hpost
  | makeBinOpArgs l r =>
      refine gres_stepOk (good_makeBinOpArgsF hrec l r hInv) ?_
      intro a s1 h1 hle hpost
      exact gres_ok h1 (stackLe_refl s1) hpost
  | exprDischarge e dest =>
      refine gres_stepOk (good_exprDischargeF hrec e dest hInv) ?_
      intro a s1 h1 hle hpost
      exact gres_ok h1 (stackLe_refl s1) hpost
  | exprFunctionCall f args returns =>
      refine gres_stepOk (good_exprFunctionCallF hrec f args returns hInv) ?_
      intro a s1 h1 hle hpost
      exact gres_ok h1 (stackLe_refl s1) hpost
  | dischargeArgs args =>
      refine gres_stepOk (good_dischargeArgsF hrec args hInv) ?_
      intro a s1 h1 hle hpost
      exact gres_ok h1 (stackLe_refl s1) hpost
  | getTable t k =>
      refine gres_stepOk (good_getTableF hrec t k hInv) ?_
      intro a s1 h1 hle hpost
      exact gres_ok h1 (stackLe_refl s1) hpost
  | setTable t k v =>
      refine gres_stepOk (good_setTableF hrec t k v hInv) ?_
      intro a s1 h1 hle hpost
      exact gres_ok h1 (stackLe_refl s1) hpost
  | anyRegister e =>
      refine gres_stepOk (good_exprAnyRegisterF hrec e hInv) ?_
      intro a s1 h1 hle hpost
      exact gres_ok h1 (stackLe_refl s1) hpost
  | anyRegisterOrConstant e =>
      refine gres_stepOk (good_exprAnyRegisterOrConstantF hrec e hInv) ?_
      intro a s1 h1 hle hpost
      exact gres_ok h1 (stackLe_refl s1) hpost

/-- Every fueled dispatcher is good. -/
theorem good_compRun : ∀ fuel, GoodRecur (compRun fuel) := by
  intro fuel
  induction fuel with
  | zero =>
      intro c s hInv
      exact gres_error (by simp)
  | succ n ih => exact good_compStep ih

/-- The initial compiler state satisfies the invariant. -/
theorem Inv_initCompiler : Inv initCompiler := by
  constructor
  · exact Or.inl rfl
  · intro f hf
    unfold initCompiler stackFns TopStack.new at hf
    simp only at hf
    rcases List.mem_append.1 hf with hf | hf
    · exact absurd hf (by simp)
    · rcases List.mem_singleton.1 hf with rfl
      exact FnOk_default

/-- Elimination of a successful chunk compilation: the final state
satisfies the invariant, the stack is back to one function, the opcodes
end in Return, and the prototype is its `to_proto` image. -/
theorem compileChunk_ok_elim {fuel : Nat} {chunk : Chunk} {p : FunctionProto}
    (h : compileChunk fuel chunk = .ok p) :
    ∃ s, Inv s ∧ s.functions.len = 1 ∧
      endsRetB s.functions.top.opcodes = true ∧
      (chunk.block.returnStatement = Option.none →
        s.functions.top.opcodes.getLast? = some (.ret 0 VarCount.makeZero)) ∧
      s.functions.top.toProto = some p := by
  unfold compileChunk at h
  cases hb : blockC fuel chunk.block initCompiler with
  | error e => rw [hb] at h; exact absurd h (by simp)
  | ok q =>
      obtain ⟨u, s⟩ := q
      rw [hb] at h
      unfold blockC at hb
      obtain ⟨hInvS, hle, hpost⟩ :=
        (good_blockF (good_compRun fuel) chunk.block Inv_initCompiler).2 u s hb
      change (match s.functions.top.toProto with
        | some p1 => Except.ok p1
        | Option.none =>
            (Except.error CompileError.registerLeak : Except CompileError FunctionProto)) =
          Except.ok p at h
      cases ht : s.functions.top.toProto with
      | none => rw [ht] at h; exact absurd h (by simp)
      | some p1 =>
          rw [ht] at h
          injection h with h
          subst h
          refine ⟨s, hInvS, ?_, hpost.1, hpost.2, ht⟩
          rw [hle.1]
          rfl

/-- With one function on the stack, the top is the chunk function. -/
theorem top_eq_get0 {s : Compiler} (h : s.functions.len = 1) :
    s.functions.get 0 = s.functions.top := by
  have hg := TopStack.get_top s.functions
  rw [h] at hg
  exact hg

/-- The top function of a final state is well-formed. -/
theorem FnOk_top_of_Inv {s : Compiler} (hInv : Inv s) : FnOk s.functions.top := by
  have hm := stackFns_get (s := s) (i := s.functions.len - 1)
    (by have := TopStack.len_pos s.functions; omega)
  rw [TopStack.get_top] at hm
  exact hInv.2 _ hm

/-- C1: the spec and the code's own comment promise that consecutive
uninitialized `local` declarations fuse into a single LoadNil opcode
(`local a; local b; local c` → exactly one `LoadNil{dest 0, count 3}`).
The code instead pushes a widened LoadNil while leaving the previous ones
in place: the compiled chunk holds three LoadNil opcodes
(`LoadNil{0,1}`, `LoadNil{0,2}`, `LoadNil{0,3}`), not one, before the
implicit Return; stack size 3 is as promised.  This theorem evaluates the
compiler on the failing input and counts the LoadNil opcodes. -/
theorem C1_loadNil_not_fused :
    compileChunk 50 chunkLocals3 =
      .ok (.mk 0 false 3 []
        [.loadNil 0 1, .loadNil 0 2, .loadNil 0 3, .ret 0 VarCount.makeZero] [] []) ∧
    ((FunctionProto.opcodes (.mk 0 false 3 []
        [.loadNil 0 1, .loadNil 0 2, .loadNil 0 3, .ret 0 VarCount.makeZero] [] [])).filter
      isLoadNil).length = 3 :=
  ⟨rfl, rfl⟩

/-- C2: the spec promises that `print(x)` compiles to two GetUpTableC
opcodes and a Call.  The code instead panics: discharging the callee's
temporary register to the stack top frees register 0 under the live
argument register 1, so `push` allocates register 2 instead of reusing 0;
at the end `pop_to` leaves `stack_top` at 2 while no locals exist, and
`to_proto`'s register-leak assertion fires.  This theorem evaluates the
compiler on the failing input. -/
theorem C2_print_panics_register_leak :
    compileChunk 50 chunkPrintX = .error .registerLeak := rfl

/-- C3 counterexample: the claim says the parent opcodes of
`local function f() return 1 end; return f()` are the Closure followed,
with no intervening Move, by `Call{func 0, ...}` and `Return{start 0, ...}`.
The compiled parent actually holds `Move{1, 0}` right after the Closure
(the local `f` is copied to the stack top for the call), and the Call and
Return use register 1. -/
theorem C3_counterexample_move_intervenes :
    compileChunk 50 chunkLocalFn =
      .ok (.mk 0 false 2 []
        [.closure 0 0, .move 1 0, .call 1 VarCount.makeZero VarCount.makeVariable,
         .ret 1 VarCount.makeVariable] []
        [.mk 0 false 1 [.integer 1] [.loadConstant 0 0, .ret 0 VarCount.makeOne] [] []]) ∧
    FunctionProto.opcodes (.mk 0 false 2 []
        [.closure 0 0, .move 1 0, .call 1 VarCount.makeZero VarCount.makeVariable,
         .ret 1 VarCount.makeVariable] []
        [.mk 0 false 1 [.integer 1] [.loadConstant 0 0, .ret 0 VarCount.makeOne] [] []]) ≠
      [.closure 0 0, .call 0 VarCount.makeZero VarCount.makeVariable,
       .ret 0 VarCount.makeVariable] :=
  ⟨rfl, by decide⟩

/-- C3 (amended): compiling `local function f() return 1 end; return f()`
succeeds; the nested prototype is `[LoadConstant{0,0}, Return{0, Constant 1}]`
with constant pool `[Integer 1]` as claimed, and the parent opcodes are
`Closure{proto 0, dest 0}`, then `Move{dest 1, source 0}` placing the
closure at the stack top, then `Call{func 1, args Constant 0, returns
Variable}` and `Return{start 1, count Variable}`. -/
theorem C3_local_function_call_compiles :
    compileChunk 50 chunkLocalFn =
      .ok (.mk 0 false 2 []
        [.closure 0 0, .move 1 0, .call 1 VarCount.makeZero VarCount.makeVariable,
         .ret 1 VarCount.makeVariable] []
        [.mk 0 false 1 [.integer 1] [.loadConstant 0 0, .ret 0 VarCount.makeOne] [] []]) :=
  rfl

/-- C5: compiling `local x = 1 + 2` constant-folds the addition: the
constant pool is exactly `[Integer 3]`, the opcodes are exactly
`[LoadConstant{0,0}, Return{0, zero}]` with no arithmetic opcode, with no
fixed parameters, no upvalues, and stack size 1. -/
theorem C5_constant_fold_add :
    compileChunk 50 chunkAdd =
      .ok (.mk 0 false 1 [.integer 3] [.loadConstant 0 0, .ret 0 VarCount.makeZero] [] []) :=
  rfl

/-- C9: compiling any chunk at any fuel never trips the `unreachable!`
branch of `get_environment`: the compiler's result is never the
`unreachableEnv` panic, because the chunk function's upvalues are always
either empty (and the lazy `_ENV` insertion fires) or exactly the
environment slot. -/
theorem C9_get_environment_never_global (fuel : Nat) (chunk : Chunk) :
    envSafeB (compileChunk fuel chunk) = true := by
  unfold compileChunk
  cases hb : blockC fuel chunk.block initCompiler with
  | error e =>
      have hne := (good_blockF (good_compRun fuel) chunk.block Inv_initCompiler).1
      have hee : e ≠ .unreachableEnv := by
        intro hc
        apply hne
        unfold blockC at hb
        rw [hb, hc]
      cases e with
      | unreachableEnv => exact absurd rfl hee
      | limit l => rfl
      | unsupported m => rfl
      | outOfFuel => rfl
      | unreachableBinop => rfl
      | misplacedJump => rfl
      | assertionFailed => rfl
      | registerLeak => rfl
  | ok q =>
      obtain ⟨u, s⟩ := q
      show envSafeB (match s.functions.top.toProto with
        | some p => Except.ok p
        | Option.none =>
            (Except.error CompileError.registerLeak : Except CompileError FunctionProto)) = true
      cases ht : s.functions.top.toProto with
      | some p => rfl
      | none => rfl

/-- C8 counterexample: the chunk `local _ENV = 1; x = 2` contains the
global reference `x` (no local `x` is ever declared; `find_variable`
answers `Global "x"`, which is compiled as a SetTable against the value
bound to `_ENV`, interning the key `"x"`), yet its top-level prototype has
zero upvalues, because the local `_ENV` shadows the implicit environment
and the lazy `("_ENV", Environment)` slot is never created.  So "one or
more global references" does not imply "exactly one Environment
upvalue". -/
theorem C8_counterexample_shadowed_env :
    compileChunk 50 chunkShadowEnv =
      .ok (.mk 0 false 1 [.integer 1, .str 0 "x", .integer 2]
        [.loadConstant 0 0, .setTableCC 0 1 2, .ret 0 VarCount.makeZero] [] []) ∧
    FunctionProto.upvalues (.mk 0 false 1 [.integer 1, .str 0 "x", .integer 2]
        [.loadConstant 0 0, .setTableCC 0 1 2, .ret 0 VarCount.makeZero] [] []) = [] ∧
    FunctionProto.constants (.mk 0 false 1 [.integer 1, .str 0 "x", .integer 2]
        [.loadConstant 0 0, .setTableCC 0 1 2, .ret 0 VarCount.makeZero] [] []) =
      [.integer 1, .str 0 "x", .integer 2] :=
  ⟨rfl, rfl, rfl⟩

/-- C8 (amended): the top-level prototype of every successfully compiled
chunk has either no upvalues at all, or exactly one upvalue with the
Environment descriptor (the lazily created `_ENV` slot); which of the two
occurs depends on whether a global was resolved while no local or upvalue
named `_ENV` was in scope. -/
theorem C8_top_level_upvalues (fuel : Nat) (chunk : Chunk) (p : FunctionProto)
    (h : compileChunk fuel chunk = .ok p) :
    p.upvalues = [] ∨ p.upvalues = [.environment] := by
  obtain ⟨s, hInv, hlen, _, _, ht⟩ := compileChunk_ok_elim h
  obtain ⟨_, _, _, hup⟩ := toProto_spec ht
  have h0 : upv0 s = s.functions.top.upvalues := by
    unfold upv0
    rw [top_eq_get0 hlen]
  rcases hInv.1 with he | he
  · left
    rw [hup, ← h0, he]
    rfl
  · right
    rw [hup, ← h0, he]
    rfl

/-- C8 witness: the folded-addition chunk has no global reference and
compiles with no upvalue. -/
theorem C8_top_level_upvalues_witness :
    FunctionProto.upvalues (.mk 0 false 1 [.integer 3]
      [.loadConstant 0 0, .ret 0 VarCount.makeZero] [] []) = [] ∨
    FunctionProto.upvalues (.mk 0 false 1 [.integer 3]
      [.loadConstant 0 0, .ret 0 VarCount.makeZero] [] []) = [.environment] :=
  C8_top_level_upvalues 50 chunkAdd _ rfl

/-- `stackLe` restricted to the top function's opcodes. -/
theorem stackLe_top_opcodes {s s1 : Compiler} (h : stackLe s s1) :
    opListLe s.functions.top.opcodes s1.functions.top.opcodes := by
  have hp := TopStack.len_pos s.functions
  have hl := h.2.1 (s.functions.len - 1) (by omega)
  rw [TopStack.get_top] at hl
  have he : s.functions.len - 1 = s1.functions.len - 1 := by rw [h.1]
  rw [he, TopStack.get_top] at hl
  exact hl

/-- The final PushNew sanity check of `expr_discharge` returns its inputs
unchanged. -/
theorem dischargeWrap_elim {dest : ExprDestination} {result : Option Nat} {s1 : Compiler}
    {res : Option Nat} {s2 : Compiler}
    (h : ((match result with
      | some r =>
          if dest = ExprDestination.pushNew then
            if r = 0 ∨ s1.functions.top.registerAllocator.registers (r - 1) then
              Except.ok (result, s1)
            else Except.error CompileError.assertionFailed
          else Except.ok (result, s1)
      | Option.none => Except.ok (result, s1)) : Res (Option Nat)) =
      Except.ok (res, s2)) : res = result ∧ s2 = s1 := by
  split at h
  · split at h
    · split at h
      · injection h with h
        injection h with h1 h2
        exact ⟨h1.symm, h2.symm⟩
      · exact absurd h (by simp)
    · injection h with h
      injection h with h1 h2
      exact ⟨h1.symm, h2.symm⟩
  · injection h with h
    injection h with h1 h2
    exact ⟨h1.symm, h2.symm⟩

/-- A successful jump-width cast returns the offset itself. -/
theorem castJump_ok {n m : Nat} (h : castJump n = some m) : m = n := by
  unfold castJump at h
  split at h
  · injection h with h
    exact h.symm
  · exact absurd h (by simp)

/-- Tail of the short-circuit discharge arm: after the Test opcode and the
Jump placeholder are pushed, any successful completion leaves a Jump whose
offset spans exactly the opcodes emitted after it, sitting right after the
pushed Test opcode. -/
theorem shortCircuit_tail_spec {recur : Recur} (hrec : GoodRecur recur)
    (right : Expression) (tOp : OpCode) (dstv : Option Nat) {sC : Compiler}
    (hInvC : Inv sC)
    (htop : ∀ x, tOp ≠ OpCode.jump x)
    {result0 : Option Nat} {s1 : Compiler}
    (h3 : ((stepOk (callExpr recur (.expression right)
        (pushOpcodeS (.jump 0) (pushOpcodeS tOp sC)))
      (fun rightD s6 => stepOk
          (match dstv with
           | some d => callOptReg recur (.exprDischarge rightD (.register d)) s6
           | Option.none => callOptReg recur (.exprDischarge rightD .none) s6)
          fun _ s7 => stepOk
            (liftOpt (castJump (s7.functions.top.opcodes.length -
                (pushOpcodeS tOp sC).functions.top.opcodes.length - 1))
              (.limit .opCodes) s7)
            fun jmpOffset s8 => stepOk
              (match s8.functions.top.opcodes.get?
                  ((pushOpcodeS tOp sC).functions.top.opcodes.length) with
               | some (.jump _) =>
                   .ok ((), modTop (fun f => { f with opcodes := f.opcodes.set ((pushOpcodeS tOp sC).functions.top.opcodes.length) (.jump jmpOffset) }) s8)
               | _ => .error .misplacedJump)
              fun _ s9 => .ok (dstv, s9))) : Res (Option Nat)) =
      Except.ok (result0, s1)) :
    ∃ j off, 1 ≤ j ∧
      s1.functions.top.opcodes.get? j = some (.jump off) ∧
      off + j + 1 = s1.functions.top.opcodes.length ∧
      s1.functions.top.opcodes.get? (j - 1) = some tOp := by
  obtain ⟨rightD, s6, hD, h4⟩ := stepOk_ok_elim h3
  obtain ⟨hInvD, hleD, -⟩ :=
    (gres_callExpr hrec _ (Inv_pushOpcodeS _ (Inv_pushOpcodeS _ hInvC))).2 _ _ hD
  obtain ⟨a2, s7, hE, h5⟩ := stepOk_ok_elim h4
  have hE7 : Inv s7 ∧ stackLe s6 s7 := by
    cases dstv with
    | some d =>
        obtain ⟨x, y, -⟩ := (gres_callOptReg hrec _ hInvD).2 _ _ hE
        exact ⟨x, y⟩
    | none =>
        obtain ⟨x, y, -⟩ := (gres_callOptReg hrec _ hInvD).2 _ _ hE
        exact ⟨x, y⟩
  obtain ⟨off, s8, hF, h6⟩ := stepOk_ok_elim h5
  obtain ⟨hs8, hcast⟩ := liftOpt_ok_elim hF
  subst hs8
  obtain ⟨a3, s9, hG, h7⟩ := stepOk_ok_elim h6
  injection h7 with h7
  injection h7 with h71 h72
  subst h72
  split at hG
  next x heq =>
    injection hG with hG
    injection hG with hG1 hG2
    subst hG2
    have hoff : off = s8.functions.top.opcodes.length -
        (pushOpcodeS tOp sC).functions.top.opcodes.length - 1 := castJump_ok hcast
    have hjlt : (pushOpcodeS tOp sC).functions.top.opcodes.length <
        s8.functions.top.opcodes.length := by
      by_contra hge
      rw [List.get?_eq_none.2 (Nat.le_of_not_lt hge)] at heq
      exact absurd heq (by simp)
    have hjmp1 : 1 ≤ (pushOpcodeS tOp sC).functions.top.opcodes.length := by
      show 1 ≤ (sC.functions.top.opcodes ++ [tOp]).length
      simp
    have hops9 : (modTop (fun f => { f with opcodes := f.opcodes.set ((pushOpcodeS tOp sC).functions.top.opcodes.length) (.jump off) }) s8).functions.top.opcodes =
        s8.functions.top.opcodes.set
          ((pushOpcodeS tOp sC).functions.top.opcodes.length) (.jump off) := rfl
    refine ⟨(pushOpcodeS tOp sC).functions.top.opcodes.length, off, hjmp1, ?_, ?_, ?_⟩
    · rw [hops9]
      exact List.get?_set_eq_of_lt _ hjlt
    · rw [hops9, List.length_set]
      omega
    · have hle57 : opListLe
          (pushOpcodeS (.jump 0) (pushOpcodeS tOp sC)).functions.top.opcodes
          s8.functions.top.opcodes :=
        stackLe_top_opcodes (stackLe_trans hleD hE7.2)
      have hlen5 : (pushOpcodeS (.jump 0) (pushOpcodeS tOp sC)).functions.top.opcodes.length =
          sC.functions.top.opcodes.length + 2 := by
        show ((sC.functions.top.opcodes ++ [tOp]) ++ [OpCode.jump 0]).length = _
        simp
      have hidx : (pushOpcodeS tOp sC).functions.top.opcodes.length - 1 =
          sC.functions.top.opcodes.length := by
        show (sC.functions.top.opcodes ++ [tOp]).length - 1 = _
        simp
      have hget5 : (pushOpcodeS (.jump 0) (pushOpcodeS tOp sC)).functions.top.opcodes.get?
          ((pushOpcodeS tOp sC).functions.top.opcodes.length - 1) = some tOp := by
        show ((sC.functions.top.opcodes ++ [tOp]) ++ [OpCode.jump 0]).get?
          ((pushOpcodeS tOp sC).functions.top.opcodes.length - 1) = some tOp
        rw [hidx]
        rw [List.get?_append (by simp)]
        exact List.get?_concat_length _ _
      have h57 := hle57.2 ((pushOpcodeS tOp sC).functions.top.opcodes.length - 1)
        (by rw [hlen5]; omega)
      rw [hget5] at h57
      have hget7 : s8.functions.top.opcodes.get?
          ((pushOpcodeS tOp sC).functions.top.opcodes.length - 1) = some tOp := by
        rcases h57 with h57 | ⟨u, v, hu, hv⟩
        · exact h57
        · injection hu with hu
          exact absurd hu (htop u)
      rw [hops9]
      rw [List.get?_set_ne _ _ (by omega)]
      exact hget7
  next heq => exact absurd hG (by simp)

/-- C4: in the short-circuit (and/or) discharge path — for any operands,
destination, starting state and good recursion parameter (`compRun fuel`
is one) — every successful completion leaves the placeholder Jump, which
sits right after the pushed Test/TestSet opcode, patched with offset
`opcode_count - placeholder_index - 1`: the number of opcodes emitted
between the placeholder and the end of the compiled right-hand side. -/
theorem C4_shortcircuit_jump_patch (recur : Recur) (hrec : GoodRecur recur)
    (left : ExprDescriptor) (op : ShortCircuitBinOp) (right : Expression)
    (dest : ExprDestination) (s : Compiler) (res : Option Nat) (s2 : Compiler)
    (hInv : Inv s)
    (h : exprDischargeF recur (.shortCircuitBinOp left op right) dest s = .ok (res, s2)) :
    ∃ j off, 1 ≤ j ∧
      s2.functions.top.opcodes.get? j = some (.jump off) ∧
      off + j + 1 = s2.functions.top.opcodes.length ∧
      (∃ v b, s2.functions.top.opcodes.get? (j - 1) = some (.test v b) ∨
        ∃ dd, s2.functions.top.opcodes.get? (j - 1) = some (.testSet dd v b)) := by
  unfold exprDischargeF at h
  obtain ⟨result0, s1, hBIG, hwrap⟩ := stepOk_ok_elim h
  obtain ⟨hres, hs2⟩ := dischargeWrap_elim hwrap
  subst hs2
  obtain ⟨lr, sA, hA, h1⟩ := stepOk_ok_elim hBIG
  obtain ⟨hInvA, hleA, -⟩ := (gres_callRegExpr hrec _ hInv).2 _ _ hA
  obtain ⟨a1, sB, hB, h2⟩ := stepOk_ok_elim h1
  obtain ⟨hInvB, hleB, -⟩ := (gres_callOptReg hrec _ hInvA).2 _ _ hB
  obtain ⟨dst, sC, hC, h3⟩ := stepOk_ok_elim h2
  obtain ⟨hInvC, hleC, -⟩ := (gres_newDestinationS dest hInvB).2 _ _ hC
  cases dst with
  | some d =>
      obtain ⟨j, off, hj1, hjmp, hoff, htest⟩ :=
        shortCircuit_tail_spec hrec right
          (if lr.1 = d then OpCode.test lr.1 (decide (op = ShortCircuitBinOp.and))
           else OpCode.testSet d lr.1 (decide (op = ShortCircuitBinOp.and)))
          (some d) hInvC
          (by
            intro x hx
            by_cases hde : lr.1 = d
            · rw [if_pos hde] at hx
              exact absurd hx (by simp)
            · rw [if_neg hde] at hx
              exact absurd hx (by simp))
          h3
      refine ⟨j, off, hj1, hjmp, hoff, ?_⟩
      by_cases hde : lr.1 = d
      · rw [if_pos hde] at htest
        exact ⟨lr.1, decide (op = ShortCircuitBinOp.and), Or.inl htest⟩
      · rw [if_neg hde] at htest
        exact ⟨lr.1, decide (op = ShortCircuitBinOp.and), Or.inr ⟨d, htest⟩⟩
  | none =>
      obtain ⟨j, off, hj1, hjmp, hoff, htest⟩ :=
        shortCircuit_tail_spec hrec right
          (OpCode.test lr.1 (decide (op = ShortCircuitBinOp.and)))
          Option.none hInvC
          (by intro x hx; exact absurd hx (by simp))
          h3
      exact ⟨j, off, hj1, hjmp, hoff, lr.1, decide (op = ShortCircuitBinOp.and),
        Or.inl htest⟩

/-- Witness: discharging `true and true` into a fresh register patches the
placeholder Jump (index 2) with offset 1 over the right-hand side's single
LoadBool, right after the Test opcode. -/
theorem C4_shortcircuit_jump_patch_witness :
    ∃ j off, 1 ≤ j ∧
      [OpCode.loadBool 0 true false, OpCode.test 0 true, OpCode.jump 1,
        OpCode.loadBool 0 true false].get? j = some (.jump off) ∧
      off + j + 1 = 4 ∧
      (∃ v b,
        [OpCode.loadBool 0 true false, OpCode.test 0 true, OpCode.jump 1,
          OpCode.loadBool 0 true false].get? (j - 1) = some (.test v b) ∨
        ∃ dd,
          [OpCode.loadBool 0 true false, OpCode.test 0 true, OpCode.jump 1,
            OpCode.loadBool 0 true false].get? (j - 1) = some (.testSet dd v b)) :=
  C4_shortcircuit_jump_patch (compRun 40) (good_compRun 40)
    (.value (.boolean true)) ShortCircuitBinOp.and (expL .trueE)
    ExprDestination.allocateNew initCompiler (some 0) _ Inv_initCompiler rfl

/-- Exact description of `propagateOuter`: each level from `k` to the top
gains one `Outer` link to the slot pushed at the previous level, and the
returned index addresses the slot pushed at the top. -/
theorem propagateOuter_spec (name : Name) : ∀ (r k idx : Nat) (s : Compiler),
    1 ≤ k → k + r = s.functions.len →
    (∀ m, k ≤ m → m < s.functions.len → (s.functions.get m).upvalues.length ≤ 255) →
    ∃ s',
      propagateOuter name r k idx s =
        .ok ((if r = 0 then idx
              else (s.functions.get (s.functions.len - 1)).upvalues.length), s') ∧
      s'.functions.len = s.functions.len ∧
      (∀ m, m < k → s'.functions.get m = s.functions.get m) ∧
      (∀ m, k ≤ m → m < s.functions.len → (s'.functions.get m).upvalues =
        (s.functions.get m).upvalues ++
          [(name, UpValueDescriptor.outer (if m = k then idx
            else (s.functions.get (m - 1)).upvalues.length))]) := by
  intro r
  induction r with
  | zero =>
      intro k idx s hk hkr hb
      refine ⟨s, by simp [propagateOuter], rfl, fun m hm => rfl, fun m h1 h2 => ?_⟩
      exact absurd h2 (by omega)
  | succ n ih =>
      intro k idx s hk hkr hb
      have hklt : k < s.functions.len := by omega
      have hbk : (s.functions.get k).upvalues.length ≤ 255 := hb k (Nat.le_refl k) hklt
      have hlen1 : ((pushUpvalAt k (name, UpValueDescriptor.outer idx) s).functions.get
          k).upvalues.length - 1 = (s.functions.get k).upvalues.length := by
        rw [pushUpvalAt_get_self _ hklt]
        simp
      have hcastL : castU8 ((s.functions.get k).upvalues.length) =
          some ((s.functions.get k).upvalues.length) := by
        unfold castU8
        rw [if_pos hbk]
      have hstep : propagateOuter name (n + 1) k idx s =
          propagateOuter name n (k + 1) ((s.functions.get k).upvalues.length)
            (pushUpvalAt k (name, UpValueDescriptor.outer idx) s) := by
        show stepOk (liftOpt (castU8
            (((pushUpvalAt k (name, UpValueDescriptor.outer idx) s).functions.get
              k).upvalues.length - 1))
            (.limit .upValues) (pushUpvalAt k (name, UpValueDescriptor.outer idx) s))
            (fun idx1 s2 => propagateOuter name n (k + 1) idx1 s2) = _
        rw [hlen1, hcastL]
        rfl
      have hother : ∀ m, m ≠ k → m < s.functions.len →
          (pushUpvalAt k (name, UpValueDescriptor.outer idx) s).functions.get m =
            s.functions.get m :=
        fun m hm hmlt => pushUpvalAt_get_other _ hklt hmlt hm
      have hself : (pushUpvalAt k (name, UpValueDescriptor.outer idx) s).functions.get k =
          { s.functions.get k with
            upvalues := (s.functions.get k).upvalues ++
              [(name, UpValueDescriptor.outer idx)] } :=
        pushUpvalAt_get_self _ hklt
      have hplen : (pushUpvalAt k (name, UpValueDescriptor.outer idx) s).functions.len =
          s.functions.len := pushUpvalAt_len _ _ _
      obtain ⟨s', hrun, hlen', hlow', hpush'⟩ :=
        ih (k + 1) ((s.functions.get k).upvalues.length)
          (pushUpvalAt k (name, UpValueDescriptor.outer idx) s)
          (by omega) (by rw [hplen]; omega)
          (fun m h1 h2 => by
            have h2' : m < s.functions.len := by omega
            rw [hother m (by omega) h2']
            exact hb m (by omega) h2')
      have hval : (if n = 0 then (s.functions.get k).upvalues.length
            else (((pushUpvalAt k (name, UpValueDescriptor.outer idx) s).functions.get
              ((pushUpvalAt k (name,
                UpValueDescriptor.outer idx) s).functions.len - 1)).upvalues.length)) =
          (s.functions.get (s.functions.len - 1)).upvalues.length := by
        by_cases hn : n = 0
        · rw [if_pos hn]
          have he : k = s.functions.len - 1 := by omega
          rw [he]
        · rw [if_neg hn]
          rw [hplen]
          rw [hother (s.functions.len - 1) (by omega) (by omega)]
      refine ⟨s', ?_, by rw [hlen', hplen], ?_, ?_⟩
      · rw [hstep, hrun, hval]
        simp
      · intro m hm
        rw [hlow' m (by omega)]
        exact hother m (by omega) (by omega)
      · intro m h1 h2
        by_cases hmk : m = k
        · subst hmk
          rw [hlow' m (by omega), hself]
          simp
        · have h1' : k + 1 ≤ m := by omega
          rw [hpush' m h1' (by omega)]
          rw [hother m hmk h2]
          by_cases hmk1 : m = k + 1
          · subst hmk1
            rw [if_pos rfl, if_neg (by omega)]
            rw [show k + 1 - 1 = k from rfl]
          · rw [if_neg hmk1, if_neg hmk]
            rw [hother (m - 1) (by omega) (by omega)]

/-- A scan depth that has neither a local nor an upvalue for a name falls
through with the state unchanged (above depth 0, where the lazy `_ENV`
push cannot trigger). -/
theorem findVarScan_none {name : Name} {i : Nat} {s : Compiler} (h0 : i ≠ 0)
    (hL : findLocal ((s.functions.get i).locals) name = Option.none)
    (hU : findUpvalueIdx ((s.functions.get i).upvalues) name = Option.none) :
    findVarScan name i s = .ok (Option.none, s) := by
  unfold findVarScan
  simp only
  split
  next register heq =>
    rw [hL] at heq
    exact absurd heq (by simp)
  next heq =>
    rw [if_neg (fun hc => h0 hc.1)]
    rw [hU]

/-- Scans that find nothing fall through to the lower depth with the same
state. -/
theorem findVariableAux_fall (name : Name) : ∀ (i d : Nat) (s : Compiler), d ≤ i →
    (∀ m, d < m → m ≤ i → findLocal ((s.functions.get m).locals) name = Option.none) →
    (∀ m, d < m → m ≤ i →
      findUpvalueIdx ((s.functions.get m).upvalues) name = Option.none) →
    findVariableAux name i s = findVariableAux name d s := by
  intro i
  induction i with
  | zero =>
      intro d s hd _ _
      have h0 : d = 0 := Nat.le_zero.1 hd
      rw [h0]
  | succ n ih =>
      intro d s hd hL hU
      by_cases hdi : d = n + 1
      · rw [hdi]
      · have hx : findVariableAux name (n + 1) s = findVariableAux name n s := by
          have hsc : findVarScan name (n + 1) s = .ok (Option.none, s) :=
            findVarScan_none (Nat.succ_ne_zero n)
              (hL (n + 1) (by omega) (Nat.le_refl _))
              (hU (n + 1) (by omega) (Nat.le_refl _))
          show stepOk (findVarScan name (n + 1) s) (fun r s1 =>
            match r with
            | some res => .ok (res, s1)
            | Option.none => findVariableAux name n s1) = _
          rw [hsc]
          rfl
        rw [hx]
        exact ih d s (by omega) (fun m h1 h2 => hL m h1 (by omega))
          (fun m h1 h2 => hU m h1 (by omega))

/-- Scanning the depth that holds the name as a local, below the top,
starts an upvalue chain through every enclosing depth and answers with the
slot pushed at the top. -/
theorem findVarScan_local {name : Name} {d reg : Nat} {s : Compiler}
    (hd : d < s.functions.len - 1)
    (hloc : findLocal ((s.functions.get d).locals) name = some reg)
    (hb : ∀ m, d < m → m < s.functions.len → (s.functions.get m).upvalues.length ≤ 255) :
    ∃ s', findVarScan name d s =
        .ok (some (.upValue
          ((s.functions.get (s.functions.len - 1)).upvalues.length)), s') ∧
      s'.functions.len = s.functions.len ∧
      (∀ m, m ≤ d → s'.functions.get m = s.functions.get m) ∧
      (∀ m, d < m → m < s.functions.len → (s'.functions.get m).upvalues =
        (s.functions.get m).upvalues ++
          [(name, if m = d + 1 then UpValueDescriptor.parentLocal reg
                  else UpValueDescriptor.outer
                    ((s.functions.get (m - 1)).upvalues.length))]) := by
  have hLp := TopStack.len_pos s.functions
  have hd1lt : d + 1 < s.functions.len := by omega
  have hlen1 : ((pushUpvalAt (d + 1) (name, UpValueDescriptor.parentLocal reg)
      s).functions.get (d + 1)).upvalues.length - 1 =
      (s.functions.get (d + 1)).upvalues.length := by
    rw [pushUpvalAt_get_self _ hd1lt]
    simp
  have hcastL : castU8 ((s.functions.get (d + 1)).upvalues.length) =
      some ((s.functions.get (d + 1)).upvalues.length) := by
    unfold castU8
    rw [if_pos (hb (d + 1) (by omega) hd1lt)]
  have hscan : findVarScan name d s =
      stepOk (propagateOuter name (s.functions.len - (d + 2)) (d + 2)
          ((s.functions.get (d + 1)).upvalues.length)
          (pushUpvalAt (d + 1) (name, UpValueDescriptor.parentLocal reg) s))
        (fun idx s3 => .ok (some (.upValue idx), s3)) := by
    unfold findVarScan
    simp only
    split
    next register heq =>
      rw [hloc] at heq
      injection heq with heq
      subst heq
      rw [if_neg (by omega)]
      rw [hlen1, hcastL]
      rfl
    next heq =>
      rw [hloc] at heq
      exact absurd heq (by simp)
  have hplen : (pushUpvalAt (d + 1) (name,
      UpValueDescriptor.parentLocal reg) s).functions.len = s.functions.len :=
    pushUpvalAt_len _ _ _
  obtain ⟨s', hrun, hlen', hlow', hpush'⟩ :=
    propagateOuter_spec name (s.functions.len - (d + 2)) (d + 2)
      ((s.functions.get (d + 1)).upvalues.length)
      (pushUpvalAt (d + 1) (name, UpValueDescriptor.parentLocal reg) s)
      (by omega) (by rw [hplen]; omega)
      (fun m h1 h2 => by
        have h2' : m < s.functions.len := by omega
        rw [pushUpvalAt_get_other _ hd1lt h2' (by omega)]
        exact hb m (by omega) h2')
  have hval : (if s.functions.len - (d + 2) = 0
        then (s.functions.get (d + 1)).upvalues.length
        else (((pushUpvalAt (d + 1) (name,
            UpValueDescriptor.parentLocal reg) s).functions.get
          ((pushUpvalAt (d + 1) (name,
            UpValueDescriptor.parentLocal reg) s).functions.len -
              1)).upvalues.length)) =
      (s.functions.get (s.functions.len - 1)).upvalues.length := by
    by_cases hr0 : s.functions.len - (d + 2) = 0
    · rw [if_pos hr0]
      have he : d + 1 = s.functions.len - 1 := by omega
      rw [he]
    · rw [if_neg hr0]
      rw [hplen]
      rw [pushUpvalAt_get_other _ hd1lt (by omega) (by omega)]
  refine ⟨s', ?_, by rw [hlen', hplen], ?_, ?_⟩
  · rw [hscan, hrun, hval]
    rfl
  · intro m hm
    rw [hlow' m (by omega)]
    exact pushUpvalAt_get_other _ hd1lt (by omega) (by omega)
  · intro m h1 h2
    by_cases hm1 : m = d + 1
    · subst hm1
      rw [hlow' (d + 1) (by omega)]
      rw [pushUpvalAt_get_self _ hd1lt]
      simp
    · have h1' : d + 2 ≤ m := by omega
      have hm2 : m < (pushUpvalAt (d + 1) (name,
          UpValueDescriptor.parentLocal reg) s).functions.len := by
        rw [hplen]
        exact h2
      rw [hpush' m h1' hm2]
      rw [pushUpvalAt_get_other _ hd1lt h2 (by omega)]
      by_cases hm2' : m = d + 2
      · subst hm2'
        rw [if_pos rfl, if_neg (by omega)]
        rw [show d + 2 - 1 = d + 1 from rfl]
      · rw [if_neg hm2', if_neg hm1]
        rw [pushUpvalAt_get_other _ hd1lt (by omega) (by omega)]

/-- C7: resolving a name found as a local at depth `d` strictly below the
current depth `t` threads an upvalue chain: depth `d+1` gains a
`ParentLocal` slot for the register, every further depth up to `t` gains an
`Outer` slot pointing at the slot just pushed at the previous depth, and
the resolver answers `UpValue` of the slot pushed at depth `t`. -/
theorem C7_upvalue_chain (name : Name) (s : Compiler) (d t reg : Nat)
    (hlen : s.functions.len = t + 1) (hdt : d < t)
    (hnoL : ∀ m, d < m → m ≤ t →
      findLocal ((s.functions.get m).locals) name = Option.none)
    (hnoU : ∀ m, d < m → m ≤ t →
      findUpvalueIdx ((s.functions.get m).upvalues) name = Option.none)
    (hloc : findLocal ((s.functions.get d).locals) name = some reg)
    (hb : ∀ m, d < m → m ≤ t → (s.functions.get m).upvalues.length ≤ 255) :
    ∃ s', findVariableS name s =
        .ok (.upValue ((s.functions.get t).upvalues.length), s') ∧
      s'.functions.len = s.functions.len ∧
      (∀ m, m ≤ d → s'.functions.get m = s.functions.get m) ∧
      (∀ m, d < m → m ≤ t → (s'.functions.get m).upvalues =
        (s.functions.get m).upvalues ++
          [(name, if m = d + 1 then UpValueDescriptor.parentLocal reg
                  else UpValueDescriptor.outer
                    ((s.functions.get (m - 1)).upvalues.length))]) := by
  obtain ⟨s', hs, hlen', hlow, hpush⟩ :=
    findVarScan_local (by omega) hloc (fun m h1 h2 => hb m h1 (by omega))
  have ht : s.functions.len - 1 = t := by omega
  rw [ht] at hs
  have hfall : findVariableAux name t s = findVariableAux name d s :=
    findVariableAux_fall name t d s (Nat.le_of_lt hdt) hnoL hnoU
  have hd' : findVariableAux name d s =
      .ok (.upValue ((s.functions.get t).upvalues.length), s') := by
    cases d with
    | zero =>
        show stepOk (findVarScan name 0 s) (fun r s1 =>
          match r with
          | some res => .ok (res, s1)
          | Option.none => .ok (.global name, s1)) = _
        rw [hs]
        rfl
    | succ e =>
        show stepOk (findVarScan name (e + 1) s) (fun r s1 =>
          match r with
          | some res => .ok (res, s1)
          | Option.none => findVariableAux name e s1) = _
        rw [hs]
        rfl
  refine ⟨s', ?_, hlen', hlow, fun m h1 h2 => hpush m h1 (by omega)⟩
  show findVariableAux name (s.functions.len - 1) s = _
  rw [ht, hfall, hd']

/-- Witness: in a three-deep stack whose chunk function holds local `v` in
register 0, resolving `v` pushes ParentLocal at depth 1, Outer at depth 2,
and answers the upvalue at the top. -/
theorem C7_upvalue_chain_witness :
    ∃ s', findVariableS "v" upvalChainState =
        .ok (.upValue ((upvalChainState.functions.get 2).upvalues.length), s') ∧
      s'.functions.len = upvalChainState.functions.len ∧
      (∀ m, m ≤ 0 → s'.functions.get m = upvalChainState.functions.get m) ∧
      (∀ m, 0 < m → m ≤ 2 → (s'.functions.get m).upvalues =
        (upvalChainState.functions.get m).upvalues ++
          [("v", if m = 0 + 1 then UpValueDescriptor.parentLocal 0
                 else UpValueDescriptor.outer
                   ((upvalChainState.functions.get (m - 1)).upvalues.length))]) :=
  C7_upvalue_chain "v" upvalChainState 0 2 0 rfl (by decide)
    (fun m h1 h2 => by interval_cases m <;> rfl)
    (fun m h1 h2 => by interval_cases m <;> rfl)
    rfl
    (fun m h1 h2 => by interval_cases m <;> decide)

/-- `stackLe` restricted to the top function's interning table. -/
theorem stackLe_top_tab {s s1 : Compiler} (h : stackLe s s1) :
    tabSub s.functions.top.constantTable s1.functions.top.constantTable := by
  have hp := TopStack.len_pos s.functions
  have hl := h.2.2 (s.functions.len - 1) (by omega)
  rw [TopStack.get_top] at hl
  have he : s.functions.len - 1 = s1.functions.len - 1 := by rw [h.1]
  rw [he, TopStack.get_top] at hl
  exact hl

/-- Any sequence of calls of a good recursion is good. -/
theorem good_runCalls {recur : Recur} (hrec : GoodRecur recur) :
    ∀ (calls : List CompCall) {s : Compiler}, Inv s →
      GRes s (runCalls recur calls s) (fun _ _ => True) := by
  intro calls
  induction calls with
  | nil =>
      intro s hInv
      exact gres_ok hInv (stackLe_refl s) trivial
  | cons c rest ih =>
      intro s hInv
      unfold runCalls
      refine gres_stepOk (hrec c s hInv) ?_
      intro a s1 h1 hle hpost
      exact ih h1

/-- A `get_constant` insertion leaves the value recorded in the current
function's interning table at the returned index. -/
theorem getConstantS_records {v : Value} {s : Compiler} {c : Nat} {s1 : Compiler}
    (h : getConstantS v s = .ok (c, s1)) :
    lookupConstant s1.functions.top.constantTable v = some c := by
  unfold getConstantS at h
  split at h
  next c0 hl =>
    injection h with h
    injection h with hc hs
    subst hc
    subst hs
    exact hl
  next hl =>
    split at h
    next c16 hc16 =>
      injection h with h
      injection h with hc hs
      subst hc
      subst hs
      show lookupConstant ((v, c16) :: s.functions.top.constantTable) v = some c16
      rw [lookupConstant_cons]
      simp
    next => exact absurd h (by simp)

/-- A value the interning table records is answered directly, with no
state change. -/
theorem getConstantS_of_lookup {v : Value} {s : Compiler} {c : Nat}
    (h : lookupConstant s.functions.top.constantTable v = some c) :
    getConstantS v s = .ok (c, s) := by
  unfold getConstantS
  rw [h]

/-- C6: constant interning is idempotent on bit-identical values — a
second insertion of a value (values compare by their bit representation:
`Value` equality distinguishes every float bit pattern and every handle
identity) returns the index recorded by the first without changing the
state, both immediately and after an arbitrary interleaved stretch of
compilation work on the same function; and consequently the constant pool
of every emitted prototype, nested prototypes included, holds each value
at most once. -/
theorem C6_constant_interning_dedup :
    (∀ (v : Value) (s : Compiler) (c : Nat) (s1 : Compiler),
        getConstantS v s = .ok (c, s1) →
        getConstantS v s1 = .ok (c, s1) ∧
        lookupConstant s1.functions.top.constantTable v = some c) ∧
    (∀ (recur : Recur), GoodRecur recur →
      ∀ (v : Value) (s : Compiler) (c : Nat) (s1 : Compiler)
        (calls : List CompCall) (u : Unit) (s2 : Compiler),
        Inv s → getConstantS v s = .ok (c, s1) →
        runCalls recur calls s1 = .ok (u, s2) →
        getConstantS v s2 = .ok (c, s2)) ∧
    (∀ (fuel : Nat) (chunk : Chunk) (p : FunctionProto),
        compileChunk fuel chunk = .ok p → protoConstsNodup p = true) := by
  refine ⟨?_, ?_, ?_⟩
  · intro v s c s1 h
    exact ⟨getConstantS_of_lookup (getConstantS_records h), getConstantS_records h⟩
  · intro recur hrec v s c s1 calls u s2 hInv h hrun
    have hInv1 : Inv s1 := ((gres_getConstantS v hInv).2 c s1 h).1
    have hg := (good_runCalls hrec calls hInv1).2 u s2 hrun
    exact getConstantS_of_lookup (stackLe_top_tab hg.2.1 v c (getConstantS_records h))
  · intro fuel chunk p h
    obtain ⟨s, hInv, hlen, hret, _, ht⟩ := compileChunk_ok_elim h
    exact (protoOK_of_toProto ht (FnOk_top_of_Inv hInv) hret).2

/-- C10: every function body that compiles successfully has a non-empty
opcode list ending in a Return, recursively through all nested
prototypes; and a body whose block has no explicit return statement ends
in the implicit `Return{start 0, count zero}` — for the top-level chunk
block directly, and for every nested function definition through the
prototype `new_prototype` appends under any good recursion parameter
(`compRun fuel` is one). -/
theorem C10_opcodes_end_in_return :
    (∀ (fuel : Nat) (chunk : Chunk) (p : FunctionProto),
        compileChunk fuel chunk = .ok p →
        protoRetOK p = true ∧
        (chunk.block.returnStatement = Option.none →
          p.opcodes.getLast? = some (.ret 0 VarCount.makeZero))) ∧
    (∀ (recur : Recur), GoodRecur recur →
      ∀ (d : FunctionDefinition) (s : Compiler) (idx : Nat) (s' : Compiler),
        Inv s → newPrototypeF recur d s = .ok (idx, s') →
        ∃ proto, s'.functions.top.prototypes.getLast? = some proto ∧
          protoRetOK proto = true ∧
          (d.body.returnStatement = Option.none →
            proto.opcodes.getLast? = some (.ret 0 VarCount.makeZero))) := by
  refine ⟨?_, ?_⟩
  · intro fuel chunk p h
    obtain ⟨s, hInv, hlen, hret, hnone, ht⟩ := compileChunk_ok_elim h
    obtain ⟨hops, _, _, _⟩ := toProto_spec ht
    refine ⟨(protoOK_of_toProto ht (FnOk_top_of_Inv hInv) hret).1, ?_⟩
    intro hnb
    rw [hops]
    exact hnone hnb
  · intro recur hrec d s idx s' hInv h
    obtain ⟨proto, h1, h2, h3, h4⟩ := ((good_newPrototypeF hrec d hInv).2 idx s' h).2.2
    exact ⟨proto, h1, h2, h4⟩

/-- C10 witness: compiling an empty parameterless function body through
`new_prototype` appends a prototype whose only opcode is the implicit
`Return{start 0, count zero}`. -/
theorem C10_opcodes_end_in_return_witness :
    ∃ proto,
      ([FunctionProto.mk 0 false 0 [] [.ret 0 VarCount.makeZero] [] []] :
        List FunctionProto).getLast? = some proto ∧
      protoRetOK proto = true ∧
      ((FunctionDefinition.mk [] false (.mk [] Option.none)).body.returnStatement =
          Option.none →
        proto.opcodes.getLast? = some (.ret 0 VarCount.makeZero)) :=
  C10_opcodes_end_in_return.2 (compRun 40) (good_compRun 40)
    (.mk [] false (.mk [] Option.none)) initCompiler 0 _ Inv_initCompiler rfl

/-- A chunk without any global reference can still gain the Environment
upvalue: `local x = _ENV` resolves `_ENV` itself, which triggers the lazy
slot creation, so laziness is keyed to the first resolution of the name
`_ENV`, not to global references. -/
theorem chunkLocalEnv_env_upvalue :
    compileChunk 50 chunkLocalEnv =
      .ok (.mk 0 false 1 [] [.getUpValue 0 0, .ret 0 VarCount.makeZero]
        [.environment] []) := rfl

end Luster
